/-
A verification development for the kube-batch scheduling engine.

The Go sources are shallowly embedded as Lean definitions:

* pointer-keyed Go maps become association lists over `String` keys;
* in-place mutation becomes explicit state passing: every operation returns
  the updated entity (and, where the Go code mutates a caller-supplied
  `*TaskInfo`, also the updated task value);
* `int32`/`int64` fields become `Int`; resource quantities (Go `float64`)
  are modelled as exact integers, which is faithful for the algebraic
  claims considered here;
* fallible Go functions returning `error` become `Except String`;
* `glog.Fatalf` (process abort) becomes `Option` with `none` for the
  aborted execution, so that no post-state is observable;
* detached effector calls (`Binder.Bind`, `Evictor.Evict`, volume binding)
  are recorded in an effect trace instead of being performed.
-/
import Mathlib

set_option linter.unusedVariables false
set_option linter.unnecessarySimpa false

/-! ## Association lists

Go maps (`map[string]*T`) are modelled as association lists with `String`
keys.  `alookup` finds the first binding, `setKey` replaces the binding of
an existing key in place, `eraseKey` deletes the first binding of a key. -/

def alookup {α : Type} (k : String) : List (String × α) → Option α
  | [] => none
  | (k', v) :: rest => if k' = k then some v else alookup k rest

def setKey {α : Type} (k : String) (v : α) : List (String × α) → List (String × α)
  | [] => []
  | (k', v') :: rest => if k' = k then (k', v) :: rest else (k', v') :: setKey k v rest

def eraseKey {α : Type} (k : String) : List (String × α) → List (String × α)
  | [] => []
  | (k', v') :: rest => if k' = k then rest else (k', v') :: eraseKey k rest

@[simp] theorem alookup_nil {α : Type} (k : String) : alookup (α := α) k [] = none := rfl

theorem alookup_cons {α : Type} (k k' : String) (v : α) (l : List (String × α)) :
    alookup k ((k', v) :: l) = if k' = k then some v else alookup k l := rfl

@[simp] theorem alookup_cons_self {α : Type} (k : String) (v : α) (l : List (String × α)) :
    alookup k ((k, v) :: l) = some v := by simp [alookup_cons]

theorem alookup_setKey {α : Type} (k k' : String) (v : α) (l : List (String × α)) :
    alookup k (setKey k' v l) =
      if k' = k ∧ (alookup k' l).isSome then some v else alookup k l := by
  induction l with
  | nil => simp [setKey]
  | cons p rest ih =>
    obtain ⟨pk, pv⟩ := p
    by_cases h1 : pk = k'
    · subst h1
      by_cases h2 : pk = k
      · subst h2
        simp [setKey, alookup_cons]
      · simp [setKey, alookup_cons, h2]
    · by_cases h2 : pk = k
      · subst h2
        have h3 : ¬ k' = pk := fun hh => h1 hh.symm
        simp [setKey, h1, alookup_cons, h3]
      · simp [setKey, h1, alookup_cons, h2, ih]

theorem alookup_setKey_self {α : Type} (k : String) (v w : α) (l : List (String × α))
    (h : alookup k l = some w) : alookup k (setKey k v l) = some v := by
  rw [alookup_setKey]
  simp [h]

theorem alookup_setKey_ne {α : Type} (k k' : String) (v : α) (l : List (String × α))
    (h : k' ≠ k) : alookup k (setKey k' v l) = alookup k l := by
  rw [alookup_setKey]
  simp [h]

theorem setKey_of_alookup_eq {α : Type} (k : String) (v : α) (l : List (String × α))
    (h : alookup k l = some v) : setKey k v l = l := by
  induction l with
  | nil => simp at h
  | cons p rest ih =>
    obtain ⟨pk, pv⟩ := p
    by_cases h1 : pk = k
    · subst h1
      simp [alookup_cons] at h
      simp [setKey, h]
    · simp [alookup_cons, h1] at h
      simp [setKey, h1, ih h]

theorem setKey_setKey {α : Type} (k : String) (v w : α) (l : List (String × α)) :
    setKey k w (setKey k v l) = setKey k w l := by
  induction l with
  | nil => simp [setKey]
  | cons p rest ih =>
    obtain ⟨pk, pv⟩ := p
    by_cases h1 : pk = k
    · simp [setKey, h1]
    · simp [setKey, h1, ih]

theorem alookup_eraseKey_self {α : Type} (k : String) (l : List (String × α))
    (hnd : (l.map Prod.fst).Nodup) : alookup k (eraseKey k l) = none := by
  induction l with
  | nil => simp [eraseKey]
  | cons p rest ih =>
    obtain ⟨pk, pv⟩ := p
    simp only [List.map_cons, List.nodup_cons] at hnd
    by_cases h1 : pk = k
    · subst h1
      cases h : alookup pk rest with
      | none => simp [eraseKey, h]
      | some w =>
        exfalso
        apply hnd.1
        clear ih hnd
        induction rest with
        | nil => simp at h
        | cons q rest' ih' =>
          obtain ⟨qk, qv⟩ := q
          by_cases h2 : qk = pk
          · subst h2; simp
          · simp [alookup_cons, h2] at h
            simp [ih' h]
    · simp [eraseKey, h1, alookup_cons, ih hnd.2]

theorem alookup_eraseKey_ne {α : Type} (k k' : String) (l : List (String × α))
    (h : k' ≠ k) : alookup k (eraseKey k' l) = alookup k l := by
  induction l with
  | nil => simp [eraseKey]
  | cons p rest ih =>
    obtain ⟨pk, pv⟩ := p
    by_cases h1 : pk = k'
    · subst h1
      simp [eraseKey, alookup_cons, fun hh : pk = k => h hh]
    · simp [eraseKey, h1, alookup_cons, ih]

theorem keys_setKey {α : Type} (k : String) (v : α) (l : List (String × α)) :
    (setKey k v l).map Prod.fst = l.map Prod.fst := by
  induction l with
  | nil => simp [setKey]
  | cons p rest ih =>
    obtain ⟨pk, pv⟩ := p
    by_cases h1 : pk = k <;> simp [setKey, h1, ih]

theorem mem_keys_of_mem_keys_eraseKey {α : Type} (x k : String) (l : List (String × α))
    (h : x ∈ (eraseKey k l).map Prod.fst) : x ∈ l.map Prod.fst := by
  induction l with
  | nil => simpa [eraseKey] using h
  | cons p rest ih =>
    obtain ⟨pk, pv⟩ := p
    by_cases h1 : pk = k
    · simp only [eraseKey, if_pos h1] at h
      simp [h]
    · simp only [eraseKey, if_neg h1, List.map_cons, List.mem_cons] at h
      rcases h with h | h
      · simp [h]
      · simp [ih h]

theorem nodup_keys_eraseKey {α : Type} (k : String) (l : List (String × α))
    (hnd : (l.map Prod.fst).Nodup) : ((eraseKey k l).map Prod.fst).Nodup := by
  induction l with
  | nil => simpa [eraseKey] using hnd
  | cons p rest ih =>
    obtain ⟨pk, pv⟩ := p
    simp only [List.map_cons, List.nodup_cons] at hnd
    by_cases h1 : pk = k
    · simpa [eraseKey, h1] using hnd.2
    · simp only [eraseKey, if_neg h1, List.map_cons, List.nodup_cons]
      exact ⟨fun hm => hnd.1 (mem_keys_of_mem_keys_eraseKey pk k rest hm), ih hnd.2⟩

theorem nodup_keys_setKey {α : Type} (k : String) (v : α) (l : List (String × α))
    (hnd : (l.map Prod.fst).Nodup) : ((setKey k v l).map Prod.fst).Nodup := by
  rw [keys_setKey]; exact hnd

theorem alookup_eq_none_of_not_mem_keys {α : Type} (k : String) (l : List (String × α))
    (h : k ∉ l.map Prod.fst) : alookup k l = none := by
  induction l with
  | nil => rfl
  | cons p rest ih =>
    obtain ⟨pk, pv⟩ := p
    simp only [List.map_cons, List.mem_cons] at h
    push_neg at h
    have h1 : ¬ pk = k := fun hh => h.1 hh.symm
    simp [alookup_cons, h1, ih h.2]

theorem mem_keys_of_alookup_isSome {α : Type} (k : String) (l : List (String × α))
    (h : (alookup k l).isSome) : k ∈ l.map Prod.fst := by
  by_contra hc
  rw [alookup_eq_none_of_not_mem_keys k l hc] at h
  simp at h

/-! ## Resource algebra

Modelled from the spec: `resource_info.go` is not among the provided
sources (only `resource_info_test.go` is).  The spec describes a Resource
as a vector over milli-CPU, memory bytes and named scalar resources, with
per-dimension `Add`, `Sub` (exact arithmetic), `LessEqual` and `Clone`,
absent scalar entries counting as zero.  `LessEqual` additionally shows a
per-dimension tolerance in `resource_info_test.go` (a left value within
`minMilliCPU` / `minMemory` / `minMilliScalarResources` of the right value
compares as less-or-equal, and scalar values equal to -1 are skipped);
the model reproduces that behaviour and is checked below against every
vector of `TestAddResource`, `TestSubResource`, `TestLessEqual` and
`TestLess`.  Quantities are exact integers here. -/

abbrev ResName := String

structure Resource where
  milliCPU : Int
  memory : Int
  scalars : List (ResName × Int)
deriving DecidableEq, Repr

def emptyResource : Resource := ⟨0, 0, []⟩

def Resource.getScalar (r : Resource) (n : ResName) : Int :=
  (alookup n r.scalars).getD 0

def Resource.keys (r : Resource) : List ResName :=
  r.scalars.map Prod.fst

/-- A resource dimension: milli-CPU, memory, or a named scalar resource. -/
inductive Dim where
  | cpu : Dim
  | mem : Dim
  | scalar : ResName → Dim

def Resource.get (r : Resource) : Dim → Int
  | .cpu => r.milliCPU
  | .mem => r.memory
  | .scalar n => r.getScalar n

def Resource.clone (r : Resource) : Resource := r

def unionKeys (a b : Resource) : List ResName :=
  (a.keys ++ b.keys).dedup

def Resource.add (a b : Resource) : Resource :=
  { milliCPU := a.milliCPU + b.milliCPU
    memory := a.memory + b.memory
    scalars := (unionKeys a b).map fun n => (n, a.getScalar n + b.getScalar n) }

def Resource.sub (a b : Resource) : Resource :=
  { milliCPU := a.milliCPU - b.milliCPU
    memory := a.memory - b.memory
    scalars := (unionKeys a b).map fun n => (n, a.getScalar n - b.getScalar n) }

def minMilliCPU : Int := 10

def minMemory : Int := 10 * 1024 * 1024

def minMilliScalarResources : Int := 10

def lessEqualFunc (l r diff : Int) : Bool :=
  decide (l < r) || decide (|l - r| < diff)

def Resource.lessEqual (a b : Resource) : Bool :=
  lessEqualFunc a.milliCPU b.milliCPU minMilliCPU &&
  lessEqualFunc a.memory b.memory minMemory &&
  a.scalars.all fun p =>
    let rv := b.getScalar p.1
    decide (p.2 = -1) || decide (rv = -1) || lessEqualFunc p.2 rv minMilliScalarResources

def Resource.less (a b : Resource) : Bool :=
  decide (a.milliCPU < b.milliCPU) &&
  decide (a.memory < b.memory) &&
  a.scalars.all fun p => decide (p.2 < b.getScalar p.1)

/-- Pointwise (per-dimension) equality of resource vectors, as a decidable
check over the keys occurring on either side. -/
def Resource.eqv (a b : Resource) : Bool :=
  decide (a.milliCPU = b.milliCPU) && decide (a.memory = b.memory) &&
  (a.keys ++ b.keys).all fun n => decide (a.getScalar n = b.getScalar n)

theorem getScalar_eq_zero_of_not_mem_keys (r : Resource) (n : ResName)
    (h : n ∉ r.keys) : r.getScalar n = 0 := by
  unfold Resource.getScalar
  rw [alookup_eq_none_of_not_mem_keys n r.scalars h]
  rfl

theorem alookup_map_self (f : ResName → Int) (l : List ResName) (n : ResName) :
    alookup n (l.map fun k => (k, f k)) = if n ∈ l then some (f n) else none := by
  induction l with
  | nil => simp
  | cons k rest ih =>
    by_cases h : k = n
    · subst h; simp [alookup_cons]
    · simp [alookup_cons, h, ih, Ne.symm h]

theorem getD_alookup_map (f : ResName → Int) (l : List ResName) (n : ResName) :
    (alookup n (l.map fun k => (k, f k))).getD 0 = if n ∈ l then f n else 0 := by
  rw [alookup_map_self]
  by_cases h : n ∈ l <;> simp [h]

theorem not_mem_unionKeys (a b : Resource) (n : ResName) (h : n ∉ unionKeys a b) :
    n ∉ a.keys ∧ n ∉ b.keys := by
  unfold unionKeys at h
  rw [List.mem_dedup, List.mem_append] at h
  push_neg at h
  exact h

theorem Resource.get_add (a b : Resource) (d : Dim) :
    (a.add b).get d = a.get d + b.get d := by
  cases d with
  | cpu => rfl
  | mem => rfl
  | scalar n =>
    show (alookup n ((unionKeys a b).map fun m => (m, a.getScalar m + b.getScalar m))).getD 0
      = a.getScalar n + b.getScalar n
    rw [getD_alookup_map]
    by_cases h : n ∈ unionKeys a b
    · rw [if_pos h]
    · rw [if_neg h]
      obtain ⟨h1, h2⟩ := not_mem_unionKeys a b n h
      rw [getScalar_eq_zero_of_not_mem_keys a n h1, getScalar_eq_zero_of_not_mem_keys b n h2]
      simp

theorem Resource.get_sub (a b : Resource) (d : Dim) :
    (a.sub b).get d = a.get d - b.get d := by
  cases d with
  | cpu => rfl
  | mem => rfl
  | scalar n =>
    show (alookup n ((unionKeys a b).map fun m => (m, a.getScalar m - b.getScalar m))).getD 0
      = a.getScalar n - b.getScalar n
    rw [getD_alookup_map]
    by_cases h : n ∈ unionKeys a b
    · rw [if_pos h]
    · rw [if_neg h]
      obtain ⟨h1, h2⟩ := not_mem_unionKeys a b n h
      rw [getScalar_eq_zero_of_not_mem_keys a n h1, getScalar_eq_zero_of_not_mem_keys b n h2]
      simp

theorem Resource.eqv_iff (a b : Resource) :
    a.eqv b = true ↔ ∀ d, a.get d = b.get d := by
  constructor
  · intro h d
    unfold Resource.eqv at h
    simp only [Bool.and_eq_true, decide_eq_true_eq, List.all_eq_true] at h
    cases d with
    | cpu => exact h.1.1
    | mem => exact h.1.2
    | scalar n =>
      show a.getScalar n = b.getScalar n
      by_cases hm : n ∈ a.keys ++ b.keys
      · have := h.2 n hm
        simpa using this
      · rw [List.mem_append] at hm
        push_neg at hm
        rw [getScalar_eq_zero_of_not_mem_keys a n hm.1,
          getScalar_eq_zero_of_not_mem_keys b n hm.2]
  · intro h
    unfold Resource.eqv
    simp only [Bool.and_eq_true, decide_eq_true_eq, List.all_eq_true]
    exact ⟨⟨h .cpu, h .mem⟩, fun n _ => by simpa using h (.scalar n)⟩

/-! Checks of the model against the test vectors of `resource_info_test.go`
(`TestAddResource`, `TestSubResource`, `TestLessEqual`, `TestLess`). -/

example :
    (Resource.add ⟨0, 0, []⟩ ⟨4000, 2000, [("s1", 1), ("ht", 2)]⟩).eqv
      ⟨4000, 2000, [("s1", 1), ("ht", 2)]⟩ = true := by decide

example :
    (Resource.add ⟨4000, 4000, [("s1", 1), ("ht", 2)]⟩
      ⟨4000, 2000, [("s1", 4), ("ht", 5)]⟩).eqv
      ⟨8000, 6000, [("s1", 5), ("ht", 7)]⟩ = true := by decide

example :
    (Resource.add ⟨4000, 4000, [("s1", 1)]⟩ ⟨4000, 2000, [("s1", 4), ("ht", 5)]⟩).eqv
      ⟨8000, 6000, [("s1", 5), ("ht", 5)]⟩ = true := by decide

example :
    (Resource.sub ⟨4000, 2000, [("s1", 1), ("ht", 2)]⟩ ⟨0, 0, []⟩).eqv
      ⟨4000, 2000, [("s1", 1), ("ht", 2)]⟩ = true := by decide

example :
    (Resource.sub ⟨4000, 4000, [("s1", 1000), ("ht", 2000)]⟩
      ⟨3000, 2000, [("s1", 500), ("ht", 1000)]⟩).eqv
      ⟨1000, 2000, [("s1", 500), ("ht", 1000)]⟩ = true := by decide

example : Resource.lessEqual ⟨0, 0, []⟩ ⟨0, 0, []⟩ = true := by decide

example :
    Resource.lessEqual ⟨0, 0, []⟩ ⟨4000, 2000, [("s1", 1000), ("ht", 2000)]⟩ = true := by
  decide

example :
    Resource.lessEqual ⟨4000, 4000, [("s1", 1000), ("ht", 2000)]⟩
      ⟨2000, 2000, [("s1", 4000), ("ht", 5000)]⟩ = false := by decide

example : Resource.lessEqual ⟨4, 4000, [("s1", 1)]⟩ ⟨0, 0, []⟩ = true := by decide

example :
    Resource.lessEqual ⟨4000, 4000, [("s1", 1000), ("ht", 2000)]⟩
      ⟨8000, 8000, [("s1", 4000), ("ht", 5000)]⟩ = true := by decide

example : Resource.lessEqual ⟨0, 0, [("s1", 0), ("ht", 0)]⟩ ⟨0, 0, []⟩ = true := by decide

example : Resource.lessEqual ⟨10, 4000, []⟩ ⟨100, 4000, [("s1", 0)]⟩ = true := by decide

example : Resource.less ⟨0, 0, []⟩ ⟨0, 0, []⟩ = false := by decide

example :
    Resource.less ⟨0, 0, []⟩ ⟨4000, 2000, [("s1", 1000), ("ht", 2000)]⟩ = true := by decide

example :
    Resource.less ⟨4000, 4000, [("s1", 1000), ("ht", 2000)]⟩
      ⟨8000, 8000, [("s1", 4000), ("ht", 5000)]⟩ = true := by decide

example :
    Resource.less ⟨4000, 4000, [("s1", 5000), ("ht", 2000)]⟩
      ⟨8000, 8000, [("s1", 4000), ("ht", 5000)]⟩ = false := by decide

example :
    Resource.less ⟨9000, 4000, [("s1", 1000), ("ht", 2000)]⟩
      ⟨8000, 8000, [("s1", 4000), ("ht", 5000)]⟩ = false := by decide

/-! ## Tasks

`TaskStatus` and the `TaskInfo` fields used by the scheduling engine.
`task_info.go` is not among the provided sources; the status set and the
fields are taken from the spec (§3) and from their uses in `node_info.go`,
the statement, the cache and the plugins.  `PodKey` derives a task
identifier from the backing pod; it is modelled as the task id itself.
`TaskInfo.Clone` produces an independent copy, which for a value model is
the value itself. -/

inductive TaskStatus where
  | Pending | Allocated | Pipelined | Binding | Bound | Running
  | Releasing | Succeeded | Failed | Unknown
deriving DecidableEq, Repr

structure TaskInfo where
  uid : String
  job : String
  name : String
  nodeName : String
  resreq : Resource
  priority : Int
  status : TaskStatus
  volumeReady : Bool
deriving DecidableEq, Repr

def PodKey (t : TaskInfo) : String := t.uid

def TaskInfo.clone (t : TaskInfo) : TaskInfo := t

/-! ## Nodes (`node_info.go`)

`KNode` stands for the backing `v1.Node`; the `NewResource` conversion of
its `Status.Allocatable` / `Status.Capacity` resource lists is modelled by
storing the converted `Resource` values directly. -/

structure KNode where
  name : String
  allocatable : Resource
  capacity : Resource
deriving DecidableEq, Repr

inductive NodePhase where
  | Ready | NotReady
deriving DecidableEq, Repr

structure NodeState where
  phase : NodePhase
  reason : String
deriving DecidableEq, Repr

structure NodeInfo where
  name : String
  node : Option KNode
  state : NodeState
  releasing : Resource
  pipelined : Resource
  idle : Resource
  used : Resource
  allocatable : Resource
  capability : Resource
  tasks : List (String × TaskInfo)
deriving DecidableEq, Repr

/-- `NodeInfo.FutureIdle`: `ni.Idle.Clone().Add(ni.Releasing).Sub(ni.Pipelined)`. -/
def NodeInfo.futureIdle (ni : NodeInfo) : Resource :=
  (ni.idle.clone.add ni.releasing).sub ni.pipelined

/-- `NodeInfo.Ready`: whether the node phase is `Ready`. -/
def NodeInfo.ready (ni : NodeInfo) : Bool :=
  ni.state.phase == NodePhase.Ready

/-- `NodeInfo.setNodeState`: nil node gives `NotReady/UnInitialized`; a node
whose current `Used` is not `LessEqual` the new allocatable gives
`NotReady/OutOfSync`; otherwise `Ready`. -/
def NodeInfo.setNodeState (ni : NodeInfo) (node : Option KNode) : NodeInfo :=
  match node with
  | none => { ni with state := ⟨.NotReady, "UnInitialized"⟩ }
  | some n =>
    if ¬ ni.used.lessEqual n.allocatable then
      { ni with state := ⟨.NotReady, "OutOfSync"⟩ }
    else
      { ni with state := ⟨.Ready, ""⟩ }

/-- The per-task accounting switch shared by `SetNode` (and mirrored by the
`AddTask` branches): a `Releasing` task subtracts from `Idle` and adds to
both `Releasing` and `Used`; a `Pipelined` task adds to `Pipelined` only;
any other task subtracts from `Idle` and adds to `Used`. -/
def NodeInfo.accountTask (ni : NodeInfo) (ti : TaskInfo) : NodeInfo :=
  match ti.status with
  | .Releasing =>
    { ni with idle := ni.idle.sub ti.resreq, releasing := ni.releasing.add ti.resreq,
              used := ni.used.add ti.resreq }
  | .Pipelined => { ni with pipelined := ni.pipelined.add ti.resreq }
  | _ => { ni with idle := ni.idle.sub ti.resreq, used := ni.used.add ti.resreq }

/-- `NodeInfo.SetNode`: recompute the node state; if the result is not
`Ready`, return with everything else untouched; otherwise replace the
name, backing node and resource vectors and rebuild `Idle`, `Used`,
`Releasing`, `Pipelined` from the per-task statuses. -/
def NodeInfo.setNode (ni : NodeInfo) (node : Option KNode) : NodeInfo :=
  let ni1 := ni.setNodeState node
  if ¬ ni1.ready then ni1
  else
    match node with
    | none => ni1
    | some n =>
      let base := { ni1 with
        name := n.name
        node := some n
        allocatable := n.allocatable
        capability := n.capacity
        releasing := emptyResource
        pipelined := emptyResource
        idle := n.allocatable
        used := emptyResource }
      ni1.tasks.foldl (fun acc p => acc.accountTask p.2) base

/-- `NewNodeInfo`. -/
def NewNodeInfo (node : Option KNode) : NodeInfo :=
  let ni : NodeInfo :=
    match node with
    | none =>
      { name := ""
        node := none
        state := ⟨.NotReady, ""⟩
        releasing := emptyResource
        pipelined := emptyResource
        idle := emptyResource
        used := emptyResource
        allocatable := emptyResource
        capability := emptyResource
        tasks := [] }
    | some n =>
      { name := n.name
        node := some n
        state := ⟨.NotReady, ""⟩
        releasing := emptyResource
        pipelined := emptyResource
        idle := n.allocatable
        used := emptyResource
        allocatable := n.allocatable
        capability := n.capacity
        tasks := [] }
  ni.setNodeState node

/-- `NodeInfo.allocateIdleResource`: subtract the request from `Idle` when
it fits, otherwise fail. -/
def NodeInfo.allocateIdleResource (ni : NodeInfo) (ti : TaskInfo) : Except String NodeInfo :=
  if ti.resreq.lessEqual ni.idle then
    .ok { ni with idle := ni.idle.sub ti.resreq }
  else
    .error "Selected node NotReady"

/-- The `if ni.Node != nil { switch ti.Status ... }` block of
`NodeInfo.AddTask`, factored out as a named helper. -/
def NodeInfo.addTaskVect (ni : NodeInfo) (ti : TaskInfo) : Except String NodeInfo :=
  match ni.node with
  | some _ =>
    match ti.status with
    | .Releasing =>
      match ni.allocateIdleResource ti with
      | .error e => .error e
      | .ok ni1 =>
        .ok { ni1 with releasing := ni1.releasing.add ti.resreq,
                       used := ni1.used.add ti.resreq }
    | .Pipelined => .ok { ni with pipelined := ni.pipelined.add ti.resreq }
    | _ =>
      match ni.allocateIdleResource ti with
      | .error e => .error e
      | .ok ni1 => .ok { ni1 with used := ni1.used.add ti.resreq }
  | none => .ok ni

/-- `NodeInfo.AddTask`.  The Go code mutates the caller task's `NodeName`
on success; the model returns the updated node together with the updated
caller task. -/
def NodeInfo.addTask (ni : NodeInfo) (task : TaskInfo) : Except String (NodeInfo × TaskInfo) :=
  if task.nodeName.length > 0 ∧ ni.name.length > 0 ∧ task.nodeName ≠ ni.name then
    .error "task already on different node"
  else if (alookup (PodKey task) ni.tasks).isSome then
    .error "task already on node"
  else
    let ti := task.clone
    match ni.addTaskVect ti with
    | .error e => .error e
    | .ok ni2 =>
      let ti' := { ti with nodeName := ni.name }
      .ok ({ ni2 with tasks := (PodKey task, ti') :: ni2.tasks },
        { task with nodeName := ni.name })

/-- The `if ni.Node != nil { switch task.Status ... }` block of
`NodeInfo.RemoveTask`, factored out as a named helper.  `task` is the
stored copy found on the node. -/
def NodeInfo.removeTaskVect (ni : NodeInfo) (task : TaskInfo) : NodeInfo :=
  match ni.node with
  | some _ =>
    match task.status with
    | .Releasing =>
      { ni with releasing := ni.releasing.sub task.resreq,
                idle := ni.idle.add task.resreq,
                used := ni.used.sub task.resreq }
    | .Pipelined => { ni with pipelined := ni.pipelined.sub task.resreq }
    | _ =>
      { ni with idle := ni.idle.add task.resreq, used := ni.used.sub task.resreq }
  | none => ni

/-- `NodeInfo.RemoveTask`.  The resource branches use the status of the
stored copy, not of the caller-supplied task. -/
def NodeInfo.removeTask (ni : NodeInfo) (ti : TaskInfo) : Except String NodeInfo :=
  match alookup (PodKey ti) ni.tasks with
  | none => .error "failed to find task on host"
  | some task =>
    let ni1 := ni.removeTaskVect task
    .ok { ni1 with tasks := eraseKey (PodKey ti) ni1.tasks }

/-- `NodeInfo.UpdateTask`: remove then re-add.  A failure of the inner
`AddTask` hits `glog.Fatalf` in the Go code, aborting the process; that
branch is modelled as `none` (no observable post-state). -/
def NodeInfo.updateTask (ni : NodeInfo) (ti : TaskInfo) :
    Option (Except String (NodeInfo × TaskInfo)) :=
  match ni.removeTask ti with
  | .error e => some (.error e)
  | .ok ni1 =>
    match ni1.addTask ti with
    | .error _ => none
    | .ok r => some (.ok r)

/-- `NodeInfo.Clone`: rebuild from the backing node, re-adding every stored
task (errors of the inner `AddTask` are ignored by the Go code). -/
def NodeInfo.clone (ni : NodeInfo) : NodeInfo :=
  ni.tasks.foldl
    (fun res p =>
      match res.addTask p.2 with
      | .ok r => r.1
      | .error _ => res)
    (NewNodeInfo ni.node)

/-! ## Per-task vector contributions

The three `AddTask` / `RemoveTask` / `SetNode` accounting branches all
move, per dimension, the same quantities: a non-`Pipelined` task occupies
`Idle`/`Used` (`dReg`), a `Releasing` task additionally counts in
`Releasing` (`dRel`), a `Pipelined` task counts in `Pipelined` only
(`dPip`). -/

def dReg (s : TaskStatus) (r : Resource) (d : Dim) : Int :=
  match s with
  | .Pipelined => 0
  | _ => r.get d

def dRel (s : TaskStatus) (r : Resource) (d : Dim) : Int :=
  match s with
  | .Releasing => r.get d
  | _ => 0

def dPip (s : TaskStatus) (r : Resource) (d : Dim) : Int :=
  match s with
  | .Pipelined => r.get d
  | _ => 0

theorem addTaskVect_none (ni : NodeInfo) (ti : TaskInfo) (hn : ni.node = none) :
    ni.addTaskVect ti = .ok ni := by
  unfold NodeInfo.addTaskVect
  rw [hn]

theorem addTaskVect_pipelined (ni : NodeInfo) (ti : TaskInfo) (k : KNode)
    (hn : ni.node = some k) (ts : ti.status = .Pipelined) :
    ni.addTaskVect ti = .ok { ni with pipelined := ni.pipelined.add ti.resreq } := by
  unfold NodeInfo.addTaskVect
  rw [hn, ts]

theorem addTaskVect_releasing_fit (ni : NodeInfo) (ti : TaskInfo) (k : KNode)
    (hn : ni.node = some k) (ts : ti.status = .Releasing)
    (hg : ti.resreq.lessEqual ni.idle = true) :
    ni.addTaskVect ti =
      .ok { ni with idle := ni.idle.sub ti.resreq,
                    releasing := ni.releasing.add ti.resreq,
                    used := ni.used.add ti.resreq } := by
  unfold NodeInfo.addTaskVect NodeInfo.allocateIdleResource
  rw [hn, ts, if_pos hg]

theorem addTaskVect_releasing_unfit (ni : NodeInfo) (ti : TaskInfo) (k : KNode)
    (hn : ni.node = some k) (ts : ti.status = .Releasing)
    (hg : ¬ ti.resreq.lessEqual ni.idle = true) :
    ni.addTaskVect ti = .error "Selected node NotReady" := by
  unfold NodeInfo.addTaskVect NodeInfo.allocateIdleResource
  rw [hn, ts, if_neg hg]

theorem addTaskVect_default_fit (ni : NodeInfo) (ti : TaskInfo) (k : KNode)
    (hn : ni.node = some k) (ts1 : ti.status ≠ .Releasing) (ts2 : ti.status ≠ .Pipelined)
    (hg : ti.resreq.lessEqual ni.idle = true) :
    ni.addTaskVect ti =
      .ok { ni with idle := ni.idle.sub ti.resreq, used := ni.used.add ti.resreq } := by
  unfold NodeInfo.addTaskVect NodeInfo.allocateIdleResource
  rw [hn]
  cases hts : ti.status
  all_goals first
    | exact absurd hts ts1
    | exact absurd hts ts2
    | rw [if_pos hg]

theorem addTaskVect_default_unfit (ni : NodeInfo) (ti : TaskInfo) (k : KNode)
    (hn : ni.node = some k) (ts1 : ti.status ≠ .Releasing) (ts2 : ti.status ≠ .Pipelined)
    (hg : ¬ ti.resreq.lessEqual ni.idle = true) :
    ni.addTaskVect ti = .error "Selected node NotReady" := by
  unfold NodeInfo.addTaskVect NodeInfo.allocateIdleResource
  rw [hn]
  cases hts : ti.status
  all_goals first
    | exact absurd hts ts1
    | exact absurd hts ts2
    | rw [if_neg hg]

theorem addTaskVect_ok_elim (ni : NodeInfo) (ti : TaskInfo) (ni2 : NodeInfo)
    (h : ni.addTaskVect ti = .ok ni2) :
    ni2.name = ni.name ∧ ni2.node = ni.node ∧ ni2.state = ni.state ∧
    ni2.allocatable = ni.allocatable ∧ ni2.capability = ni.capability ∧
    ni2.tasks = ni.tasks ∧
    ((ni.node = none ∧ ni2 = ni) ∨
     (ni.node ≠ none ∧
      (ti.status ≠ .Pipelined → ti.resreq.lessEqual ni.idle = true) ∧
      (∀ d, ni2.idle.get d = ni.idle.get d - dReg ti.status ti.resreq d ∧
            ni2.used.get d = ni.used.get d + dReg ti.status ti.resreq d ∧
            ni2.releasing.get d = ni.releasing.get d + dRel ti.status ti.resreq d ∧
            ni2.pipelined.get d = ni.pipelined.get d + dPip ti.status ti.resreq d))) := by
  cases hn : ni.node with
  | none =>
    rw [addTaskVect_none ni ti hn] at h
    simp only [Except.ok.injEq] at h
    subst h
    simp [hn]
  | some k =>
    cases ts : ti.status
    case Pipelined =>
      rw [addTaskVect_pipelined ni ti k hn ts] at h
      simp only [Except.ok.injEq] at h
      subst h
      refine ⟨rfl, hn, rfl, rfl, rfl, rfl, Or.inr ⟨by simp, ?_, ?_⟩⟩
      · intro hs; exact absurd rfl hs
      · intro d
        simp [dReg, dRel, dPip, Resource.get_add]
    case Releasing =>
      by_cases hg : ti.resreq.lessEqual ni.idle = true
      · rw [addTaskVect_releasing_fit ni ti k hn ts hg] at h
        simp only [Except.ok.injEq] at h
        subst h
        refine ⟨rfl, hn, rfl, rfl, rfl, rfl, Or.inr ⟨by simp, fun _ => hg, ?_⟩⟩
        intro d
        simp [dReg, dRel, dPip, Resource.get_add, Resource.get_sub]
      · rw [addTaskVect_releasing_unfit ni ti k hn ts hg] at h
        simp at h
    all_goals
      by_cases hg : ti.resreq.lessEqual ni.idle = true
      · rw [addTaskVect_default_fit ni ti k hn (by simp [ts]) (by simp [ts]) hg] at h
        simp only [Except.ok.injEq] at h
        subst h
        refine ⟨rfl, hn, rfl, rfl, rfl, rfl, Or.inr ⟨by simp, fun _ => hg, ?_⟩⟩
        intro d
        simp [dReg, dRel, dPip, Resource.get_add, Resource.get_sub]
      · rw [addTaskVect_default_unfit ni ti k hn (by simp [ts]) (by simp [ts]) hg] at h
        simp at h

theorem removeTaskVect_elim (ni : NodeInfo) (st : TaskInfo) :
    (ni.removeTaskVect st).name = ni.name ∧ (ni.removeTaskVect st).node = ni.node ∧
    (ni.removeTaskVect st).state = ni.state ∧
    (ni.removeTaskVect st).allocatable = ni.allocatable ∧
    (ni.removeTaskVect st).capability = ni.capability ∧
    (ni.removeTaskVect st).tasks = ni.tasks ∧
    ((ni.node = none ∧ ni.removeTaskVect st = ni) ∨
     (ni.node ≠ none ∧
      ∀ d, (ni.removeTaskVect st).idle.get d = ni.idle.get d + dReg st.status st.resreq d ∧
           (ni.removeTaskVect st).used.get d = ni.used.get d - dReg st.status st.resreq d ∧
           (ni.removeTaskVect st).releasing.get d
             = ni.releasing.get d - dRel st.status st.resreq d ∧
           (ni.removeTaskVect st).pipelined.get d
             = ni.pipelined.get d - dPip st.status st.resreq d)) := by
  unfold NodeInfo.removeTaskVect
  cases hn : ni.node with
  | none => simp [hn]
  | some k =>
    cases ts : st.status
    all_goals
      refine ⟨rfl, rfl, rfl, rfl, rfl, rfl, Or.inr ⟨by simp, ?_⟩⟩
    all_goals
      intro d
    all_goals
      simp [dReg, dRel, dPip, Resource.get_add, Resource.get_sub]

theorem removeTask_eq_of_lookup (ni : NodeInfo) (ti st : TaskInfo)
    (hl : alookup (PodKey ti) ni.tasks = some st) :
    ni.removeTask ti =
      .ok { ni.removeTaskVect st with
            tasks := eraseKey (PodKey ti) (ni.removeTaskVect st).tasks } := by
  unfold NodeInfo.removeTask
  rw [hl]

theorem removeTask_eq_of_lookup_none (ni : NodeInfo) (ti : TaskInfo)
    (hl : alookup (PodKey ti) ni.tasks = none) :
    ni.removeTask ti = .error "failed to find task on host" := by
  unfold NodeInfo.removeTask
  rw [hl]

theorem removeTask_ok_elim (ni : NodeInfo) (ti : TaskInfo) (ni' : NodeInfo)
    (h : ni.removeTask ti = .ok ni') :
    ∃ st, alookup (PodKey ti) ni.tasks = some st ∧
      ni'.name = ni.name ∧ ni'.node = ni.node ∧ ni'.state = ni.state ∧
      ni'.allocatable = ni.allocatable ∧ ni'.capability = ni.capability ∧
      ni'.tasks = eraseKey (PodKey ti) ni.tasks ∧
      ((ni.node = none ∧ ni'.idle = ni.idle ∧ ni'.used = ni.used ∧
        ni'.releasing = ni.releasing ∧ ni'.pipelined = ni.pipelined) ∨
       (ni.node ≠ none ∧
        ∀ d, ni'.idle.get d = ni.idle.get d + dReg st.status st.resreq d ∧
             ni'.used.get d = ni.used.get d - dReg st.status st.resreq d ∧
             ni'.releasing.get d = ni.releasing.get d - dRel st.status st.resreq d ∧
             ni'.pipelined.get d = ni.pipelined.get d - dPip st.status st.resreq d)) := by
  cases hl : alookup (PodKey ti) ni.tasks with
  | none =>
    rw [removeTask_eq_of_lookup_none ni ti hl] at h
    exact absurd h (by simp)
  | some st =>
    rw [removeTask_eq_of_lookup ni ti st hl] at h
    simp only [Except.ok.injEq] at h
    subst h
    obtain ⟨e1, e2, e3, e4, e5, e6, e7⟩ := removeTaskVect_elim ni st
    refine ⟨st, rfl, e1, e2, e3, e4, e5, by rw [e6], ?_⟩
    rcases e7 with ⟨hn, heq⟩ | ⟨hn, heq⟩
    · rw [heq]
      exact Or.inl ⟨hn, rfl, rfl, rfl, rfl⟩
    · exact Or.inr ⟨hn, heq⟩

theorem addTask_ok_elim (ni : NodeInfo) (t : TaskInfo) (ni' : NodeInfo) (t' : TaskInfo)
    (h : ni.addTask t = .ok (ni', t')) :
    ∃ ni2, ni.addTaskVect t = .ok ni2 ∧
      ni' = { ni2 with tasks := (PodKey t, { t with nodeName := ni.name }) :: ni2.tasks } ∧
      t' = { t with nodeName := ni.name } ∧
      alookup (PodKey t) ni.tasks = none ∧
      ¬(t.nodeName.length > 0 ∧ ni.name.length > 0 ∧ t.nodeName ≠ ni.name) := by
  unfold NodeInfo.addTask at h
  by_cases h1 : t.nodeName.length > 0 ∧ ni.name.length > 0 ∧ t.nodeName ≠ ni.name
  · rw [if_pos h1] at h
    exact absurd h (by simp)
  · rw [if_neg h1] at h
    by_cases h2 : (alookup (PodKey t) ni.tasks).isSome
    · rw [if_pos h2] at h
      exact absurd h (by simp)
    · rw [if_neg h2] at h
      simp only [TaskInfo.clone] at h
      cases hv : ni.addTaskVect t with
      | error e =>
        rw [hv] at h
        exact absurd h (by simp)
      | ok ni2 =>
        rw [hv] at h
        simp only [Except.ok.injEq, Prod.mk.injEq] at h
        refine ⟨ni2, ?_, ?_, ?_, ?_, h1⟩
        · rfl
        · exact h.1.symm
        · exact h.2.symm
        · cases hl : alookup (PodKey t) ni.tasks with
          | none => rfl
          | some w => rw [hl] at h2; simp at h2

theorem addTask_ok_key_fresh (ni : NodeInfo) (t : TaskInfo) (ni' : NodeInfo) (t' : TaskInfo)
    (h : ni.addTask t = .ok (ni', t')) : alookup (PodKey t) ni.tasks = none :=
  (addTask_ok_elim ni t ni' t' h).choose_spec.2.2.2.1

theorem accountTask_elim (ni : NodeInfo) (t : TaskInfo) :
    (ni.accountTask t).name = ni.name ∧ (ni.accountTask t).node = ni.node ∧
    (ni.accountTask t).state = ni.state ∧
    (ni.accountTask t).allocatable = ni.allocatable ∧
    (ni.accountTask t).capability = ni.capability ∧
    (ni.accountTask t).tasks = ni.tasks ∧
    ∀ d, (ni.accountTask t).idle.get d = ni.idle.get d - dReg t.status t.resreq d ∧
         (ni.accountTask t).used.get d = ni.used.get d + dReg t.status t.resreq d ∧
         (ni.accountTask t).releasing.get d = ni.releasing.get d + dRel t.status t.resreq d ∧
         (ni.accountTask t).pipelined.get d = ni.pipelined.get d + dPip t.status t.resreq d := by
  unfold NodeInfo.accountTask
  cases ts : t.status
  all_goals refine ⟨rfl, rfl, rfl, rfl, rfl, rfl, ?_⟩
  all_goals intro d
  all_goals simp [dReg, dRel, dPip, Resource.get_add, Resource.get_sub]

/-- The per-dimension totals of the three contribution kinds over a task map. -/
def sumReg (l : List (String × TaskInfo)) (d : Dim) : Int :=
  (l.map fun p => dReg p.2.status p.2.resreq d).sum

def sumRel (l : List (String × TaskInfo)) (d : Dim) : Int :=
  (l.map fun p => dRel p.2.status p.2.resreq d).sum

def sumPip (l : List (String × TaskInfo)) (d : Dim) : Int :=
  (l.map fun p => dPip p.2.status p.2.resreq d).sum

theorem emptyResource_get (d : Dim) : emptyResource.get d = 0 := by
  cases d <;> rfl

theorem foldl_accountTask_elim (l : List (String × TaskInfo)) (acc : NodeInfo) :
    (l.foldl (fun a p => a.accountTask p.2) acc).name = acc.name ∧
    (l.foldl (fun a p => a.accountTask p.2) acc).node = acc.node ∧
    (l.foldl (fun a p => a.accountTask p.2) acc).state = acc.state ∧
    (l.foldl (fun a p => a.accountTask p.2) acc).allocatable = acc.allocatable ∧
    (l.foldl (fun a p => a.accountTask p.2) acc).capability = acc.capability ∧
    (l.foldl (fun a p => a.accountTask p.2) acc).tasks = acc.tasks ∧
    ∀ d, (l.foldl (fun a p => a.accountTask p.2) acc).idle.get d
           = acc.idle.get d - sumReg l d ∧
         (l.foldl (fun a p => a.accountTask p.2) acc).used.get d
           = acc.used.get d + sumReg l d ∧
         (l.foldl (fun a p => a.accountTask p.2) acc).releasing.get d
           = acc.releasing.get d + sumRel l d ∧
         (l.foldl (fun a p => a.accountTask p.2) acc).pipelined.get d
           = acc.pipelined.get d + sumPip l d := by
  induction l generalizing acc with
  | nil => simp [sumReg, sumRel, sumPip]
  | cons p rest ih =>
    simp only [List.foldl_cons]
    obtain ⟨a1, a2, a3, a4, a5, a6, a7⟩ := accountTask_elim acc p.2
    obtain ⟨b1, b2, b3, b4, b5, b6, b7⟩ := ih (acc.accountTask p.2)
    refine ⟨by rw [b1, a1], by rw [b2, a2], by rw [b3, a3], by rw [b4, a4],
      by rw [b5, a5], by rw [b6, a6], ?_⟩
    intro d
    obtain ⟨c1, c2, c3, c4⟩ := a7 d
    obtain ⟨e1, e2, e3, e4⟩ := b7 d
    refine ⟨?_, ?_, ?_, ?_⟩
    · rw [e1, c1]; simp [sumReg]; omega
    · rw [e2, c2]; simp [sumReg]; omega
    · rw [e3, c3]; simp [sumRel]; omega
    · rw [e4, c4]; simp [sumPip]; omega

theorem setNode_none (ni : NodeInfo) :
    ni.setNode none = { ni with state := ⟨.NotReady, "UnInitialized"⟩ } := by
  rfl

theorem setNodeState_some (ni : NodeInfo) (k : KNode) :
    ni.setNodeState (some k) =
      if ¬ ni.used.lessEqual k.allocatable = true then
        { ni with state := ⟨.NotReady, "OutOfSync"⟩ }
      else { ni with state := ⟨.Ready, ""⟩ } := rfl

theorem setNode_out_of_sync (ni : NodeInfo) (k : KNode)
    (hg : ¬ ni.used.lessEqual k.allocatable = true) :
    ni.setNode (some k) = { ni with state := ⟨.NotReady, "OutOfSync"⟩ } := by
  have hs : ni.setNodeState (some k) = { ni with state := ⟨.NotReady, "OutOfSync"⟩ } := by
    rw [setNodeState_some, if_pos hg]
  unfold NodeInfo.setNode
  rw [hs]
  rfl

theorem setNode_ready_eq (ni : NodeInfo) (k : KNode)
    (hg : ni.used.lessEqual k.allocatable = true) :
    ni.setNode (some k) =
      ni.tasks.foldl (fun a p => a.accountTask p.2)
        { ni with
          state := ⟨.Ready, ""⟩, name := k.name, node := some k,
          allocatable := k.allocatable, capability := k.capacity,
          releasing := emptyResource, pipelined := emptyResource,
          idle := k.allocatable, used := emptyResource } := by
  have hs : ni.setNodeState (some k) = { ni with state := ⟨.Ready, ""⟩ } := by
    rw [setNodeState_some, if_neg (by simp [hg])]
  unfold NodeInfo.setNode
  rw [hs]
  rfl

/-- A node's primary accounting invariant: per dimension,
`Idle + Used = Allocatable`. -/
def NodeBalanced (ni : NodeInfo) : Prop :=
  ∀ d, ni.idle.get d + ni.used.get d = ni.allocatable.get d

/-- C2: for a `NodeInfo` with a non-nil backing node satisfying
`Idle + Used = Allocatable`, every successful `AddTask` and `RemoveTask`
preserves the invariant (a `Pipelined` task touches neither `Idle` nor
`Used`; a `Releasing` task moves resources from `Idle` to `Used` while
also adding to `Releasing`), and every `SetNode` call that leaves the node
`Ready` establishes the invariant for the new allocatable. -/
theorem C2_idle_add_used_eq_allocatable :
    (∀ (ni : NodeInfo) (t : TaskInfo) (ni' : NodeInfo) (t' : TaskInfo),
      ni.node ≠ none → NodeBalanced ni → ni.addTask t = .ok (ni', t') → NodeBalanced ni') ∧
    (∀ (ni : NodeInfo) (t : TaskInfo) (ni' : NodeInfo),
      ni.node ≠ none → NodeBalanced ni → ni.removeTask t = .ok ni' → NodeBalanced ni') ∧
    (∀ (ni : NodeInfo) (node : Option KNode),
      (ni.setNode node).ready = true → NodeBalanced (ni.setNode node)) := by
  refine ⟨?_, ?_, ?_⟩
  · intro ni t ni' t' hn hb h
    obtain ⟨ni2, hv, hni, ht, hfresh, hguard⟩ := addTask_ok_elim ni t ni' t' h
    obtain ⟨v1, v2, v3, v4, v5, v6, v7⟩ := addTaskVect_ok_elim ni t ni2 hv
    rcases v7 with ⟨hnone, _⟩ | ⟨_, _, hd⟩
    · exact absurd hnone hn
    · intro d
      have hb' := hb d
      obtain ⟨g1, g2, _, _⟩ := hd d
      subst hni
      show ni2.idle.get d + ni2.used.get d = ni2.allocatable.get d
      rw [g1, g2, v4]
      omega
  · intro ni t ni' hn hb h
    obtain ⟨st, hl, e1, e2, e3, e4, e5, e6, e7⟩ := removeTask_ok_elim ni t ni' h
    rcases e7 with ⟨hnone, _⟩ | ⟨_, hd⟩
    · exact absurd hnone hn
    · intro d
      have hb' := hb d
      obtain ⟨g1, g2, _, _⟩ := hd d
      rw [g1, g2, e4]
      omega
  · intro ni node hr
    cases node with
    | none =>
      rw [setNode_none ni] at hr
      simp [NodeInfo.ready] at hr
    | some k =>
      by_cases hg : ni.used.lessEqual k.allocatable = true
      · rw [setNode_ready_eq ni k hg]
        obtain ⟨f1, f2, f3, f4, f5, f6, f7⟩ :=
          foldl_accountTask_elim ni.tasks
            { ni with
              state := ⟨.Ready, ""⟩, name := k.name, node := some k,
              allocatable := k.allocatable, capability := k.capacity,
              releasing := emptyResource, pipelined := emptyResource,
              idle := k.allocatable, used := emptyResource }
        intro d
        obtain ⟨g1, g2, _, _⟩ := f7 d
        rw [g1, g2, f4]
        show k.allocatable.get d - sumReg ni.tasks d +
          (emptyResource.get d + sumReg ni.tasks d) = k.allocatable.get d
        rw [emptyResource_get]
        omega
      · rw [setNode_out_of_sync ni k hg] at hr
        simp [NodeInfo.ready] at hr

/-- C7: `FutureIdle` computes, per resource dimension,
`Idle + Releasing - Pipelined` (on a clone, leaving the node's own vectors
untouched, which in this value model is implicit). -/
theorem C7_futureIdle_formula (ni : NodeInfo) (d : Dim) :
    ni.futureIdle.get d = ni.idle.get d + ni.releasing.get d - ni.pipelined.get d := by
  unfold NodeInfo.futureIdle Resource.clone
  rw [Resource.get_sub, Resource.get_add]

/-- C9: a successful `AddTask` stores a clone of the task under its pod
key with `NodeName` set to the node's name, returns the caller's task with
`NodeName` set likewise, and the node's subsequent accounting (here:
`RemoveTask`) is insensitive to later mutations of the caller's task such
as status changes, because removal consults the stored copy. -/
theorem C9_addTask_stores_clone (ni : NodeInfo) (t : TaskInfo) (ni' : NodeInfo) (t' : TaskInfo)
    (h : ni.addTask t = .ok (ni', t')) :
    t' = { t with nodeName := ni.name } ∧
    alookup (PodKey t) ni'.tasks = some { t with nodeName := ni.name } ∧
    (∀ s : TaskStatus, ni'.removeTask { t' with status := s } = ni'.removeTask t') := by
  obtain ⟨ni2, hv, hni, ht, hfresh, hguard⟩ := addTask_ok_elim ni t ni' t' h
  subst hni
  subst ht
  refine ⟨rfl, ?_, ?_⟩
  · exact alookup_cons_self _ _ _
  · intro s
    rfl

/-- C10: `SetNode` first recomputes the node state; when the result is not
`Ready` (nil node gives `UnInitialized`, `Used` not `LessEqual` the new
allocatable gives `OutOfSync`) it returns with name, backing node and all
resource vectors unchanged (only the state field is written); only when
the state is `Ready` are they replaced and `Idle`, `Used`, `Releasing`,
`Pipelined` rebuilt from the per-task statuses. -/
theorem C10_setNode_frame (ni : NodeInfo) (node : Option KNode) :
    (node = none →
      ni.setNode node = { ni with state := ⟨.NotReady, "UnInitialized"⟩ }) ∧
    (∀ k, node = some k → ¬ ni.used.lessEqual k.allocatable = true →
      ni.setNode node = { ni with state := ⟨.NotReady, "OutOfSync"⟩ }) ∧
    (∀ k, node = some k → ni.used.lessEqual k.allocatable = true →
      (ni.setNode node).state = ⟨.Ready, ""⟩ ∧
      (ni.setNode node).name = k.name ∧
      (ni.setNode node).node = some k ∧
      (ni.setNode node).allocatable = k.allocatable ∧
      (ni.setNode node).capability = k.capacity ∧
      (ni.setNode node).tasks = ni.tasks ∧
      ∀ d, (ni.setNode node).idle.get d = k.allocatable.get d - sumReg ni.tasks d ∧
           (ni.setNode node).used.get d = sumReg ni.tasks d ∧
           (ni.setNode node).releasing.get d = sumRel ni.tasks d ∧
           (ni.setNode node).pipelined.get d = sumPip ni.tasks d) := by
  refine ⟨?_, ?_, ?_⟩
  · intro h
    subst h
    exact setNode_none ni
  · intro k h hg
    subst h
    exact setNode_out_of_sync ni k hg
  · intro k h hg
    subst h
    rw [setNode_ready_eq ni k hg]
    obtain ⟨f1, f2, f3, f4, f5, f6, f7⟩ :=
      foldl_accountTask_elim ni.tasks
        { ni with
          state := ⟨.Ready, ""⟩, name := k.name, node := some k,
          allocatable := k.allocatable, capability := k.capacity,
          releasing := emptyResource, pipelined := emptyResource,
          idle := k.allocatable, used := emptyResource }
    refine ⟨f3, f1, f2, f4, f5, f6, ?_⟩
    intro d
    obtain ⟨g1, g2, g3, g4⟩ := f7 d
    rw [g1, g2, g3, g4]
    refine ⟨rfl, ?_, ?_, ?_⟩
    · show emptyResource.get d + sumReg ni.tasks d = sumReg ni.tasks d
      rw [emptyResource_get]; omega
    · show emptyResource.get d + sumRel ni.tasks d = sumRel ni.tasks d
      rw [emptyResource_get]; omega
    · show emptyResource.get d + sumPip ni.tasks d = sumPip ni.tasks d
      rw [emptyResource_get]; omega

/-! Concrete fixtures used by the witnesses below. -/

def wKNode : KNode := ⟨"n1", ⟨1000, 1000, []⟩, ⟨1000, 1000, []⟩⟩

def wNode : NodeInfo := NewNodeInfo (some wKNode)

def wTask : TaskInfo := ⟨"t1", "j1", "t1", "", ⟨100, 100, []⟩, 0, .Pending, false⟩

def wTask1 : TaskInfo := { wTask with nodeName := "n1" }

def wNode1 : NodeInfo :=
  { wNode with
    idle := wNode.idle.sub wTask.resreq, used := wNode.used.add wTask.resreq,
    tasks := [(PodKey wTask, wTask1)] }

theorem wNode_balanced : NodeBalanced wNode := fun d => by cases d <;> rfl

example : wNode.addTask wTask = .ok (wNode1, wTask1) := by rfl

theorem C2_witness :
    wNode1.idle.get .cpu + wNode1.used.get .cpu = wNode1.allocatable.get .cpu ∧
    wNode1.idle.get .mem + wNode1.used.get .mem = wNode1.allocatable.get .mem :=
  ⟨C2_idle_add_used_eq_allocatable.1 wNode wTask wNode1 wTask1 (by decide)
      wNode_balanced (by rfl) Dim.cpu,
   C2_idle_add_used_eq_allocatable.1 wNode wTask wNode1 wTask1 (by decide)
      wNode_balanced (by rfl) Dim.mem⟩

theorem C9_witness :
    wTask1 = { wTask with nodeName := wNode.name } ∧
    alookup (PodKey wTask) wNode1.tasks = some { wTask with nodeName := wNode.name } ∧
    wNode1.removeTask { wTask1 with status := .Running } = wNode1.removeTask wTask1 :=
  ⟨(C9_addTask_stores_clone wNode wTask wNode1 wTask1 (by rfl)).1,
   (C9_addTask_stores_clone wNode wTask wNode1 wTask1 (by rfl)).2.1,
   (C9_addTask_stores_clone wNode wTask wNode1 wTask1 (by rfl)).2.2 .Running⟩

def wNodeBusy : NodeInfo := { wNode with used := ⟨2000, 0, []⟩ }

def wKNodeSmall : KNode := ⟨"n2", ⟨100, 0, []⟩, ⟨100, 0, []⟩⟩

theorem C10_witness :
    wNodeBusy.setNode (some wKNodeSmall)
      = { wNodeBusy with state := ⟨.NotReady, "OutOfSync"⟩ } ∧
    (wNode.setNode (some wKNode)).state = ⟨.Ready, ""⟩ :=
  ⟨(C10_setNode_frame wNodeBusy (some wKNodeSmall)).2.1 wKNodeSmall rfl (by decide),
   ((C10_setNode_frame wNode (some wKNode)).2.2 wKNode rfl (by decide)).1⟩

/-! ## Jobs

Modelled from the spec: `job_info.go` / `task_info.go` are not among the
provided sources.  Spec §3 gives `JobInfo` the identity, `Queue`,
`Priority`, `MinAvailable`, optional `PodGroup` (with the
`PriorityClassName` used by `Snapshot`), optional `PDB`, and the task map;
`UpdateTaskStatus` writes the new status through the shared task pointer
and re-indexes the task, failing only when the task is not in the job
(per §3 the index always partitions `Tasks`); `ValidTaskNum` counts
statuses in Pending, Allocated, Pipelined, Binding, Bound, Running,
Succeeded and `ReadyTaskNum` those in Allocated, Binding, Bound, Running,
Succeeded.  `Clone` is an independent copy, the value itself here. -/

structure PodGroup where
  priorityClassName : String
deriving DecidableEq, Repr

structure JobInfo where
  uid : String
  name : String
  queue : String
  priority : Int
  minAvailable : Int
  podGroup : Option PodGroup
  pdb : Option Unit
  tasks : List (String × TaskInfo)
deriving DecidableEq, Repr

def JobInfo.updateTaskStatus (job : JobInfo) (task : TaskInfo) (status : TaskStatus) :
    Except String (JobInfo × TaskInfo) :=
  match alookup task.uid job.tasks with
  | none => .error "task not found in job"
  | some _ =>
    let t' := { task with status := status }
    .ok ({ job with tasks := setKey task.uid t' job.tasks }, t')

def TaskStatus.isReadyStatus : TaskStatus → Bool
  | .Allocated | .Binding | .Bound | .Running | .Succeeded => true
  | _ => false

def TaskStatus.isValidStatus : TaskStatus → Bool
  | .Pending | .Allocated | .Pipelined | .Binding | .Bound | .Running | .Succeeded => true
  | _ => false

def JobInfo.readyTaskNum (job : JobInfo) : Int :=
  ((job.tasks.filter fun p => p.2.status.isReadyStatus).length : Int)

def JobInfo.validTaskNum (job : JobInfo) : Int :=
  ((job.tasks.filter fun p => p.2.status.isValidStatus).length : Int)

def JobInfo.ReadyQ (job : JobInfo) : Bool :=
  decide (job.minAvailable ≤ job.readyTaskNum)

def JobInfo.clone (job : JobInfo) : JobInfo := job

/-! ## The gang plugin preemptable/reclaimable function (`gang.go`)

`preemptableFn` walks the candidate preemptees, lazily seeding
`jobOccupiedMap[job.UID]` with the owning job's `ReadyTaskNum()`, and
selects a candidate as victim only while the counter stays strictly above
the job's `MinAvailable`, decrementing it per selected victim.  A
preemptee whose job is missing from the session index would dereference a
nil pointer in Go; that is modelled as `none`. -/

structure GangAcc where
  victims : List TaskInfo
  occupied : List (String × Int)
deriving DecidableEq, Repr

def gangOccupied (acc : GangAcc) (job : JobInfo) : List (String × Int) :=
  if (alookup job.uid acc.occupied).isSome then acc.occupied
  else (job.uid, job.readyTaskNum) :: acc.occupied

def gangJobStep (acc : GangAcc) (p : TaskInfo) (job : JobInfo) : GangAcc :=
  if job.minAvailable < (alookup job.uid (gangOccupied acc job)).getD 0 then
    ⟨acc.victims ++ [p],
      setKey job.uid ((alookup job.uid (gangOccupied acc job)).getD 0 - 1)
        (gangOccupied acc job)⟩
  else ⟨acc.victims, gangOccupied acc job⟩

def gangStep (jobs : List (String × JobInfo)) (acc : GangAcc) (p : TaskInfo) :
    Option GangAcc :=
  match alookup p.job jobs with
  | none => none
  | some job => some (gangJobStep acc p job)

def gangPreemptableFn (jobs : List (String × JobInfo)) (preemptees : List TaskInfo) :
    Option (List TaskInfo) :=
  (preemptees.foldl (fun a p => a.bind fun x => gangStep jobs x p) (some ⟨[], []⟩)).map
    GangAcc.victims

/-- The number of victims charged to the job with the given id. -/
def victimCount (l : List TaskInfo) (uid : String) : Int :=
  ((l.filter fun t => t.job == uid).length : Int)

theorem mem_of_alookup_eq_some {α : Type} (k : String) (v : α) (l : List (String × α))
    (h : alookup k l = some v) : (k, v) ∈ l := by
  induction l with
  | nil => simp at h
  | cons p rest ih =>
    obtain ⟨pk, pv⟩ := p
    by_cases h1 : pk = k
    · subst h1
      simp only [alookup_cons_self, Option.some.injEq] at h
      subst h
      simp
    · simp only [alookup_cons, if_neg h1] at h
      simp [ih h]

theorem victimCount_nil (uid : String) : victimCount [] uid = 0 := rfl

theorem victimCount_append (l : List TaskInfo) (p : TaskInfo) (uid : String) :
    victimCount (l ++ [p]) uid
      = victimCount l uid + if p.job = uid then 1 else 0 := by
  unfold victimCount
  rw [List.filter_append]
  by_cases h : p.job = uid
  · simp [h]
  · simp [h]


theorem gangOccupied_found (acc : GangAcc) (job : JobInfo) (c0 : Int)
    (hocc : alookup job.uid acc.occupied = some c0) :
    gangOccupied acc job = acc.occupied := by
  unfold gangOccupied
  rw [hocc]
  simp

theorem gangOccupied_missing (acc : GangAcc) (job : JobInfo)
    (hocc : alookup job.uid acc.occupied = none) :
    gangOccupied acc job = (job.uid, job.readyTaskNum) :: acc.occupied := by
  unfold gangOccupied
  rw [hocc]
  simp

theorem gangJobStep_found (acc : GangAcc) (p : TaskInfo) (job : JobInfo) (c0 : Int)
    (hocc : alookup job.uid acc.occupied = some c0) :
    gangJobStep acc p job =
      if job.minAvailable < c0 then
        ⟨acc.victims ++ [p], setKey job.uid (c0 - 1) acc.occupied⟩
      else ⟨acc.victims, acc.occupied⟩ := by
  unfold gangJobStep
  rw [gangOccupied_found acc job c0 hocc, hocc]
  simp only [Option.getD_some]

theorem gangJobStep_missing (acc : GangAcc) (p : TaskInfo) (job : JobInfo)
    (hocc : alookup job.uid acc.occupied = none) :
    gangJobStep acc p job =
      if job.minAvailable < job.readyTaskNum then
        ⟨acc.victims ++ [p], setKey job.uid (job.readyTaskNum - 1)
          ((job.uid, job.readyTaskNum) :: acc.occupied)⟩
      else ⟨acc.victims, (job.uid, job.readyTaskNum) :: acc.occupied⟩ := by
  unfold gangJobStep
  rw [gangOccupied_missing acc job hocc, alookup_cons_self]
  simp only [Option.getD_some]

theorem gangStep_eq (jobs : List (String × JobInfo)) (acc : GangAcc) (p : TaskInfo)
    (job : JobInfo) (hj : alookup p.job jobs = some job) :
    gangStep jobs acc p = some (gangJobStep acc p job) := by
  unfold gangStep
  rw [hj]

/-- The loop invariant of the gang preemptable function: every entry of
`jobOccupiedMap` equals the job's `ReadyTaskNum` minus the victims charged
to it so far, stays at or above `MinAvailable` when the job started above
it, and never moves at all when the job started at or below it. -/
def GangInv (jobs : List (String × JobInfo)) (acc : GangAcc) : Prop :=
  ∀ uid job, alookup uid jobs = some job →
    match alookup uid acc.occupied with
    | some c =>
        c = job.readyTaskNum - victimCount acc.victims uid ∧
        (job.minAvailable < job.readyTaskNum → job.minAvailable ≤ c) ∧
        (¬ job.minAvailable < job.readyTaskNum → c = job.readyTaskNum)
    | none => victimCount acc.victims uid = 0

theorem gangStep_inv (jobs : List (String × JobInfo))
    (hcoh : ∀ q ∈ jobs, q.2.uid = q.1)
    (acc acc1 : GangAcc) (p : TaskInfo)
    (hs : gangStep jobs acc p = some acc1) (hi : GangInv jobs acc) :
    GangInv jobs acc1 := by
  cases hj : alookup p.job jobs with
  | none => unfold gangStep at hs; rw [hj] at hs; simp at hs
  | some job =>
    rw [gangStep_eq jobs acc p job hj] at hs
    simp only [Option.some.injEq] at hs
    subst hs
    have huid : job.uid = p.job := hcoh (p.job, job) (mem_of_alookup_eq_some _ _ _ hj)
    have hjlk : alookup job.uid jobs = some job := by rw [huid]; exact hj
    cases hocc : alookup job.uid acc.occupied with
    | none =>
      have hvc0 : victimCount acc.victims job.uid = 0 := by
        have := hi job.uid job hjlk
        rw [hocc] at this
        exact this
      rw [gangJobStep_missing acc p job hocc]
      by_cases hc : job.minAvailable < job.readyTaskNum
      · rw [if_pos hc]
        intro uid' job' hlk
        by_cases he : uid' = job.uid
        · subst he
          rw [hjlk] at hlk
          have hjj : job = job' := Option.some.inj hlk
          subst hjj
          have hset : alookup job.uid (setKey job.uid (job.readyTaskNum - 1)
              ((job.uid, job.readyTaskNum) :: acc.occupied)) = some (job.readyTaskNum - 1) :=
            alookup_setKey_self _ _ _ _ (alookup_cons_self _ _ _)
          simp only [hset]
          rw [victimCount_append, if_pos huid.symm, hvc0]
          exact ⟨by omega, fun h => by omega, fun h => absurd hc h⟩
        · have hne : alookup uid' (setKey job.uid (job.readyTaskNum - 1)
              ((job.uid, job.readyTaskNum) :: acc.occupied)) = alookup uid' acc.occupied := by
            rw [alookup_setKey_ne _ _ _ _ (fun hh => he hh.symm)]
            rw [alookup_cons, if_neg (fun hh => he hh.symm)]
          simp only [hne]
          rw [victimCount_append]
          have hpj : ¬ p.job = uid' := by
            rw [← huid]; exact fun hh => he hh.symm
          rw [if_neg hpj]
          have := hi uid' job' hlk
          simpa using this
      · rw [if_neg hc]
        intro uid' job' hlk
        by_cases he : uid' = job.uid
        · subst he
          rw [hjlk] at hlk
          have hjj : job = job' := Option.some.inj hlk
          subst hjj
          simp only [alookup_cons_self]
          exact ⟨by rw [hvc0]; omega, fun h => absurd h hc, fun _ => by simp⟩
        · have hne2 : ¬ job.uid = uid' := fun hh => he hh.symm
          rw [alookup_cons, if_neg hne2]
          exact hi uid' job' hlk
    | some c0 =>
      have hinv := hi job.uid job hjlk
      rw [hocc] at hinv
      obtain ⟨ha, hb, hc3⟩ := hinv
      rw [gangJobStep_found acc p job c0 hocc]
      by_cases hc : job.minAvailable < c0
      · rw [if_pos hc]
        intro uid' job' hlk
        by_cases he : uid' = job.uid
        · subst he
          rw [hjlk] at hlk
          have hjj : job = job' := Option.some.inj hlk
          subst hjj
          have hset : alookup job.uid (setKey job.uid (c0 - 1) acc.occupied)
              = some (c0 - 1) :=
            alookup_setKey_self _ _ _ _ hocc
          simp only [hset]
          rw [victimCount_append, if_pos huid.symm]
          refine ⟨by omega, fun h => by omega, fun h => ?_⟩
          exact absurd (hc3 h ▸ hc) h
        · have hne : alookup uid' (setKey job.uid (c0 - 1) acc.occupied)
              = alookup uid' acc.occupied :=
            alookup_setKey_ne _ _ _ _ (fun hh => he hh.symm)
          simp only [hne]
          rw [victimCount_append]
          have hpj : ¬ p.job = uid' := by
            rw [← huid]; exact fun hh => he hh.symm
          rw [if_neg hpj]
          have := hi uid' job' hlk
          simpa using this
      · rw [if_neg hc]
        exact hi

theorem gang_fold_none (jobs : List (String × JobInfo)) (ps : List TaskInfo) :
    ps.foldl (fun a p => a.bind fun x => gangStep jobs x p) none = none := by
  induction ps with
  | nil => rfl
  | cons p rest ih => simpa using ih

theorem gang_fold_inv (jobs : List (String × JobInfo))
    (hcoh : ∀ q ∈ jobs, q.2.uid = q.1) (ps : List TaskInfo) :
    ∀ (acc out : GangAcc),
      ps.foldl (fun a p => a.bind fun x => gangStep jobs x p) (some acc) = some out →
      GangInv jobs acc → GangInv jobs out := by
  induction ps with
  | nil =>
    intro acc out h hi
    simp only [List.foldl_nil, Option.some.injEq] at h
    subst h
    exact hi
  | cons p rest ih =>
    intro acc out h hi
    simp only [List.foldl_cons, Option.some_bind] at h
    cases hs : gangStep jobs acc p with
    | none =>
      rw [hs, gang_fold_none] at h
      simp at h
    | some acc1 =>
      rw [hs] at h
      exact ih acc1 out h (gangStep_inv jobs hcoh acc acc1 p hs hi)

/-- C3 counterexample: a job that is already below `MinAvailable`
(one `Running` task, `MinAvailable = 2`) yields no victims, yet
`ReadyTaskNum - victims < MinAvailable`, so the claimed inequality fails
as stated for every job owning candidates. -/
def cTaskR : TaskInfo := ⟨"tr", "j1", "tr", "n1", ⟨100, 100, []⟩, 0, .Running, false⟩

def cJob : JobInfo := ⟨"j1", "j1", "q1", 0, 2, none, none, [("tr", cTaskR)]⟩

theorem C3_counterexample :
    gangPreemptableFn [("j1", cJob)] [cTaskR] = some [] ∧
    ¬ cJob.minAvailable ≤ cJob.readyTaskNum - victimCount [] "j1" := by
  constructor
  · rfl
  · decide

/-- C3 (amended): for every preemptor candidate list whose owners are all
indexed in the session, the gang preemptable/reclaimable function returns
victims such that, for every job that starts with
`ReadyTaskNum ≥ MinAvailable`, `ReadyTaskNum` minus the victims charged to
that job stays at least `MinAvailable`; a job already below
`MinAvailable` contributes no victims at all.  (The original claim also
asserted the inequality for jobs already below `MinAvailable`, where it
fails; see the counterexample.) -/
theorem C3_gang_no_job_below_min
    (jobs : List (String × JobInfo)) (preemptees : List TaskInfo)
    (victims : List TaskInfo)
    (hcoh : ∀ q ∈ jobs, q.2.uid = q.1)
    (h : gangPreemptableFn jobs preemptees = some victims) :
    ∀ uid job, alookup uid jobs = some job →
      (job.minAvailable ≤ job.readyTaskNum →
        job.minAvailable ≤ job.readyTaskNum - victimCount victims uid) ∧
      (job.readyTaskNum < job.minAvailable → victimCount victims uid = 0) := by
  unfold gangPreemptableFn at h
  cases hf : preemptees.foldl (fun a p => a.bind fun x => gangStep jobs x p)
      (some (⟨[], []⟩ : GangAcc)) with
  | none => rw [hf] at h; simp at h
  | some out =>
    rw [hf] at h
    simp only [Option.map_some', Option.some.injEq] at h
    subst h
    have hstart : GangInv jobs ⟨[], []⟩ := by
      intro uid job hlk
      rfl
    have hinv := gang_fold_inv jobs hcoh preemptees ⟨[], []⟩ out hf hstart
    intro uid job hlk
    have := hinv uid job hlk
    cases hocc : alookup uid out.occupied with
    | none =>
      rw [hocc] at this
      constructor
      · intro hge; rw [this]; omega
      · intro _; exact this
    | some c =>
      rw [hocc] at this
      obtain ⟨ha, hb, hc3⟩ := this
      constructor
      · intro hge
        by_cases hlt : job.minAvailable < job.readyTaskNum
        · have := hb hlt; omega
        · have := hc3 hlt; omega
      · intro hless
        have := hc3 (by omega)
        omega

def wTaskA : TaskInfo := ⟨"ta", "jw", "ta", "n1", ⟨100, 100, []⟩, 0, .Running, false⟩

def wTaskB : TaskInfo := ⟨"tb", "jw", "tb", "n1", ⟨100, 100, []⟩, 0, .Running, false⟩

def wTaskC : TaskInfo := ⟨"tc", "jw", "tc", "n1", ⟨100, 100, []⟩, 0, .Running, false⟩

def wJob3 : JobInfo :=
  ⟨"jw", "jw", "q1", 0, 2, none, none, [("ta", wTaskA), ("tb", wTaskB), ("tc", wTaskC)]⟩

theorem C3_witness :
    gangPreemptableFn [("jw", wJob3)] [wTaskA, wTaskB] = some [wTaskA] ∧
    wJob3.minAvailable ≤ wJob3.readyTaskNum - victimCount [wTaskA] "jw" :=
  ⟨by rfl,
   (C3_gang_no_job_below_min [("jw", wJob3)] [wTaskA, wTaskB] [wTaskA]
      (by intro q hq; simp at hq; rw [hq]; rfl) (by rfl) "jw" wJob3 (by rfl)).1 (by decide)⟩

/-! ## Queues and the cluster snapshot -/

structure QueueInfo where
  uid : String
  name : String
  weight : Int
deriving DecidableEq, Repr

def QueueInfo.clone (q : QueueInfo) : QueueInfo := q

structure ClusterInfo where
  jobs : List (String × JobInfo)
  nodes : List (String × NodeInfo)
  queues : List (String × QueueInfo)
deriving DecidableEq, Repr

/-! ## The scheduler cache (`SchedulerCache`)

Only the state reached by the claims is modelled: the entity maps, the
priority classes (name to value), `defaultPriority`, and the `errTasks`
resync queue.  The detached effector calls spawned by `Bind`/`Evict` are
recorded as effects; informers, recorder events and pod-group version
conversion are out of scope. -/

inductive CacheEffect where
  | bindPod (uid host : String)
  | evictPod (uid : String)
  | allocVolumes (uid host : String)
  | bindVols (uid : String)
deriving DecidableEq, Repr

structure SchedulerCache where
  jobs : List (String × JobInfo)
  nodes : List (String × NodeInfo)
  queues : List (String × QueueInfo)
  priorityClasses : List (String × Int)
  defaultPriority : Int
  errTasks : List TaskInfo
deriving DecidableEq, Repr

/-- `SchedulerCache.findJobAndTask`. -/
def SchedulerCache.findJobAndTask (sc : SchedulerCache) (taskInfo : TaskInfo) :
    Except String (JobInfo × TaskInfo) :=
  match alookup taskInfo.job sc.jobs with
  | none => .error "failed to find Job for Task"
  | some job =>
    match alookup taskInfo.uid job.tasks with
    | none => .error "failed to find task in status by id"
    | some task => .ok (job, task)

/-- `SchedulerCache.Bind`: locate job and task, check the host, remember
the original status, set the task to `Binding`, then `node.AddTask`; on
`AddTask` failure revert the status (resyncing only if the revert itself
fails) and return the error; on success record the detached
`Binder.Bind` call and write the task's updated `NodeName` back through
the shared pointer into the job index. -/
def SchedulerCache.Bind (sc : SchedulerCache) (taskInfo : TaskInfo) (hostname : String) :
    SchedulerCache × List CacheEffect × Except String Unit :=
  match sc.findJobAndTask taskInfo with
  | .error e => (sc, [], .error e)
  | .ok (job, task) =>
    match alookup hostname sc.nodes with
    | none => (sc, [], .error "failed to bind Task, host does not exist")
    | some node =>
      let originalStatus := task.status
      match job.updateTaskStatus task .Binding with
      | .error e => (sc, [], .error e)
      | .ok (job1, task1) =>
        let sc1 := { sc with jobs := setKey taskInfo.job job1 sc.jobs }
        match node.addTask task1 with
        | .error e =>
          match job1.updateTaskStatus task1 originalStatus with
          | .ok (job2, _) =>
            ({ sc1 with jobs := setKey taskInfo.job job2 sc1.jobs }, [], .error e)
          | .error _ =>
            ({ sc1 with errTasks := sc1.errTasks ++ [task1] }, [], .error e)
        | .ok (node1, task2) =>
          let job2 := { job1 with tasks := setKey task2.uid task2 job1.tasks }
          ({ sc1 with
              jobs := setKey taskInfo.job job2 sc1.jobs,
              nodes := setKey hostname node1 sc1.nodes },
            [.bindPod taskInfo.uid hostname], .ok ())

/-- `SchedulerCache.Evict`: locate job and task, check the task's recorded
host, remember the original status, set the task to `Releasing`, then
`node.UpdateTask`; a failure of the removal half reverts the status
(resyncing only if the revert fails); a failure of the re-add half hits
`glog.Fatalf` (`none`); on success record the detached `Evictor.Evict`
call.  Recorder events and pod-group conversion are not modelled. -/
def SchedulerCache.Evict (sc : SchedulerCache) (taskInfo : TaskInfo) (reason : String) :
    Option (SchedulerCache × List CacheEffect × Except String Unit) :=
  match sc.findJobAndTask taskInfo with
  | .error e => some (sc, [], .error e)
  | .ok (job, task) =>
    match alookup task.nodeName sc.nodes with
    | none => some (sc, [], .error "failed to evict Task, host does not exist")
    | some node =>
      let originalStatus := task.status
      match job.updateTaskStatus task .Releasing with
      | .error e => some (sc, [], .error e)
      | .ok (job1, task1) =>
        let sc1 := { sc with jobs := setKey taskInfo.job job1 sc.jobs }
        match node.removeTask task1 with
        | .error e =>
          match job1.updateTaskStatus task1 originalStatus with
          | .ok (job2, _) =>
            some ({ sc1 with jobs := setKey taskInfo.job job2 sc1.jobs }, [], .error e)
          | .error _ =>
            some ({ sc1 with errTasks := sc1.errTasks ++ [task1] }, [], .error e)
        | .ok nodeR =>
          match nodeR.addTask task1 with
          | .error _ => none
          | .ok (node1, task2) =>
            let job2 := { job1 with tasks := setKey task2.uid task2 job1.tasks }
            some ({ sc1 with
                jobs := setKey taskInfo.job job2 sc1.jobs,
                nodes := setKey task.nodeName node1 sc1.nodes },
              [.evictPod taskInfo.uid], .ok ())

/-- The three phases of `SchedulerCache.Snapshot`, factored per loop. -/
def snapNodeStep (acc : ClusterInfo) (p : String × NodeInfo) : ClusterInfo :=
  if p.2.ready then { acc with nodes := (p.2.name, p.2.clone) :: acc.nodes } else acc

def snapQueueStep (acc : ClusterInfo) (p : String × QueueInfo) : ClusterInfo :=
  { acc with queues := (p.2.uid, p.2.clone) :: acc.queues }

/-- The priority adjustment `Snapshot` applies to a job before cloning it:
with a pod group, the priority becomes the priority class value when the
class is found and `defaultPriority` otherwise; without one the job is
left as is. -/
def snapJobValue (sc : SchedulerCache) (job : JobInfo) : JobInfo :=
  match job.podGroup with
  | some pg =>
    { job with
      priority := (alookup pg.priorityClassName sc.priorityClasses).getD sc.defaultPriority }
  | none => job

def snapJobStep (sc : SchedulerCache) (acc : ClusterInfo) (p : String × JobInfo) :
    ClusterInfo :=
  if p.2.podGroup.isNone && p.2.pdb.isNone then acc
  else if (alookup p.2.queue acc.queues).isNone then acc
  else { acc with jobs := ((snapJobValue sc p.2).uid, (snapJobValue sc p.2).clone) :: acc.jobs }

/-- `SchedulerCache.Snapshot`: ready nodes are cloned, every queue is
cloned, and a job is cloned when it carries a pod group or a PDB and its
queue is present in the snapshot, after the priority adjustment. -/
def SchedulerCache.Snapshot (sc : SchedulerCache) : ClusterInfo :=
  sc.jobs.foldl (snapJobStep sc)
    (sc.queues.foldl snapQueueStep
      (sc.nodes.foldl snapNodeStep ⟨[], [], []⟩))

theorem updateTaskStatus_eq (job : JobInfo) (task : TaskInfo) (status : TaskStatus)
    (w : TaskInfo) (h : alookup task.uid job.tasks = some w) :
    job.updateTaskStatus task status =
      .ok ({ job with tasks := setKey task.uid { task with status := status } job.tasks },
           { task with status := status }) := by
  unfold JobInfo.updateTaskStatus
  rw [h]

theorem updateTaskStatus_eq_missing (job : JobInfo) (task : TaskInfo) (status : TaskStatus)
    (h : alookup task.uid job.tasks = none) :
    job.updateTaskStatus task status = .error "task not found in job" := by
  unfold JobInfo.updateTaskStatus
  rw [h]

theorem findJobAndTask_eq (sc : SchedulerCache) (t : TaskInfo) (job : JobInfo)
    (task : TaskInfo) (hj : alookup t.job sc.jobs = some job)
    (ht : alookup t.uid job.tasks = some task) :
    sc.findJobAndTask t = .ok (job, task) := by
  unfold SchedulerCache.findJobAndTask
  rw [hj]
  show (match alookup t.uid job.tasks with
        | none => (Except.error "failed to find task in status by id" :
            Except String (JobInfo × TaskInfo))
        | some task => Except.ok (job, task)) = Except.ok (job, task)
  rw [ht]

theorem updateTaskStatus_roundtrip (job : JobInfo) (task : TaskInfo) (s : TaskStatus)
    (hself : alookup task.uid job.tasks = some task) :
    JobInfo.updateTaskStatus
        { job with tasks := setKey task.uid { task with status := s } job.tasks }
        { task with status := s } task.status
      = .ok (job, task) := by
  rw [updateTaskStatus_eq
      { job with tasks := setKey task.uid { task with status := s } job.tasks }
      { task with status := s } task.status { task with status := s }
      (alookup_setKey_self task.uid { task with status := s } task job.tasks hself)]
  show Except.ok
      ({ job with
         tasks := setKey task.uid task (setKey task.uid { task with status := s } job.tasks) },
       task)
    = Except.ok (job, task)
  rw [setKey_setKey, setKey_of_alookup_eq task.uid task job.tasks hself]

/-- C4 (amended): when `Bind` locates the job, task and host but
`node.AddTask` fails, it reverts the task status to the original and
returns the `AddTask` error with the cache — including the job's tasks,
the node, and the resync queue — exactly as before the call; the task is
enqueued for resync only if the revert itself were to fail, which cannot
happen here because the task stays indexed in its job.  (The original
claim asserted that the failing path always enqueues a resync.) -/
theorem C4_bind_failure_frame (sc : SchedulerCache) (taskInfo : TaskInfo)
    (hostname : String) (job : JobInfo) (task : TaskInfo) (node : NodeInfo) (e : String)
    (hj : alookup taskInfo.job sc.jobs = some job)
    (ht : alookup taskInfo.uid job.tasks = some task)
    (hself : alookup task.uid job.tasks = some task)
    (hnode : alookup hostname sc.nodes = some node)
    (hadd : node.addTask { task with status := .Binding } = .error e) :
    sc.Bind taskInfo hostname = (sc, [], .error e) := by
  have hfind := findJobAndTask_eq sc taskInfo job task hj ht
  have hupd := updateTaskStatus_eq job task .Binding task hself
  have hRT := updateTaskStatus_roundtrip job task .Binding hself
  simp only [SchedulerCache.Bind, hfind, hnode, hupd, hadd, hRT]
  rw [setKey_setKey, setKey_of_alookup_eq taskInfo.job job sc.jobs hj]

/-- C4 counterexample fixtures: the target node already holds a task with
the same pod key, so `AddTask` fails; `Bind` reverts the status and
returns the error, but the resync queue stays empty (the original claim
said the task is enqueued for resync on this path). -/
def cTaskB : TaskInfo := ⟨"t1", "j1", "t1", "", ⟨100, 100, []⟩, 0, .Pending, false⟩

def cJobB : JobInfo := ⟨"j1", "j1", "q1", 0, 1, none, none, [("t1", cTaskB)]⟩

def cNodeB : NodeInfo := { wNode with tasks := [("t1", cTaskB)] }

def cSC : SchedulerCache := ⟨[("j1", cJobB)], [("n1", cNodeB)], [], [], 0, []⟩

theorem C4_counterexample :
    (cSC.Bind cTaskB "n1").2.2 = .error "task already on node" ∧
    (cSC.Bind cTaskB "n1").1.errTasks = [] := by
  constructor <;> rfl

theorem C4_witness :
    cSC.Bind cTaskB "n1" = (cSC, [], .error "task already on node") :=
  C4_bind_failure_frame cSC cTaskB "n1" cJobB cTaskB cNodeB "task already on node"
    (by rfl) (by rfl) (by rfl) (by rfl) (by rfl)

theorem alookup_isSome_iff {α : Type} (k : String) (l : List (String × α)) :
    (alookup k l).isSome = true ↔ k ∈ l.map Prod.fst := by
  constructor
  · exact mem_keys_of_alookup_isSome k l
  · intro hm
    induction l with
    | nil => simp at hm
    | cons p rest ih =>
      obtain ⟨pk, pv⟩ := p
      by_cases h1 : pk = k
      · subst h1; simp
      · simp only [List.map_cons, List.mem_cons] at hm
        rcases hm with hm | hm
        · exact absurd hm.symm h1
        · simpa [alookup_cons, h1] using ih hm

theorem snapNodeFold (l : List (String × NodeInfo)) (acc : ClusterInfo) :
    (l.foldl snapNodeStep acc).nodes
      = ((l.filter fun p => p.2.ready).map fun p => (p.2.name, p.2.clone)).reverse
          ++ acc.nodes ∧
    (l.foldl snapNodeStep acc).jobs = acc.jobs ∧
    (l.foldl snapNodeStep acc).queues = acc.queues := by
  induction l generalizing acc with
  | nil => simp
  | cons p rest ih =>
    simp only [List.foldl_cons]
    obtain ⟨i1, i2, i3⟩ := ih (snapNodeStep acc p)
    by_cases hr : p.2.ready
    · refine ⟨?_, ?_, ?_⟩
      · rw [i1]
        simp [snapNodeStep, hr, List.filter_cons]
      · rw [i2]; simp [snapNodeStep, hr]
      · rw [i3]; simp [snapNodeStep, hr]
    · refine ⟨?_, ?_, ?_⟩
      · rw [i1]
        simp [snapNodeStep, hr, List.filter_cons]
      · rw [i2]; simp [snapNodeStep, hr]
      · rw [i3]; simp [snapNodeStep, hr]

theorem snapQueueFold (l : List (String × QueueInfo)) (acc : ClusterInfo) :
    (l.foldl snapQueueStep acc).queues
      = (l.map fun p => (p.2.uid, p.2.clone)).reverse ++ acc.queues ∧
    (l.foldl snapQueueStep acc).jobs = acc.jobs ∧
    (l.foldl snapQueueStep acc).nodes = acc.nodes := by
  induction l generalizing acc with
  | nil => simp
  | cons p rest ih =>
    simp only [List.foldl_cons]
    obtain ⟨i1, i2, i3⟩ := ih (snapQueueStep acc p)
    refine ⟨?_, ?_, ?_⟩
    · rw [i1]; simp [snapQueueStep]
    · rw [i2]; simp [snapQueueStep]
    · rw [i3]; simp [snapQueueStep]

theorem snapJobStep_queues (sc : SchedulerCache) (acc : ClusterInfo) (p : String × JobInfo) :
    (snapJobStep sc acc p).queues = acc.queues := by
  unfold snapJobStep
  by_cases h1 : (p.2.podGroup.isNone && p.2.pdb.isNone) = true
  · rw [if_pos h1]
  · rw [if_neg h1]
    by_cases h2 : (alookup p.2.queue acc.queues).isNone = true
    · rw [if_pos h2]
    · rw [if_neg h2]

theorem snapJobStep_nodes (sc : SchedulerCache) (acc : ClusterInfo) (p : String × JobInfo) :
    (snapJobStep sc acc p).nodes = acc.nodes := by
  unfold snapJobStep
  by_cases h1 : (p.2.podGroup.isNone && p.2.pdb.isNone) = true
  · rw [if_pos h1]
  · rw [if_neg h1]
    by_cases h2 : (alookup p.2.queue acc.queues).isNone = true
    · rw [if_pos h2]
    · rw [if_neg h2]

theorem snapJobFold (sc : SchedulerCache) (l : List (String × JobInfo)) (acc : ClusterInfo) :
    (l.foldl (snapJobStep sc) acc).queues = acc.queues ∧
    (l.foldl (snapJobStep sc) acc).nodes = acc.nodes ∧
    (l.foldl (snapJobStep sc) acc).jobs
      = ((l.filter fun p =>
            !(p.2.podGroup.isNone && p.2.pdb.isNone)
              && (alookup p.2.queue acc.queues).isSome).map
          fun p => ((snapJobValue sc p.2).uid, (snapJobValue sc p.2).clone)).reverse
        ++ acc.jobs := by
  induction l generalizing acc with
  | nil => simp
  | cons p rest ih =>
    simp only [List.foldl_cons]
    obtain ⟨i1, i2, i3⟩ := ih (snapJobStep sc acc p)
    rw [snapJobStep_queues] at i1
    refine ⟨i1, by rw [i2, snapJobStep_nodes], ?_⟩
    rw [i3, snapJobStep_queues]
    by_cases h1 : (p.2.podGroup.isNone && p.2.pdb.isNone) = true
    · have hstep : snapJobStep sc acc p = acc := by
        unfold snapJobStep; rw [if_pos h1]
      rw [hstep]
      have hc : (!(p.2.podGroup.isNone && p.2.pdb.isNone)
          && (alookup p.2.queue acc.queues).isSome) = false := by
        rw [h1]; rfl
      simp only [List.filter_cons]
      rw [hc]
      simp
    · rw [Bool.not_eq_true] at h1
      by_cases h2 : (alookup p.2.queue acc.queues).isSome = true
      · have hq : ¬ (alookup p.2.queue acc.queues).isNone = true := by
          cases hh : alookup p.2.queue acc.queues with
          | none => rw [hh] at h2; simp at h2
          | some w => simp
        have hstep : snapJobStep sc acc p =
            { acc with
              jobs := ((snapJobValue sc p.2).uid, (snapJobValue sc p.2).clone) :: acc.jobs } := by
          unfold snapJobStep
          rw [if_neg (by simp [h1]), if_neg hq]
        rw [hstep]
        have hc : (!(p.2.podGroup.isNone && p.2.pdb.isNone)
            && (alookup p.2.queue acc.queues).isSome) = true := by
          rw [h1, h2]; rfl
        simp only [List.filter_cons]
        rw [hc]
        simp [List.reverse_cons, List.append_assoc]
      · rw [Bool.not_eq_true] at h2
        have hq : (alookup p.2.queue acc.queues).isNone = true := by
          cases hh : alookup p.2.queue acc.queues with
          | none => rfl
          | some w => rw [hh] at h2; simp at h2
        have hstep : snapJobStep sc acc p = acc := by
          unfold snapJobStep
          rw [if_neg (by simp [h1]), if_pos hq]
        rw [hstep]
        have hc : (!(p.2.podGroup.isNone && p.2.pdb.isNone)
            && (alookup p.2.queue acc.queues).isSome) = false := by
          rw [h2]; simp
        simp only [List.filter_cons]
        rw [hc]
        simp

/-- C5: `Snapshot` returns a `ClusterInfo` containing exactly the clones
of the `Ready`-phase nodes (keyed by node name), a clone of every queue
(keyed by queue uid), and exactly the clones of those jobs that carry a
pod group or a PDB and whose queue is present in the snapshot; a job with
a pod group is cloned with its priority set to its priority class value
when the class is found and to `defaultPriority` otherwise. -/
theorem C5_snapshot_contents (sc : SchedulerCache) :
    (∀ n ni, (n, ni) ∈ sc.Snapshot.nodes ↔
      ∃ p, p ∈ sc.nodes ∧ p.2.ready = true ∧ n = p.2.name ∧ ni = p.2.clone) ∧
    (∀ q qi, (q, qi) ∈ sc.Snapshot.queues ↔
      ∃ p, p ∈ sc.queues ∧ q = p.2.uid ∧ qi = p.2.clone) ∧
    (∀ u j, (u, j) ∈ sc.Snapshot.jobs ↔
      ∃ p, p ∈ sc.jobs ∧
        (p.2.podGroup.isNone && p.2.pdb.isNone) = false ∧
        (∃ qp, qp ∈ sc.queues ∧ p.2.queue = qp.2.uid) ∧
        u = (snapJobValue sc p.2).uid ∧ j = (snapJobValue sc p.2).clone) ∧
    (∀ (jb : JobInfo) (pg : PodGroup), jb.podGroup = some pg →
      (snapJobValue sc jb).priority
        = (alookup pg.priorityClassName sc.priorityClasses).getD sc.defaultPriority) := by
  obtain ⟨n1, n2, n3⟩ := snapNodeFold sc.nodes ⟨[], [], []⟩
  obtain ⟨q1, q2, q3⟩ := snapQueueFold sc.queues (sc.nodes.foldl snapNodeStep ⟨[], [], []⟩)
  obtain ⟨j1, j2, j3⟩ := snapJobFold sc sc.jobs
    (sc.queues.foldl snapQueueStep (sc.nodes.foldl snapNodeStep ⟨[], [], []⟩))
  have hsnap : sc.Snapshot
      = sc.jobs.foldl (snapJobStep sc)
          (sc.queues.foldl snapQueueStep (sc.nodes.foldl snapNodeStep ⟨[], [], []⟩)) := rfl
  refine ⟨?_, ?_, ?_, ?_⟩
  · intro n ni
    have hnodes : sc.Snapshot.nodes
        = ((sc.nodes.filter fun p => p.2.ready).map fun p => (p.2.name, p.2.clone)).reverse := by
      rw [hsnap, j2, q3, n1]
      simp
    rw [hnodes]
    simp only [List.mem_reverse, List.mem_map, List.mem_filter]
    constructor
    · rintro ⟨p, ⟨hp, hr⟩, heq⟩
      rw [Prod.ext_iff] at heq
      exact ⟨p, hp, hr, heq.1.symm, heq.2.symm⟩
    · rintro ⟨p, hp, hr, h1, h2⟩
      exact ⟨p, ⟨hp, hr⟩, by rw [h1, h2]⟩
  · intro q qi
    have hqueues : sc.Snapshot.queues
        = (sc.queues.map fun p => (p.2.uid, p.2.clone)).reverse := by
      rw [hsnap, j1, q1, n3]
      simp
    rw [hqueues]
    simp only [List.mem_reverse, List.mem_map]
    constructor
    · rintro ⟨p, hp, heq⟩
      rw [Prod.ext_iff] at heq
      exact ⟨p, hp, heq.1.symm, heq.2.symm⟩
    · rintro ⟨p, hp, h1, h2⟩
      exact ⟨p, hp, by rw [h1, h2]⟩
  · intro u j
    have hq2 : (sc.queues.foldl snapQueueStep
        (sc.nodes.foldl snapNodeStep ⟨[], [], []⟩)).queues
        = (sc.queues.map fun p => (p.2.uid, p.2.clone)).reverse := by
      rw [q1, n3]
      simp
    have hjobs : sc.Snapshot.jobs
        = ((sc.jobs.filter fun p =>
              !(p.2.podGroup.isNone && p.2.pdb.isNone)
                && (alookup p.2.queue
                    ((sc.queues.map fun pq => (pq.2.uid, pq.2.clone)).reverse)).isSome).map
            fun p => ((snapJobValue sc p.2).uid, (snapJobValue sc p.2).clone)).reverse := by
      rw [hsnap, j3]
      simp only [hq2]
      rw [q2, n2]
      simp
    rw [hjobs]
    simp only [List.mem_reverse, List.mem_map, List.mem_filter, Bool.and_eq_true,
      Bool.not_eq_true']
    constructor
    · rintro ⟨p, ⟨hp, hcond, hqc⟩, heq⟩
      rw [Prod.ext_iff] at heq
      refine ⟨p, hp, hcond, ?_, heq.1.symm, heq.2.symm⟩
      rw [alookup_isSome_iff] at hqc
      simp only [List.map_reverse, List.mem_reverse, List.mem_map] at hqc
      obtain ⟨b, ⟨qp, hqp, hb⟩, hquid⟩ := hqc
      exact ⟨qp, hqp, by rw [← hquid, ← hb]⟩
    · rintro ⟨p, hp, hcond, ⟨qp, hqp, hquid⟩, h1, h2⟩
      refine ⟨p, ⟨hp, hcond, ?_⟩, by rw [h1, h2]⟩
      rw [alookup_isSome_iff]
      simp only [List.map_reverse, List.mem_reverse, List.mem_map]
      exact ⟨(qp.2.uid, qp.2.clone), ⟨qp, hqp, rfl⟩, hquid.symm⟩
  · intro jb pg hpg
    unfold snapJobValue
    rw [hpg]

def wQueue5 : QueueInfo := ⟨"q5", "q5", 1⟩

def wJob5 : JobInfo := ⟨"j5", "j5", "q5", 0, 1, some ⟨"pc5"⟩, none, []⟩

def wSC5 : SchedulerCache :=
  ⟨[("j5", wJob5)], [("n1", wNode)], [("q5", wQueue5)], [("pc5", 7)], 3, []⟩

/-- Witness for C5 at a concrete one-node, one-queue, one-job cache: the
job (with its priority resolved to its priority class value 7), the ready
node and the queue all land in the snapshot. -/
theorem C5_witness :
    (("j5", { wJob5 with priority := 7 }) ∈ wSC5.Snapshot.jobs) ∧
    (("n1", wNode.clone) ∈ wSC5.Snapshot.nodes) ∧
    (("q5", wQueue5) ∈ wSC5.Snapshot.queues) ∧
    (snapJobValue wSC5 wJob5).priority
      = (alookup "pc5" wSC5.priorityClasses).getD wSC5.defaultPriority := by
  refine ⟨?_, ?_, ?_, (C5_snapshot_contents wSC5).2.2.2 wJob5 ⟨"pc5"⟩ rfl⟩
  · exact ((C5_snapshot_contents wSC5).2.2.1 "j5" _).mpr
      ⟨("j5", wJob5), List.mem_singleton.mpr rfl, rfl,
        ⟨("q5", wQueue5), List.mem_singleton.mpr rfl, rfl⟩, rfl, rfl⟩
  · exact ((C5_snapshot_contents wSC5).1 "n1" _).mpr
      ⟨("n1", wNode), List.mem_singleton.mpr rfl, rfl, rfl, rfl⟩
  · exact ((C5_snapshot_contents wSC5).2.1 "q5" _).mpr
      ⟨("q5", wQueue5), List.mem_singleton.mpr rfl, rfl, rfl⟩

/-! ## Sessions and the statement (`statement.go`)

A `Session` holds the job and node indexes touched by `Statement`
operations.  Go passes `*api.TaskInfo` pointers that alias the structs
stored in `ssn.Jobs[job].Tasks[uid]`; the value model renders a pointer
dereference as a lookup of the current entry under the task's `(Job, UID)`
path (falling back to the passed value when the path is unindexed), and a
pointer mutation as an explicit write-back of the mutated value under the
same path (`Session.writeTask`, a no-op when the path is unindexed). -/

structure Session where
  jobs : List (String × JobInfo)
  nodes : List (String × NodeInfo)
deriving DecidableEq, Repr

/-- Current value of the struct a task pointer refers to: the entry stored
under the task's `(Job, UID)` path, or the passed value when unindexed. -/
def Session.readTask (ssn : Session) (t : TaskInfo) : TaskInfo :=
  (((alookup t.job ssn.jobs).map JobInfo.tasks).bind (alookup t.uid)).getD t

/-- Pointer mutation write-back: replace the entry stored under the task's
`(Job, UID)` path by the mutated value (no-op when the path is unindexed). -/
def Session.writeTask (ssn : Session) (t : TaskInfo) : Session :=
  match alookup t.job ssn.jobs with
  | none => ssn
  | some job =>
    if (alookup t.uid job.tasks).isSome then
      { ssn with jobs := setKey t.job { job with tasks := setKey t.uid t job.tasks } ssn.jobs }
    else ssn

/-- The `job, found := s.ssn.Jobs[t.Job]; if found { job.UpdateTaskStatus(t, st) }`
block shared by `Evict`/`unevict`/`unpipeline`/`unallocate`, where failures
are only logged: returns the updated session and the (possibly mutated)
pointer value. -/
def sessionUpdateStatus (ssn : Session) (task : TaskInfo) (status : TaskStatus) :
    Session × TaskInfo :=
  match alookup task.job ssn.jobs with
  | some job =>
    match job.updateTaskStatus task status with
    | .ok r => (⟨setKey task.job r.1 ssn.jobs, ssn.nodes⟩, r.2)
    | .error _ => (ssn, task)
  | none => (ssn, task)

/-- The `if node, found := s.ssn.Nodes[t.NodeName]; found { node.UpdateTask(t) }`
block of `Evict`/`unevict` (errors logged; the inner `AddTask` failure is
`glog.Fatalf`, modelled as `none`).  On success the mutated pointer value
is written back. -/
def sessionUpdateTaskInNode (ssn : Session) (task : TaskInfo) :
    Option (Session × TaskInfo) :=
  match alookup task.nodeName ssn.nodes with
  | some node =>
    match node.updateTask task with
    | none => none
    | some (.error _) => some (ssn, task)
    | some (.ok r) =>
      some (Session.writeTask ⟨ssn.jobs, setKey task.nodeName r.1 ssn.nodes⟩ r.2, r.2)
  | none => some (ssn, task)

/-- A journaled operation: the Go code stores the task pointer and the
string arguments; the model stores the pointer's value at append time
(dereferences during `Discard`/`Commit` go through `Session.readTask`). -/
inductive Operation where
  | evictOp (task : TaskInfo) (reason : String)
  | pipelineOp (task : TaskInfo) (hostname : String)
  | allocateOp (task : TaskInfo) (hostname : String)
deriving DecidableEq, Repr

structure Statement where
  operations : List Operation
  ssn : Session
deriving DecidableEq, Repr

/-- `Statement.Evict`: update the status to `Releasing` in the session
(failures logged), update the task in its node (failures logged, re-add
failure is `Fatalf`), append the `evict` record, `return nil`.  The
returned `Option String` is the Go error return value. -/
def Statement.Evict (s : Statement) (reclaimee : TaskInfo) (reason : String) :
    Option (Statement × Option String) :=
  match sessionUpdateTaskInNode (sessionUpdateStatus s.ssn reclaimee .Releasing).1
      (sessionUpdateStatus s.ssn reclaimee .Releasing).2 with
  | none => none
  | some r =>
    some ({ operations := s.operations ++ [.evictOp r.2 reason], ssn := r.1 }, none)

/-- `Statement.Pipeline`: set the status to `Pipelined` (job or update
failure returns the error), `AddTask` on the host (failure returns the
error), append the `pipeline` record. -/
def Statement.Pipeline (s : Statement) (task : TaskInfo) (hostname : String) :
    Statement × Option String :=
  match alookup task.job s.ssn.jobs with
  | none => (s, some ("failed to find job " ++ task.job ++ " when pipeline"))
  | some job =>
    match job.updateTaskStatus task .Pipelined with
    | .error e => (s, some e)
    | .ok r =>
      match alookup hostname s.ssn.nodes with
      | none => ({ s with ssn := ⟨setKey task.job r.1 s.ssn.jobs, s.ssn.nodes⟩ },
          some ("failed to find node " ++ hostname ++ " when pipeline"))
      | some node =>
        match node.addTask r.2 with
        | .error e => ({ s with ssn := ⟨setKey task.job r.1 s.ssn.jobs, s.ssn.nodes⟩ },
            some e)
        | .ok q =>
          ({ operations := s.operations ++ [.pipelineOp q.2 hostname],
             ssn := Session.writeTask
               ⟨setKey task.job r.1 s.ssn.jobs, setKey hostname q.1 s.ssn.nodes⟩ q.2 },
           none)

/-- `Statement.Allocate`: `AllocateVolumes` (an external call whose outcome
is the `allBound`/`volErr` pair; it sets `task.VolumeReady` even on error),
then set the status to `Allocated`, `AddTask` on the host, append the
`allocate` record. -/
def Statement.Allocate (s : Statement) (task : TaskInfo) (hostname : String)
    (allBound : Bool) (volErr : Option String) : Statement × Option String :=
  match volErr with
  | some e => ({ s with ssn := s.ssn.writeTask { task with volumeReady := allBound } }, some e)
  | none =>
    match alookup task.job (s.ssn.writeTask { task with volumeReady := allBound }).jobs with
    | none => ({ s with ssn := s.ssn.writeTask { task with volumeReady := allBound } },
        some ("failed to find job " ++ task.job))
    | some job =>
      match job.updateTaskStatus { task with volumeReady := allBound } .Allocated with
      | .error e => ({ s with ssn := s.ssn.writeTask { task with volumeReady := allBound } },
          some e)
      | .ok r =>
        match alookup hostname s.ssn.nodes with
        | none =>
          ({ s with ssn :=
              ⟨setKey task.job r.1 (s.ssn.writeTask { task with volumeReady := allBound }).jobs,
                s.ssn.nodes⟩ },
            some ("failed to find node " ++ hostname ++ " when allocating"))
        | some node =>
          match node.addTask r.2 with
          | .error e =>
            ({ s with ssn :=
                ⟨setKey task.job r.1 (s.ssn.writeTask { task with volumeReady := allBound }).jobs,
                  s.ssn.nodes⟩ },
              some e)
          | .ok q =>
            ({ operations := s.operations ++ [.allocateOp q.2 hostname],
               ssn := Session.writeTask
                 ⟨setKey task.job r.1
                     (s.ssn.writeTask { task with volumeReady := allBound }).jobs,
                   setKey hostname q.1 s.ssn.nodes⟩ q.2 },
             none)

/-- `Statement.unevict`: set the status back to `Running` (failures
logged), update the task in its node (`Fatalf` on re-add failure is
`none`); always returns nil. -/
def Statement.unevict (ssn : Session) (v : TaskInfo) : Option Session :=
  match sessionUpdateTaskInNode
      (sessionUpdateStatus ssn (ssn.readTask v) .Running).1
      (sessionUpdateStatus ssn (ssn.readTask v) .Running).2 with
  | none => none
  | some r => some r.1

/-- `Statement.unpipeline`: set the status back to `Pending` (failures
logged), `RemoveTask` from the node named by the task (failures logged). -/
def Statement.unpipeline (ssn : Session) (v : TaskInfo) : Session :=
  match alookup ((sessionUpdateStatus ssn (ssn.readTask v) .Pending).2).nodeName
      ((sessionUpdateStatus ssn (ssn.readTask v) .Pending).1).nodes with
  | some node =>
    match node.removeTask (sessionUpdateStatus ssn (ssn.readTask v) .Pending).2 with
    | .error _ => (sessionUpdateStatus ssn (ssn.readTask v) .Pending).1
    | .ok node1 =>
      ⟨((sessionUpdateStatus ssn (ssn.readTask v) .Pending).1).jobs,
        setKey ((sessionUpdateStatus ssn (ssn.readTask v) .Pending).2).nodeName node1
          ((sessionUpdateStatus ssn (ssn.readTask v) .Pending).1).nodes⟩
  | none => (sessionUpdateStatus ssn (ssn.readTask v) .Pending).1

/-- `Statement.unallocate`: identical session effect to `unpipeline`
(status back to `Pending`, `RemoveTask` from the task's node). -/
def Statement.unallocate (ssn : Session) (v : TaskInfo) (reason : String) : Session :=
  Statement.unpipeline ssn v

/-- One reverse-iteration step of `Statement.Discard`. -/
def discardStep (ssn : Session) (op : Operation) : Option Session :=
  match op with
  | .evictOp v _ => Statement.unevict ssn v
  | .pipelineOp v _ => some (Statement.unpipeline ssn v)
  | .allocateOp v reason => some (Statement.unallocate ssn v reason)

def discardOps (ssn : Session) : List Operation → Option Session
  | [] => some ssn
  | op :: rest =>
    match discardStep ssn op with
    | none => none
    | some ssn1 => discardOps ssn1 rest

/-- `Statement.Discard`: iterate the journal in reverse insertion order,
applying the inverse of each operation. -/
def Statement.Discard (s : Statement) : Option Session :=
  discardOps s.ssn s.operations.reverse

/-! ## `Statement.Commit`

`Commit` replays the journal in insertion order against the scheduler
cache: `evict` records run `s.evict` (the cache eviction, with `unevict`
as fallback on error), `pipeline` records run `s.pipeline` — a function
with an empty body — and `allocate` records run `s.allocate`
(`BindVolumes`, `cache.Bind`, then the session status moves to `Binding`).
External API calls are recorded as `CacheEffect`s; `BindVolumes` makes no
call at all when the task's volumes are already bound. -/

structure World where
  ssn : Session
  cache : SchedulerCache
  effects : List CacheEffect
deriving DecidableEq, Repr

/-- `Statement.pipeline`: the Go function body is empty. -/
def Statement.pipeline (w : World) (v : TaskInfo) : World := w

/-- `Statement.evict`: `cache.Evict`, falling back to `unevict` on error
(the fallback's own error is only logged); `Fatalf` branches are `none`. -/
def Statement.evict (w : World) (v : TaskInfo) (reason : String) :
    Option (World × Option String) :=
  match w.cache.Evict (w.ssn.readTask v) reason with
  | none => none
  | some (sc1, eff, .ok _) =>
    some ({ w with cache := sc1, effects := w.effects ++ eff }, none)
  | some (sc1, eff, .error e) =>
    match Statement.unevict w.ssn v with
    | none => none
    | some ssn1 =>
      some ({ ssn := ssn1, cache := sc1, effects := w.effects ++ eff }, some e)

/-- `Statement.allocate`: `BindVolumes` (no call when `VolumeReady`), then
`cache.Bind(task, task.NodeName)`, then the session task moves to
`Binding` (errors returned to `Commit`, which logs them). -/
def Statement.allocate (w : World) (v : TaskInfo) : World × Option String :=
  match w.cache.Bind (w.ssn.readTask v) (w.ssn.readTask v).nodeName with
  | (sc1, eff, .error e) =>
    ({ w with
        cache := sc1,
        effects := w.effects
          ++ (if (w.ssn.readTask v).volumeReady then [] else [.bindVols v.uid]) ++ eff },
      some e)
  | (sc1, eff, .ok _) =>
    match alookup v.job w.ssn.jobs with
    | none =>
      ({ ssn := w.ssn, cache := sc1,
          effects := w.effects
            ++ (if (w.ssn.readTask v).volumeReady then [] else [.bindVols v.uid]) ++ eff },
        some ("failed to find job " ++ v.job))
    | some job =>
      match job.updateTaskStatus (w.ssn.readTask v) .Binding with
      | .error e =>
        ({ ssn := w.ssn, cache := sc1,
            effects := w.effects
              ++ (if (w.ssn.readTask v).volumeReady then [] else [.bindVols v.uid]) ++ eff },
          some e)
      | .ok r =>
        ({ ssn := ⟨setKey v.job r.1 w.ssn.jobs, w.ssn.nodes⟩, cache := sc1,
            effects := w.effects
              ++ (if (w.ssn.readTask v).volumeReady then [] else [.bindVols v.uid]) ++ eff },
          none)

/-- One insertion-order iteration step of `Statement.Commit` (errors of
the per-record calls are logged and iteration continues). -/
def commitStep (w : World) (op : Operation) : Option World :=
  match op with
  | .evictOp v reason =>
    match Statement.evict w v reason with
    | none => none
    | some r => some r.1
  | .pipelineOp v _ => some (Statement.pipeline w v)
  | .allocateOp v _ => some (Statement.allocate w v).1

def commitOps (w : World) : List Operation → Option World
  | [] => some w
  | op :: rest =>
    match commitStep w op with
    | none => none
    | some w1 => commitOps w1 rest

/-- `Statement.Commit` over a journal. -/
def Statement.Commit (w : World) (ops : List Operation) : Option World :=
  commitOps w ops

theorem commitOps_cons (w : World) (op : Operation) (rest : List Operation) :
    commitOps w (op :: rest)
      = match commitStep w op with
        | none => none
        | some w1 => commitOps w1 rest := rfl

theorem commitOps_append (w : World) (l1 l2 : List Operation) :
    commitOps w (l1 ++ l2)
      = match commitOps w l1 with
        | none => none
        | some w1 => commitOps w1 l2 := by
  induction l1 generalizing w with
  | nil => simp [commitOps]
  | cons op rest ih =>
    show commitOps w (op :: (rest ++ l2)) = _
    rw [commitOps_cons, commitOps_cons]
    cases hs : commitStep w op with
    | none => rfl
    | some w1 => exact ih w1

/-- C6: `Commit` walks the journal in insertion order; a `pipeline` record
is a complete no-op (the committed world — session, cache and recorded
external calls — is unchanged, and deleting the record from the journal
does not change `Commit`'s result), while an `allocate` record triggers
`BindVolumes` and then `cache.Bind` and moves the session task to
`Binding`. -/
theorem C6_commit_pipeline_noop :
    (∀ w v h, commitStep w (.pipelineOp v h) = some w) ∧
    (∀ w ops1 ops2 v h,
      Statement.Commit w (ops1 ++ .pipelineOp v h :: ops2)
        = Statement.Commit w (ops1 ++ ops2)) ∧
    (∀ w v hostname sc1 eff job r,
      w.cache.Bind (w.ssn.readTask v) (w.ssn.readTask v).nodeName = (sc1, eff, .ok ()) →
      alookup v.job w.ssn.jobs = some job →
      job.updateTaskStatus (w.ssn.readTask v) .Binding = .ok r →
      commitStep w (.allocateOp v hostname)
        = some { ssn := ⟨setKey v.job r.1 w.ssn.jobs, w.ssn.nodes⟩,
                 cache := sc1,
                 effects := w.effects
                   ++ (if (w.ssn.readTask v).volumeReady then [] else [.bindVols v.uid])
                   ++ eff }) := by
  refine ⟨fun w v h => rfl, ?_, ?_⟩
  · intro w ops1 ops2 v h
    show commitOps w (ops1 ++ .pipelineOp v h :: ops2) = commitOps w (ops1 ++ ops2)
    rw [commitOps_append, commitOps_append]
    cases hs : commitOps w ops1 with
    | none => rfl
    | some w1 => rfl
  · intro w v hostname sc1 eff job r hbind hjob hupd
    show some (Statement.allocate w v).1 = _
    unfold Statement.allocate
    simp only [hbind, hjob, hupd]

/-! Equation and elimination lemmas for the statement primitives. -/

theorem updateTaskStatus_ok_elim (job : JobInfo) (task : TaskInfo) (status : TaskStatus)
    (r : JobInfo × TaskInfo) (h : job.updateTaskStatus task status = .ok r) :
    (alookup task.uid job.tasks).isSome = true ∧
    r = ({ job with tasks := setKey task.uid { task with status := status } job.tasks },
         { task with status := status }) := by
  cases hu : alookup task.uid job.tasks with
  | none =>
    rw [updateTaskStatus_eq_missing job task status hu] at h
    simp at h
  | some w =>
    rw [updateTaskStatus_eq job task status w hu] at h
    refine ⟨rfl, ?_⟩
    injection h with h1
    exact h1.symm

theorem sessionUpdateStatus_found (ssn : Session) (t : TaskInfo) (st : TaskStatus)
    (job : JobInfo) (r : JobInfo × TaskInfo)
    (hj : alookup t.job ssn.jobs = some job) (hu : job.updateTaskStatus t st = .ok r) :
    sessionUpdateStatus ssn t st = (⟨setKey t.job r.1 ssn.jobs, ssn.nodes⟩, r.2) := by
  unfold sessionUpdateStatus
  simp only [hj, hu]

theorem sessionUpdateStatus_nojob (ssn : Session) (t : TaskInfo) (st : TaskStatus)
    (hj : alookup t.job ssn.jobs = none) :
    sessionUpdateStatus ssn t st = (ssn, t) := by
  unfold sessionUpdateStatus
  rw [hj]

theorem sessionUpdateStatus_updErr (ssn : Session) (t : TaskInfo) (st : TaskStatus)
    (job : JobInfo) (e : String)
    (hj : alookup t.job ssn.jobs = some job) (hu : job.updateTaskStatus t st = .error e) :
    sessionUpdateStatus ssn t st = (ssn, t) := by
  unfold sessionUpdateStatus
  simp only [hj, hu]

theorem sessionUpdateStatus_ids (ssn : Session) (t : TaskInfo) (st : TaskStatus) :
    ((sessionUpdateStatus ssn t st).2).uid = t.uid ∧
    ((sessionUpdateStatus ssn t st).2).job = t.job ∧
    ((sessionUpdateStatus ssn t st).2).nodeName = t.nodeName := by
  cases hj : alookup t.job ssn.jobs with
  | none => rw [sessionUpdateStatus_nojob ssn t st hj]; exact ⟨rfl, rfl, rfl⟩
  | some job =>
    cases hu : job.updateTaskStatus t st with
    | error e => rw [sessionUpdateStatus_updErr ssn t st job e hj hu]; exact ⟨rfl, rfl, rfl⟩
    | ok r =>
      obtain ⟨-, hr⟩ := updateTaskStatus_ok_elim job t st r hu
      rw [sessionUpdateStatus_found ssn t st job r hj hu, hr]
      exact ⟨rfl, rfl, rfl⟩

theorem updateTask_eq_rm_err (ni : NodeInfo) (ti : TaskInfo) (e : String)
    (hr : ni.removeTask ti = .error e) : ni.updateTask ti = some (.error e) := by
  unfold NodeInfo.updateTask
  rw [hr]

theorem updateTask_eq_add_err (ni : NodeInfo) (ti : TaskInfo) (ni1 : NodeInfo) (e : String)
    (hr : ni.removeTask ti = .ok ni1) (ha : ni1.addTask ti = .error e) :
    ni.updateTask ti = none := by
  unfold NodeInfo.updateTask
  simp only [hr, ha]

theorem updateTask_eq_ok (ni : NodeInfo) (ti : TaskInfo) (ni1 : NodeInfo)
    (q : NodeInfo × TaskInfo)
    (hr : ni.removeTask ti = .ok ni1) (ha : ni1.addTask ti = .ok q) :
    ni.updateTask ti = some (.ok q) := by
  unfold NodeInfo.updateTask
  simp only [hr, ha]

theorem updateTask_ok_elim (ni : NodeInfo) (ti : TaskInfo) (r : NodeInfo × TaskInfo)
    (h : ni.updateTask ti = some (.ok r)) :
    ∃ ni1, ni.removeTask ti = .ok ni1 ∧ ni1.addTask ti = .ok r := by
  cases hr : ni.removeTask ti with
  | error e => rw [updateTask_eq_rm_err ni ti e hr] at h; simp at h
  | ok ni1 =>
    cases ha : ni1.addTask ti with
    | error e => rw [updateTask_eq_add_err ni ti ni1 e hr ha] at h; simp at h
    | ok q =>
      rw [updateTask_eq_ok ni ti ni1 q hr ha] at h
      simp only [Option.some.injEq, Except.ok.injEq] at h
      exact ⟨ni1, rfl, by rw [ha, h]⟩

theorem sessionUpdateTaskInNode_nonode (ssn : Session) (t : TaskInfo)
    (hn : alookup t.nodeName ssn.nodes = none) :
    sessionUpdateTaskInNode ssn t = some (ssn, t) := by
  unfold sessionUpdateTaskInNode
  rw [hn]

theorem sessionUpdateTaskInNode_err (ssn : Session) (t : TaskInfo) (node : NodeInfo)
    (e : String) (hn : alookup t.nodeName ssn.nodes = some node)
    (hu : node.updateTask t = some (.error e)) :
    sessionUpdateTaskInNode ssn t = some (ssn, t) := by
  unfold sessionUpdateTaskInNode
  simp only [hn, hu]

theorem sessionUpdateTaskInNode_fatal (ssn : Session) (t : TaskInfo) (node : NodeInfo)
    (hn : alookup t.nodeName ssn.nodes = some node)
    (hu : node.updateTask t = none) :
    sessionUpdateTaskInNode ssn t = none := by
  unfold sessionUpdateTaskInNode
  simp only [hn, hu]

theorem sessionUpdateTaskInNode_ok (ssn : Session) (t : TaskInfo) (node : NodeInfo)
    (r : NodeInfo × TaskInfo) (hn : alookup t.nodeName ssn.nodes = some node)
    (hu : node.updateTask t = some (.ok r)) :
    sessionUpdateTaskInNode ssn t
      = some (Session.writeTask ⟨ssn.jobs, setKey t.nodeName r.1 ssn.nodes⟩ r.2, r.2) := by
  unfold sessionUpdateTaskInNode
  simp only [hn, hu]

theorem sessionUpdateTaskInNode_ids (ssn : Session) (t : TaskInfo)
    (r : Session × TaskInfo) (h : sessionUpdateTaskInNode ssn t = some r) :
    r.2.uid = t.uid ∧ r.2.job = t.job := by
  cases hn : alookup t.nodeName ssn.nodes with
  | none =>
    rw [sessionUpdateTaskInNode_nonode ssn t hn] at h
    simp only [Option.some.injEq] at h
    rw [← h]
    exact ⟨rfl, rfl⟩
  | some node =>
    cases hu : node.updateTask t with
    | none => rw [sessionUpdateTaskInNode_fatal ssn t node hn hu] at h; simp at h
    | some res =>
      cases res with
      | error e =>
        rw [sessionUpdateTaskInNode_err ssn t node e hn hu] at h
        simp only [Option.some.injEq] at h
        rw [← h]
        exact ⟨rfl, rfl⟩
      | ok q =>
        rw [sessionUpdateTaskInNode_ok ssn t node q hn hu] at h
        simp only [Option.some.injEq] at h
        obtain ⟨ni1, -, hadd⟩ := updateTask_ok_elim node t q hu
        obtain ⟨ni2, -, -, ht, -⟩ := addTask_ok_elim ni1 t q.1 q.2 (by rw [← hadd])
        rw [← h, ht]
        exact ⟨rfl, rfl⟩

theorem Evict_eq_of_node (s : Statement) (t : TaskInfo) (reason : String)
    (r : Session × TaskInfo)
    (h : sessionUpdateTaskInNode (sessionUpdateStatus s.ssn t .Releasing).1
        (sessionUpdateStatus s.ssn t .Releasing).2 = some r) :
    Statement.Evict s t reason
      = some ({ operations := s.operations ++ [.evictOp r.2 reason], ssn := r.1 }, none) := by
  unfold Statement.Evict
  rw [h]

theorem Evict_eq_fatal (s : Statement) (t : TaskInfo) (reason : String)
    (h : sessionUpdateTaskInNode (sessionUpdateStatus s.ssn t .Releasing).1
        (sessionUpdateStatus s.ssn t .Releasing).2 = none) :
    Statement.Evict s t reason = none := by
  unfold Statement.Evict
  rw [h]

/-- C8: `Statement.Evict` returns nil whenever it returns at all (its only
abnormal exit is the `Fatalf` inside `node.UpdateTask`), and it always
appends an `evict` record carrying the reclaimee (same UID and job);
in particular when both the job and the node are absent from the session
indexes the session is untouched yet the record is still appended; a later
`Discard` therefore runs `unevict` on the record, which sets the stored
task's status to `Running`. -/
theorem C8_evict_always_journals :
    (∀ s t reason out, Statement.Evict s t reason = some out →
      out.2 = none ∧ ∃ v, out.1.operations = s.operations ++ [.evictOp v reason]
        ∧ v.uid = t.uid ∧ v.job = t.job) ∧
    (∀ s t reason, alookup t.job s.ssn.jobs = none →
      alookup t.nodeName s.ssn.nodes = none →
      Statement.Evict s t reason
        = some ({ operations := s.operations ++ [.evictOp t reason], ssn := s.ssn }, none)) ∧
    (∀ ssn v reason job r,
      alookup (ssn.readTask v).job ssn.jobs = some job →
      job.updateTaskStatus (ssn.readTask v) .Running = .ok r →
      alookup r.2.nodeName ssn.nodes = none →
      discardStep ssn (.evictOp v reason)
        = some ⟨setKey (ssn.readTask v).job r.1 ssn.jobs, ssn.nodes⟩) ∧
    (∀ (job : JobInfo) (task : TaskInfo) r,
      job.updateTaskStatus task .Running = .ok r → r.2.status = .Running) := by
  refine ⟨?_, ?_, ?_, ?_⟩
  · intro s t reason out h
    cases hs : sessionUpdateTaskInNode (sessionUpdateStatus s.ssn t .Releasing).1
        (sessionUpdateStatus s.ssn t .Releasing).2 with
    | none => rw [Evict_eq_fatal s t reason hs] at h; simp at h
    | some r =>
      rw [Evict_eq_of_node s t reason r hs] at h
      simp only [Option.some.injEq] at h
      obtain ⟨h1, h2⟩ := sessionUpdateTaskInNode_ids _ _ r hs
      obtain ⟨h3, h4, -⟩ := sessionUpdateStatus_ids s.ssn t .Releasing
      refine ⟨by rw [← h], r.2, by rw [← h], ?_, ?_⟩
      · rw [h1, h3]
      · rw [h2, h4]
  · intro s t reason hj hn
    have h1 := sessionUpdateStatus_nojob s.ssn t .Releasing hj
    have h2 : sessionUpdateTaskInNode (sessionUpdateStatus s.ssn t .Releasing).1
        (sessionUpdateStatus s.ssn t .Releasing).2 = some (s.ssn, t) := by
      rw [h1]
      exact sessionUpdateTaskInNode_nonode s.ssn t hn
    exact Evict_eq_of_node s t reason (s.ssn, t) h2
  · intro ssn v reason job r hj hu hn
    show Statement.unevict ssn v = _
    have h1 := sessionUpdateStatus_found ssn (ssn.readTask v) .Running job r hj hu
    have h2 : sessionUpdateTaskInNode (sessionUpdateStatus ssn (ssn.readTask v) .Running).1
        (sessionUpdateStatus ssn (ssn.readTask v) .Running).2
        = some ((⟨setKey (ssn.readTask v).job r.1 ssn.jobs, ssn.nodes⟩ : Session), r.2) := by
      rw [h1]
      exact sessionUpdateTaskInNode_nonode _ r.2 hn
    unfold Statement.unevict
    rw [h2]
  · intro job task r h
    obtain ⟨-, hr⟩ := updateTaskStatus_ok_elim job task .Running r h
    rw [hr]

def t8 : TaskInfo := ⟨"t8", "j8", "t8", "n8", ⟨10, 10, []⟩, 0, .Bound, false⟩

def job8 : JobInfo := ⟨"j8", "j8", "q8", 0, 1, none, none, [("t8", t8)]⟩

def ssn8 : Session := ⟨[("j8", job8)], []⟩

def sEmpty : Session := ⟨[], []⟩

/-- Witness for C8: evicting a task whose node is unknown still returns
nil and journals the record; with both indexes empty the session is
untouched; discarding the record sets the stored task to `Running`. -/
theorem C8_witness :
    (∃ out, Statement.Evict (⟨[], ssn8⟩ : Statement) t8 "r8" = some out ∧ out.2 = none ∧
      ∃ v, out.1.operations = [] ++ [.evictOp v "r8"] ∧ v.uid = t8.uid ∧ v.job = t8.job) ∧
    (Statement.Evict (⟨[], sEmpty⟩ : Statement) t8 "r8"
      = some ({ operations := [] ++ [.evictOp t8 "r8"], ssn := sEmpty }, none)) ∧
    (∃ r : JobInfo × TaskInfo, discardStep ssn8 (.evictOp t8 "r8")
        = some ⟨setKey (ssn8.readTask t8).job r.1 ssn8.jobs, ssn8.nodes⟩ ∧
      r.2.status = .Running) := by
  refine ⟨?_, ?_, ?_⟩
  · obtain ⟨h1, h2⟩ := C8_evict_always_journals.1 ⟨[], ssn8⟩ t8 "r8" _ rfl
    exact ⟨_, rfl, h1, h2⟩
  · exact C8_evict_always_journals.2.1 ⟨[], sEmpty⟩ t8 "r8" rfl rfl
  · exact ⟨_, C8_evict_always_journals.2.2.1 ssn8 t8 "r8" job8 _ rfl rfl rfl,
      C8_evict_always_journals.2.2.2 job8 (ssn8.readTask t8) _ rfl⟩

def t6 : TaskInfo := ⟨"t6", "j6", "t6", "n6", ⟨100, 100, []⟩, 0, .Allocated, false⟩

def job6c : JobInfo := ⟨"j6", "j6", "q6", 0, 1, none, none, [("t6", t6)]⟩

def kn6 : KNode := ⟨"n6", ⟨1000, 1000, []⟩, ⟨1000, 1000, []⟩⟩

def cache6 : SchedulerCache :=
  ⟨[("j6", job6c)], [("n6", NewNodeInfo (some kn6))], [], [], 0, []⟩

def world6 : World := ⟨⟨[("j6", job6c)], []⟩, cache6, []⟩

/-- Witness for C6 at a concrete world: a `pipeline` record commits to the
identical world, and an `allocate` record emits the `BindVolumes` and
`Bind` calls and moves the session task to `Binding`. -/
theorem C6_witness :
    commitStep world6 (.pipelineOp t6 "n6") = some world6 ∧
    ∃ w1, commitStep world6 (.allocateOp t6 "n6") = some w1 ∧
      w1.effects = [.bindVols "t6", .bindPod "t6" "n6"] ∧
      ∃ job1 t1, alookup "j6" w1.ssn.jobs = some job1 ∧
        alookup "t6" job1.tasks = some t1 ∧ t1.status = .Binding := by
  refine ⟨C6_commit_pipeline_noop.1 world6 t6 "n6", ?_⟩
  refine ⟨_, C6_commit_pipeline_noop.2.2 world6 t6 "n6" _ _ job6c _ rfl rfl rfl, ?_, ?_⟩
  · rfl
  · exact ⟨{ job6c with tasks := [("t6", { t6 with status := .Binding })] },
      { t6 with status := .Binding }, rfl, rfl, rfl⟩

def c1Task : TaskInfo := ⟨"t1", "j1", "t1", "", ⟨10, 10, []⟩, 0, .Bound, false⟩

def c1Job : JobInfo := ⟨"j1", "j1", "q1", 0, 1, none, none, [("t1", c1Task)]⟩

/-- Counterexample to C1 as stated: a single successful `Evict` of a task
that is `Bound` (not `Running`) journals fine, but `Discard`'s `unevict`
unconditionally sets the status to `Running`, so the pre-statement status
`Bound` is not restored. -/
theorem C1_counterexample :
    ∃ out, Statement.Evict (⟨[], ⟨[("j1", c1Job)], []⟩⟩ : Statement) c1Task "r" = some out ∧
      out.2 = none ∧
      ∃ ssnD, Statement.Discard out.1 = some ssnD ∧
        c1Task.status = .Bound ∧
        ∃ job1 t1, alookup "j1" ssnD.jobs = some job1 ∧
          alookup "t1" job1.tasks = some t1 ∧ t1.status = .Running := by
  exact ⟨_, rfl, rfl, _, rfl, rfl, _, _, rfl, rfl, rfl⟩

/-! ## C1: the discard round trip

Infrastructure: an option-level relation lifter, transport of `alookup`
and `setKey` across positionally related association lists, and
congruence of the tolerance comparison under per-dimension equality. -/

def optRel {α β : Type} (R : α → β → Prop) : Option α → Option β → Prop
  | some a, some b => R a b
  | none, none => True
  | _, _ => False

theorem setKey_id_of_not_mem {α : Type} (k : String) (v : α) (l : List (String × α))
    (h : alookup k l = none) : setKey k v l = l := by
  induction l with
  | nil => rfl
  | cons p rest ih =>
    obtain ⟨pk, pv⟩ := p
    by_cases h1 : pk = k
    · subst h1; simp [alookup_cons] at h
    · simp only [alookup_cons, if_neg h1] at h
      simp [setKey, h1, ih h]

theorem alookup_forall₂ {α : Type} (R : String → α → α → Prop)
    {l l' : List (String × α)}
    (h : List.Forall₂ (fun p q => p.1 = q.1 ∧ R p.1 p.2 q.2) l l') (k : String) :
    optRel (R k) (alookup k l) (alookup k l') := by
  induction h with
  | nil => exact trivial
  | cons hpq hrest ih =>
    rename_i p q lt lt'
    obtain ⟨hk, hR⟩ := hpq
    by_cases h1 : p.1 = k
    · have h2 : q.1 = k := by rw [← hk, h1]
      show optRel (R k) (alookup k (p :: lt)) (alookup k (q :: lt'))
      rw [show (p : String × α) = (p.1, p.2) from rfl, show (q : String × α) = (q.1, q.2) from rfl,
        alookup_cons, alookup_cons, if_pos h1, if_pos h2]
      rw [h1] at hR
      exact hR
    · have h2 : ¬ q.1 = k := by rw [← hk]; exact h1
      show optRel (R k) (alookup k (p :: lt)) (alookup k (q :: lt'))
      rw [show (p : String × α) = (p.1, p.2) from rfl, show (q : String × α) = (q.1, q.2) from rfl,
        alookup_cons, alookup_cons, if_neg h1, if_neg h2]
      exact ih

theorem forall₂_imp_keys {α : Type} (R R' : String → α → α → Prop)
    {l m : List (String × α)}
    (h : List.Forall₂ (fun p q => p.1 = q.1 ∧ R p.1 p.2 q.2) l m)
    (himp : ∀ k x y, k ∈ m.map Prod.fst → R k x y → R' k x y) :
    List.Forall₂ (fun p q => p.1 = q.1 ∧ R' p.1 p.2 q.2) l m := by
  induction h with
  | nil => exact List.Forall₂.nil
  | cons hpq hrest ih =>
    rename_i p q lt lt'
    refine List.Forall₂.cons
      ⟨hpq.1, himp p.1 p.2 q.2 (by rw [hpq.1]; simp) hpq.2⟩ ?_
    exact ih fun k x y hk hr => himp k x y (by simp [hk]) hr

theorem forall₂_setKey_both {α : Type} (R R' : String → α → α → Prop)
    {l m : List (String × α)} (k : String) (v w : α)
    (hnd : (m.map Prod.fst).Nodup)
    (h : List.Forall₂ (fun p q => p.1 = q.1 ∧ R p.1 p.2 q.2) l (setKey k w m))
    (hother : ∀ k' x y, k' ≠ k → R k' x y → R' k' x y)
    (hat : ∀ u, alookup k m = some u → R' k v u) :
    List.Forall₂ (fun p q => p.1 = q.1 ∧ R' p.1 p.2 q.2) (setKey k v l) m := by
  induction m generalizing l with
  | nil =>
    simp only [setKey] at h
    cases h
    exact List.Forall₂.nil
  | cons p rest ih =>
    obtain ⟨mk, mv⟩ := p
    simp only [List.map_cons, List.nodup_cons] at hnd
    by_cases h1 : mk = k
    · rw [show setKey k w ((mk, mv) :: rest) = (mk, w) :: rest by simp [setKey, h1]] at h
      cases l with
      | nil => cases h
      | cons a lt =>
        obtain ⟨ak, av⟩ := a
        rw [List.forall₂_cons] at h
        obtain ⟨⟨hk, hR⟩, hrest⟩ := h
        rw [show setKey k v ((ak, av) :: lt) = (ak, v) :: lt by
          simp [setKey, show ak = k by rw [show ak = mk from hk, h1]]]
        rw [List.forall₂_cons]
        constructor
        · refine ⟨hk, ?_⟩
          have hv : R' k v mv := hat mv (by simp [alookup_cons, h1])
          rw [show ak = mk from hk, h1]
          exact hv
        · refine forall₂_imp_keys R R' hrest fun k' x y hk' hr => ?_
          refine hother k' x y (fun he => hnd.1 ?_) hr
          rw [h1, ← he]
          exact hk'
    · rw [show setKey k w ((mk, mv) :: rest) = (mk, mv) :: setKey k w rest by
        simp [setKey, h1]] at h
      cases l with
      | nil => cases h
      | cons a lt =>
        obtain ⟨ak, av⟩ := a
        rw [List.forall₂_cons] at h
        obtain ⟨⟨hk, hR⟩, hrest⟩ := h
        rw [show setKey k v ((ak, av) :: lt) = (ak, av) :: setKey k v lt by
          simp [setKey, show ¬ ak = k by rw [show ak = mk from hk]; exact h1]]
        rw [List.forall₂_cons]
        refine ⟨⟨hk, hother ak av mv (by rw [show ak = mk from hk]; exact h1) hR⟩, ?_⟩
        refine ih hnd.2 hrest fun u hu => hat u ?_
        rw [alookup_cons, if_neg h1]
        exact hu

/-- Per-dimension equality of resource vectors. -/
def req (r r' : Resource) : Prop := ∀ d, r.get d = r'.get d

theorem req_refl (r : Resource) : req r r := fun _ => rfl

theorem lessEqual_congr (a b b' : Resource) (h : req b b') :
    a.lessEqual b = a.lessEqual b' := by
  have h1 : b.milliCPU = b'.milliCPU := h .cpu
  have h2 : b.memory = b'.memory := h .mem
  have h3 : ∀ n, b.getScalar n = b'.getScalar n := fun n => h (.scalar n)
  unfold Resource.lessEqual
  rw [h1, h2]
  simp only [h3]

/-- The part of a task a node clone determines for accounting purposes. -/
def cloneRel (c c' : TaskInfo) : Prop := c.status = c'.status ∧ c.resreq = c'.resreq

theorem cloneRel_refl (c : TaskInfo) : cloneRel c c := ⟨rfl, rfl⟩

def sameCore (t t' : TaskInfo) : Prop :=
  t.uid = t'.uid ∧ t.job = t'.job ∧ t.name = t'.name ∧ t.resreq = t'.resreq ∧
  t.priority = t'.priority ∧ t.status = t'.status

def taskRel (dv : Prop) (t t' : TaskInfo) : Prop :=
  sameCore t t' ∧ (¬ dv → t.nodeName = t'.nodeName ∧ t.volumeReady = t'.volumeReady)

theorem taskRel_refl (dv : Prop) (t : TaskInfo) : taskRel dv t t :=
  ⟨⟨rfl, rfl, rfl, rfl, rfl, rfl⟩, fun _ => ⟨rfl, rfl⟩⟩

theorem taskRel_eq_of_not_dv {dv : Prop} {t t' : TaskInfo} (h : taskRel dv t t')
    (hdv : ¬ dv) : t = t' := by
  obtain ⟨⟨h1, h2, h3, h4, h5, h6⟩, h7⟩ := h
  obtain ⟨h8, h9⟩ := h7 hdv
  cases t
  cases t'
  simp only at h1 h2 h3 h4 h5 h6 h8 h9
  simp [h1, h2, h3, h4, h5, h6, h8, h9]

theorem taskRel_mono {dv dv' : Prop} (himp : dv → dv') {t t' : TaskInfo}
    (h : taskRel dv t t') : taskRel dv' t t' :=
  ⟨h.1, fun hn => h.2 fun hd => hn (himp hd)⟩

def jobRel (D : List (String × String)) (ju : String) (j j' : JobInfo) : Prop :=
  j.uid = j'.uid ∧ j.name = j'.name ∧ j.queue = j'.queue ∧ j.priority = j'.priority ∧
  j.minAvailable = j'.minAvailable ∧ j.podGroup = j'.podGroup ∧ j.pdb = j'.pdb ∧
  List.Forall₂ (fun p q => p.1 = q.1 ∧ taskRel ((ju, p.1) ∈ D) p.2 q.2) j.tasks j'.tasks

def nodeRel (n n' : NodeInfo) : Prop :=
  n.name = n'.name ∧ n.node = n'.node ∧ n.state = n'.state ∧
  n.allocatable = n'.allocatable ∧ n.capability = n'.capability ∧
  req n.idle n'.idle ∧ req n.used n'.used ∧ req n.releasing n'.releasing ∧
  req n.pipelined n'.pipelined ∧
  (∀ k, optRel cloneRel (alookup k n.tasks) (alookup k n'.tasks)) ∧
  (n.tasks.map Prod.fst).Nodup ∧ (n'.tasks.map Prod.fst).Nodup

def sessRel (D : List (String × String)) (a b : Session) : Prop :=
  List.Forall₂ (fun p q => p.1 = q.1 ∧ jobRel D p.1 p.2 q.2) a.jobs b.jobs ∧
  List.Forall₂ (fun p q => p.1 = q.1 ∧ nodeRel p.2 q.2) a.nodes b.nodes

theorem optRel_refl {α : Type} {R : α → α → Prop} (hR : ∀ x, R x x) (o : Option α) :
    optRel R o o := by
  cases o with
  | none => exact trivial
  | some a => exact hR a

theorem forall₂_refl_of_pointwise {α : Type} (R : String → α → α → Prop)
    (l : List (String × α)) (h : ∀ p, p ∈ l → R p.1 p.2 p.2) :
    List.Forall₂ (fun p q => p.1 = q.1 ∧ R p.1 p.2 q.2) l l := by
  induction l with
  | nil => exact List.Forall₂.nil
  | cons p rest ih =>
    exact List.Forall₂.cons ⟨rfl, h p (by simp)⟩ (ih fun q hq => h q (by simp [hq]))

theorem jobRel_refl (D : List (String × String)) (ju : String) (j : JobInfo) :
    jobRel D ju j j :=
  ⟨rfl, rfl, rfl, rfl, rfl, rfl, rfl,
    forall₂_refl_of_pointwise (fun k x y => taskRel ((ju, k) ∈ D) x y) j.tasks
      fun p _ => taskRel_refl _ p.2⟩

theorem nodeRel_refl (n : NodeInfo) (hnd : (n.tasks.map Prod.fst).Nodup) : nodeRel n n :=
  ⟨rfl, rfl, rfl, rfl, rfl, req_refl _, req_refl _, req_refl _, req_refl _,
    fun k => optRel_refl cloneRel_refl _, hnd, hnd⟩

theorem jobRel_mono {D D' : List (String × String)} (hsub : ∀ p, p ∈ D → p ∈ D')
    {ju : String} {j j' : JobInfo} (h : jobRel D ju j j') : jobRel D' ju j j' := by
  obtain ⟨h1, h2, h3, h4, h5, h6, h7, h8⟩ := h
  refine ⟨h1, h2, h3, h4, h5, h6, h7, ?_⟩
  refine forall₂_imp_keys (fun k x y => taskRel ((ju, k) ∈ D) x y)
    (fun k x y => taskRel ((ju, k) ∈ D') x y) h8 fun k x y hk hr => ?_
  exact taskRel_mono (fun hd => hsub _ hd) hr

theorem sessRel_mono {D D' : List (String × String)} (hsub : ∀ p, p ∈ D → p ∈ D')
    {a b : Session} (h : sessRel D a b) : sessRel D' a b := by
  refine ⟨?_, h.2⟩
  exact forall₂_imp_keys (fun k x y => jobRel D k x y) (fun k x y => jobRel D' k x y)
    h.1 fun k x y hk hr => jobRel_mono hsub hr

/-! The statement-level command language: a public operation together with
its arguments (for `Allocate`, also the outcome of the external
`AssumePodVolumes` call).  `Pre` is the state each operation expects to
find its task in: the argument is the live session entry, `Pending` for
`Allocate`/`Pipeline` and `Running` for `Evict`. -/

inductive Cmd where
  | evictC (t : TaskInfo) (reason : String)
  | pipelineC (t : TaskInfo) (hostname : String)
  | allocateC (t : TaskInfo) (hostname : String) (allBound : Bool)
deriving DecidableEq, Repr

def Cmd.task : Cmd → TaskInfo
  | .evictC t _ => t
  | .pipelineC t _ => t
  | .allocateC t _ _ => t

def resolvesTo (ssn : Session) (t : TaskInfo) : Prop :=
  ∃ j, alookup t.job ssn.jobs = some j ∧ alookup t.uid j.tasks = some t

def Pre (ssn : Session) : Cmd → Prop
  | .evictC t _ => resolvesTo ssn t ∧ t.status = .Running
  | .pipelineC t _ => resolvesTo ssn t ∧ t.status = .Pending
  | .allocateC t _ _ => resolvesTo ssn t ∧ t.status = .Pending

/-- Run one public operation, succeeding only when it returns nil (and,
for `Evict`, does not hit the `Fatalf`). -/
def runCmd (s : Statement) : Cmd → Option Statement
  | .evictC t reason =>
    match Statement.Evict s t reason with
    | some (s1, none) => some s1
    | _ => none
  | .pipelineC t hostname =>
    match Statement.Pipeline s t hostname with
    | (s1, none) => some s1
    | (_, some _) => none
  | .allocateC t hostname ab =>
    match Statement.Allocate s t hostname ab none with
    | (s1, none) => some s1
    | (_, some _) => none

/-- A sequence of successful operations, each finding its task in the
expected state. -/
inductive Steps : Statement → List Cmd → Statement → Prop where
  | nil (s : Statement) : Steps s [] s
  | cons {s : Statement} {c : Cmd} {s1 : Statement} {cs : List Cmd} {s2 : Statement} :
      Pre s.ssn c → runCmd s c = some s1 → Steps s1 cs s2 → Steps s (c :: cs) s2

def statusAt (ssn : Session) (ju u : String) : Option TaskStatus :=
  ((alookup ju ssn.jobs).bind fun j => alookup u j.tasks).map TaskInfo.status

/-- The session well-formedness the round trip rests on: nodes are stored
under their (nonempty) names with duplicate-free task keys, job and node
keys are duplicate-free, job task maps are keyed by task UID and carry the
owning job's key, and every node copy of a task points back (via its job
and UID) to a live task with the same status and request, hosted on that
node. -/
def SessInv (ssn : Session) : Prop :=
  (∀ h n, alookup h ssn.nodes = some n →
    n.name = h ∧ h ≠ "" ∧ (n.tasks.map Prod.fst).Nodup) ∧
  (ssn.jobs.map Prod.fst).Nodup ∧
  (ssn.nodes.map Prod.fst).Nodup ∧
  (∀ ju j, alookup ju ssn.jobs = some j → (j.tasks.map Prod.fst).Nodup ∧
    ∀ k t, alookup k j.tasks = some t → t.uid = k ∧ t.job = ju) ∧
  (∀ h n, alookup h ssn.nodes = some n → ∀ k c, alookup k n.tasks = some c →
    ∃ j t, alookup c.job ssn.jobs = some j ∧ alookup k j.tasks = some t ∧
      t.status = c.status ∧ t.resreq = c.resreq ∧ t.nodeName = h)

theorem writeTask_eq (ssn : Session) (t : TaskInfo) (j : JobInfo)
    (hj : alookup t.job ssn.jobs = some j) (ht : (alookup t.uid j.tasks).isSome = true) :
    Session.writeTask ssn t
      = ⟨setKey t.job { j with tasks := setKey t.uid t j.tasks } ssn.jobs, ssn.nodes⟩ := by
  unfold Session.writeTask
  simp only [hj, ht, if_true]

theorem Pipeline_eq_ok (s : Statement) (t : TaskInfo) (hostname : String) (j : JobInfo)
    (r : JobInfo × TaskInfo) (node : NodeInfo) (q : NodeInfo × TaskInfo)
    (hj : alookup t.job s.ssn.jobs = some j)
    (hu : j.updateTaskStatus t .Pipelined = .ok r)
    (hn : alookup hostname s.ssn.nodes = some node)
    (ha : node.addTask r.2 = .ok q) :
    Statement.Pipeline s t hostname
      = ({ operations := s.operations ++ [.pipelineOp q.2 hostname],
           ssn := Session.writeTask
             ⟨setKey t.job r.1 s.ssn.jobs, setKey hostname q.1 s.ssn.nodes⟩ q.2 }, none) := by
  unfold Statement.Pipeline
  simp only [hj, hu, hn, ha]

theorem Pipeline_eq_node_missing (s : Statement) (t : TaskInfo) (hostname : String)
    (j : JobInfo) (r : JobInfo × TaskInfo)
    (hj : alookup t.job s.ssn.jobs = some j)
    (hu : j.updateTaskStatus t .Pipelined = .ok r)
    (hn : alookup hostname s.ssn.nodes = none) :
    (Statement.Pipeline s t hostname).2
      = some ("failed to find node " ++ hostname ++ " when pipeline") := by
  unfold Statement.Pipeline
  simp only [hj, hu, hn]

theorem Pipeline_eq_add_err (s : Statement) (t : TaskInfo) (hostname : String)
    (j : JobInfo) (r : JobInfo × TaskInfo) (node : NodeInfo) (e : String)
    (hj : alookup t.job s.ssn.jobs = some j)
    (hu : j.updateTaskStatus t .Pipelined = .ok r)
    (hn : alookup hostname s.ssn.nodes = some node)
    (ha : node.addTask r.2 = .error e) :
    (Statement.Pipeline s t hostname).2 = some e := by
  unfold Statement.Pipeline
  simp only [hj, hu, hn, ha]

theorem runCmd_pipeline_of_none (s : Statement) (t : TaskInfo) (hostname : String)
    (e : String) (h : (Statement.Pipeline s t hostname).2 = some e) :
    runCmd s (.pipelineC t hostname) = none := by
  show (match Statement.Pipeline s t hostname with
        | (s1, none) => some s1
        | (_, some _) => (none : Option Statement)) = none
  cases hp : Statement.Pipeline s t hostname with
  | mk s2 err =>
    rw [hp] at h
    simp only at h
    rw [h]

theorem runCmd_pipeline_of_ok (s : Statement) (t : TaskInfo) (hostname : String)
    (s1 : Statement) (h : Statement.Pipeline s t hostname = (s1, none)) :
    runCmd s (.pipelineC t hostname) = some s1 := by
  show (match Statement.Pipeline s t hostname with
        | (s1, none) => some s1
        | (_, some _) => (none : Option Statement)) = some s1
  rw [h]

theorem Pipeline_elim (s : Statement) (t : TaskInfo) (hostname : String) (s1 : Statement)
    (j : JobInfo)
    (hj : alookup t.job s.ssn.jobs = some j) (ht : alookup t.uid j.tasks = some t)
    (hrun : runCmd s (.pipelineC t hostname) = some s1) :
    ∃ node node1,
      alookup hostname s.ssn.nodes = some node ∧
      node.addTask { t with status := .Pipelined }
        = .ok (node1, { t with status := .Pipelined, nodeName := node.name }) ∧
      s1.operations = s.operations
        ++ [.pipelineOp { t with status := .Pipelined, nodeName := node.name } hostname] ∧
      s1.ssn = ⟨setKey t.job
          { j with tasks := setKey t.uid { t with status := .Pipelined, nodeName := node.name } j.tasks }
          s.ssn.jobs,
        setKey hostname node1 s.ssn.nodes⟩ := by
  have hu := updateTaskStatus_eq j t .Pipelined t ht
  cases hn : alookup hostname s.ssn.nodes with
  | none =>
    rw [runCmd_pipeline_of_none s t hostname _
      (Pipeline_eq_node_missing s t hostname j _ hj hu hn)] at hrun
    simp at hrun
  | some node =>
    cases ha : node.addTask { t with status := .Pipelined } with
    | error e =>
      rw [runCmd_pipeline_of_none s t hostname e
        (Pipeline_eq_add_err s t hostname j _ node e hj hu hn ha)] at hrun
      simp at hrun
    | ok q =>
      obtain ⟨ni2, hvect, hq1, hq2, hfresh, hguard⟩ :=
        addTask_ok_elim node { t with status := .Pipelined } q.1 q.2 (by rw [← ha])
      have hok := Pipeline_eq_ok s t hostname j _ node q hj hu hn ha
      rw [runCmd_pipeline_of_ok s t hostname _ hok] at hrun
      simp only [Option.some.injEq] at hrun
      refine ⟨node, q.1, rfl, ?_, ?_, ?_⟩
      · rw [ha, show q = (q.1, q.2) from rfl, hq2]
      · rw [← hrun, hq2]
      · rw [← hrun]
        show Session.writeTask
          ⟨setKey t.job { j with tasks := setKey t.uid { t with status := .Pipelined } j.tasks } s.ssn.jobs,
            setKey hostname q.1 s.ssn.nodes⟩ q.2 = _
        rw [hq2]
        rw [writeTask_eq _ _ { j with tasks := setKey t.uid { t with status := .Pipelined } j.tasks }
          (by
            show alookup t.job
              (setKey t.job { j with tasks := setKey t.uid { t with status := .Pipelined } j.tasks } s.ssn.jobs) = _
            exact alookup_setKey_self t.job _ j s.ssn.jobs hj)
          (by
            show (alookup t.uid (setKey t.uid { t with status := .Pipelined } j.tasks)).isSome = true
            rw [alookup_setKey_self t.uid { t with status := .Pipelined } t j.tasks ht]
            rfl)]
        show (⟨setKey t.job
            { j with tasks := setKey t.uid { t with status := .Pipelined, nodeName := node.name } (setKey t.uid { t with status := .Pipelined } j.tasks) }
            (setKey t.job { j with tasks := setKey t.uid { t with status := .Pipelined } j.tasks } s.ssn.jobs),
          setKey hostname q.1 s.ssn.nodes⟩ : Session) = _
        rw [setKey_setKey, setKey_setKey]

theorem Allocate_eq_ok (s : Statement) (t : TaskInfo) (hostname : String) (ab : Bool)
    (j0 : JobInfo) (r : JobInfo × TaskInfo) (node : NodeInfo) (q : NodeInfo × TaskInfo)
    (hj0 : alookup t.job (s.ssn.writeTask { t with volumeReady := ab }).jobs = some j0)
    (hu : j0.updateTaskStatus { t with volumeReady := ab } .Allocated = .ok r)
    (hn : alookup hostname s.ssn.nodes = some node)
    (ha : node.addTask r.2 = .ok q) :
    Statement.Allocate s t hostname ab none
      = ({ operations := s.operations ++ [.allocateOp q.2 hostname],
           ssn := Session.writeTask
             ⟨setKey t.job r.1 (s.ssn.writeTask { t with volumeReady := ab }).jobs,
               setKey hostname q.1 s.ssn.nodes⟩ q.2 }, none) := by
  unfold Statement.Allocate
  simp only [hj0, hu, hn, ha]

theorem Allocate_eq_node_missing (s : Statement) (t : TaskInfo) (hostname : String)
    (ab : Bool) (j0 : JobInfo) (r : JobInfo × TaskInfo)
    (hj0 : alookup t.job (s.ssn.writeTask { t with volumeReady := ab }).jobs = some j0)
    (hu : j0.updateTaskStatus { t with volumeReady := ab } .Allocated = .ok r)
    (hn : alookup hostname s.ssn.nodes = none) :
    (Statement.Allocate s t hostname ab none).2
      = some ("failed to find node " ++ hostname ++ " when allocating") := by
  unfold Statement.Allocate
  simp only [hj0, hu, hn]

theorem Allocate_eq_add_err (s : Statement) (t : TaskInfo) (hostname : String)
    (ab : Bool) (j0 : JobInfo) (r : JobInfo × TaskInfo) (node : NodeInfo) (e : String)
    (hj0 : alookup t.job (s.ssn.writeTask { t with volumeReady := ab }).jobs = some j0)
    (hu : j0.updateTaskStatus { t with volumeReady := ab } .Allocated = .ok r)
    (hn : alookup hostname s.ssn.nodes = some node)
    (ha : node.addTask r.2 = .error e) :
    (Statement.Allocate s t hostname ab none).2 = some e := by
  unfold Statement.Allocate
  simp only [hj0, hu, hn, ha]

theorem runCmd_allocate_of_none (s : Statement) (t : TaskInfo) (hostname : String)
    (ab : Bool) (e : String) (h : (Statement.Allocate s t hostname ab none).2 = some e) :
    runCmd s (.allocateC t hostname ab) = none := by
  show (match Statement.Allocate s t hostname ab none with
        | (s1, none) => some s1
        | (_, some _) => (none : Option Statement)) = none
  cases hp : Statement.Allocate s t hostname ab none with
  | mk s2 err =>
    rw [hp] at h
    simp only at h
    rw [h]

theorem runCmd_allocate_of_ok (s : Statement) (t : TaskInfo) (hostname : String)
    (ab : Bool) (s1 : Statement) (h : Statement.Allocate s t hostname ab none = (s1, none)) :
    runCmd s (.allocateC t hostname ab) = some s1 := by
  show (match Statement.Allocate s t hostname ab none with
        | (s1, none) => some s1
        | (_, some _) => (none : Option Statement)) = some s1
  rw [h]

theorem Allocate_elim (s : Statement) (t : TaskInfo) (hostname : String) (ab : Bool)
    (s1 : Statement) (j : JobInfo)
    (hj : alookup t.job s.ssn.jobs = some j) (ht : alookup t.uid j.tasks = some t)
    (hrun : runCmd s (.allocateC t hostname ab) = some s1) :
    ∃ node node1,
      alookup hostname s.ssn.nodes = some node ∧
      node.addTask { t with volumeReady := ab, status := .Allocated }
        = .ok (node1, { t with volumeReady := ab, status := .Allocated, nodeName := node.name }) ∧
      s1.operations = s.operations
        ++ [.allocateOp { t with volumeReady := ab, status := .Allocated, nodeName := node.name } hostname] ∧
      s1.ssn = ⟨setKey t.job
          { j with tasks := setKey t.uid { t with volumeReady := ab, status := .Allocated, nodeName := node.name } j.tasks }
          s.ssn.jobs,
        setKey hostname node1 s.ssn.nodes⟩ := by
  have hw0 : s.ssn.writeTask { t with volumeReady := ab }
      = ⟨setKey t.job { j with tasks := setKey t.uid { t with volumeReady := ab } j.tasks } s.ssn.jobs,
          s.ssn.nodes⟩ := by
    rw [writeTask_eq _ _ j (by show alookup t.job s.ssn.jobs = some j; exact hj)
      (by show (alookup t.uid j.tasks).isSome = true; rw [ht]; rfl)]
  have hj0 : alookup t.job (s.ssn.writeTask { t with volumeReady := ab }).jobs
      = some { j with tasks := setKey t.uid { t with volumeReady := ab } j.tasks } := by
    rw [hw0]
    exact alookup_setKey_self t.job _ j s.ssn.jobs hj
  have hu := updateTaskStatus_eq
    { j with tasks := setKey t.uid { t with volumeReady := ab } j.tasks }
    { t with volumeReady := ab } .Allocated { t with volumeReady := ab }
    (by
      show alookup t.uid (setKey t.uid { t with volumeReady := ab } j.tasks) = _
      exact alookup_setKey_self t.uid _ t j.tasks ht)
  cases hn : alookup hostname s.ssn.nodes with
  | none =>
    rw [runCmd_allocate_of_none s t hostname ab _
      (Allocate_eq_node_missing s t hostname ab _ _ hj0 hu hn)] at hrun
    simp at hrun
  | some node =>
    cases ha : node.addTask { t with volumeReady := ab, status := .Allocated } with
    | error e =>
      rw [runCmd_allocate_of_none s t hostname ab e
        (Allocate_eq_add_err s t hostname ab _ _ node e hj0 hu hn ha)] at hrun
      simp at hrun
    | ok q =>
      obtain ⟨ni2, hvect, hq1, hq2, hfresh, hguard⟩ :=
        addTask_ok_elim node { t with volumeReady := ab, status := .Allocated } q.1 q.2 (by rw [← ha])
      have hok := Allocate_eq_ok s t hostname ab _ _ node q hj0 hu hn ha
      rw [runCmd_allocate_of_ok s t hostname ab _ hok] at hrun
      simp only [Option.some.injEq] at hrun
      refine ⟨node, q.1, rfl, ?_, ?_, ?_⟩
      · rw [ha, show q = (q.1, q.2) from rfl, hq2]
      · rw [← hrun, hq2]
      · rw [← hrun]
        show Session.writeTask
          ⟨setKey t.job { j with tasks := setKey t.uid { t with volumeReady := ab, status := .Allocated } (setKey t.uid { t with volumeReady := ab } j.tasks) } (s.ssn.writeTask { t with volumeReady := ab }).jobs,
            setKey hostname q.1 s.ssn.nodes⟩ q.2 = _
        rw [hq2, hw0]
        rw [writeTask_eq _ _
          { j with tasks := setKey t.uid { t with volumeReady := ab, status := .Allocated } (setKey t.uid { t with volumeReady := ab } j.tasks) }
          (by
            show alookup t.job (setKey t.job
              { j with tasks := setKey t.uid { t with volumeReady := ab, status := .Allocated } (setKey t.uid { t with volumeReady := ab } j.tasks) }
              (setKey t.job { j with tasks := setKey t.uid { t with volumeReady := ab } j.tasks } s.ssn.jobs)) = _
            rw [setKey_setKey]
            exact alookup_setKey_self t.job _ j s.ssn.jobs hj)
          (by
            show (alookup t.uid (setKey t.uid { t with volumeReady := ab, status := .Allocated } (setKey t.uid { t with volumeReady := ab } j.tasks))).isSome = true
            rw [setKey_setKey, alookup_setKey_self t.uid { t with volumeReady := ab, status := .Allocated } t j.tasks ht]
            rfl)]
        show (⟨setKey t.job
            { j with tasks := setKey t.uid { t with volumeReady := ab, status := .Allocated, nodeName := node.name } (setKey t.uid { t with volumeReady := ab, status := .Allocated } (setKey t.uid { t with volumeReady := ab } j.tasks)) }
            (setKey t.job
              { j with tasks := setKey t.uid { t with volumeReady := ab, status := .Allocated } (setKey t.uid { t with volumeReady := ab } j.tasks) }
              (setKey t.job { j with tasks := setKey t.uid { t with volumeReady := ab } j.tasks } s.ssn.jobs)),
          setKey hostname q.1 s.ssn.nodes⟩ : Session) = _
        rw [setKey_setKey, setKey_setKey, setKey_setKey, setKey_setKey]

theorem runCmd_evict_of_some (s : Statement) (t : TaskInfo) (reason : String)
    (s1 : Statement) (h : Statement.Evict s t reason = some (s1, none)) :
    runCmd s (.evictC t reason) = some s1 := by
  show (match Statement.Evict s t reason with
        | some (s1, none) => some s1
        | _ => (none : Option Statement)) = some s1
  rw [h]

theorem runCmd_evict_of_fatal (s : Statement) (t : TaskInfo) (reason : String)
    (h : Statement.Evict s t reason = none) :
    runCmd s (.evictC t reason) = none := by
  show (match Statement.Evict s t reason with
        | some (s1, none) => some s1
        | _ => (none : Option Statement)) = none
  rw [h]

theorem Evict_elim (s : Statement) (t : TaskInfo) (reason : String) (s1 : Statement)
    (j : JobInfo)
    (hj : alookup t.job s.ssn.jobs = some j) (ht : alookup t.uid j.tasks = some t)
    (hrun : runCmd s (.evictC t reason) = some s1) :
    (alookup t.nodeName s.ssn.nodes = none ∧
      s1.operations = s.operations ++ [.evictOp { t with status := .Releasing } reason] ∧
      s1.ssn = ⟨setKey t.job { j with tasks := setKey t.uid { t with status := .Releasing } j.tasks } s.ssn.jobs,
        s.ssn.nodes⟩) ∨
    (∃ node, alookup t.nodeName s.ssn.nodes = some node ∧
      alookup t.uid node.tasks = none ∧
      s1.operations = s.operations ++ [.evictOp { t with status := .Releasing } reason] ∧
      s1.ssn = ⟨setKey t.job { j with tasks := setKey t.uid { t with status := .Releasing } j.tasks } s.ssn.jobs,
        s.ssn.nodes⟩) ∨
    (∃ node c nr node1, alookup t.nodeName s.ssn.nodes = some node ∧
      alookup t.uid node.tasks = some c ∧
      node.removeTask { t with status := .Releasing } = .ok nr ∧
      nr.addTask { t with status := .Releasing }
        = .ok (node1, { t with status := .Releasing, nodeName := nr.name }) ∧
      s1.operations = s.operations
        ++ [.evictOp { t with status := .Releasing, nodeName := nr.name } reason] ∧
      s1.ssn = ⟨setKey t.job
          { j with tasks := setKey t.uid { t with status := .Releasing, nodeName := nr.name } j.tasks }
          s.ssn.jobs,
        setKey t.nodeName node1 s.ssn.nodes⟩) := by
  have hu := updateTaskStatus_eq j t .Releasing t ht
  have hs1 := sessionUpdateStatus_found s.ssn t .Releasing j _ hj hu
  cases hn : alookup t.nodeName s.ssn.nodes with
  | none =>
    have hnode : sessionUpdateTaskInNode (sessionUpdateStatus s.ssn t .Releasing).1
        (sessionUpdateStatus s.ssn t .Releasing).2
        = some ((⟨setKey t.job { j with tasks := setKey t.uid { t with status := .Releasing } j.tasks } s.ssn.jobs, s.ssn.nodes⟩ : Session),
            { t with status := .Releasing }) := by
      rw [hs1]
      exact sessionUpdateTaskInNode_nonode _ _ hn
    rw [runCmd_evict_of_some s t reason _ (Evict_eq_of_node s t reason _ hnode)] at hrun
    simp only [Option.some.injEq] at hrun
    exact Or.inl ⟨rfl, by rw [← hrun], by rw [← hrun]⟩
  | some node =>
    cases hc : alookup t.uid node.tasks with
    | none =>
      have hrm : node.removeTask { t with status := .Releasing }
          = .error "failed to find task on host" :=
        removeTask_eq_of_lookup_none node _ hc
      have hnode : sessionUpdateTaskInNode (sessionUpdateStatus s.ssn t .Releasing).1
          (sessionUpdateStatus s.ssn t .Releasing).2
          = some ((⟨setKey t.job { j with tasks := setKey t.uid { t with status := .Releasing } j.tasks } s.ssn.jobs, s.ssn.nodes⟩ : Session),
              { t with status := .Releasing }) := by
        rw [hs1]
        exact sessionUpdateTaskInNode_err _ _ node _ hn (updateTask_eq_rm_err node _ _ hrm)
      rw [runCmd_evict_of_some s t reason _ (Evict_eq_of_node s t reason _ hnode)] at hrun
      simp only [Option.some.injEq] at hrun
      exact Or.inr (Or.inl ⟨node, rfl, hc, by rw [← hrun], by rw [← hrun]⟩)
    | some c =>
      have hrm := removeTask_eq_of_lookup node { t with status := .Releasing } c hc
      cases hadd : ({ node.removeTaskVect c with
          tasks := eraseKey (PodKey { t with status := .Releasing }) (node.removeTaskVect c).tasks } : NodeInfo).addTask
          { t with status := .Releasing } with
      | error e =>
        have hfat : sessionUpdateTaskInNode (sessionUpdateStatus s.ssn t .Releasing).1
            (sessionUpdateStatus s.ssn t .Releasing).2 = none := by
          rw [hs1]
          exact sessionUpdateTaskInNode_fatal _ _ node hn
            (updateTask_eq_add_err node _ _ e hrm hadd)
        rw [runCmd_evict_of_fatal s t reason (Evict_eq_fatal s t reason hfat)] at hrun
        simp at hrun
      | ok q =>
        have hupd := updateTask_eq_ok node { t with status := .Releasing } _ q hrm hadd
        obtain ⟨ni2, hvect, hq1, hq2, hfresh, hguard⟩ :=
          addTask_ok_elim _ { t with status := .Releasing } q.1 q.2 (by rw [← hadd])
        have hnode : sessionUpdateTaskInNode (sessionUpdateStatus s.ssn t .Releasing).1
            (sessionUpdateStatus s.ssn t .Releasing).2
            = some (Session.writeTask
                ⟨(⟨setKey t.job { j with tasks := setKey t.uid { t with status := .Releasing } j.tasks } s.ssn.jobs, s.ssn.nodes⟩ : Session).jobs,
                  setKey t.nodeName q.1 s.ssn.nodes⟩ q.2, q.2) := by
          rw [hs1]
          exact sessionUpdateTaskInNode_ok _ _ node q hn hupd
        rw [runCmd_evict_of_some s t reason _ (Evict_eq_of_node s t reason _ hnode)] at hrun
        simp only [Option.some.injEq] at hrun
        refine Or.inr (Or.inr ⟨node, c,
          { node.removeTaskVect c with
            tasks := eraseKey (PodKey { t with status := .Releasing }) (node.removeTaskVect c).tasks },
          q.1, rfl, hc, hrm, ?_, ?_, ?_⟩)
        · rw [hadd, show q = (q.1, q.2) from rfl, hq2]
        · rw [← hrun, hq2]
        · rw [← hrun]
          show Session.writeTask
            ⟨setKey t.job { j with tasks := setKey t.uid { t with status := .Releasing } j.tasks } s.ssn.jobs,
              setKey t.nodeName q.1 s.ssn.nodes⟩ q.2 = _
          rw [hq2]
          rw [writeTask_eq _ _ { j with tasks := setKey t.uid { t with status := .Releasing } j.tasks }
            (by
              show alookup t.job
                (setKey t.job { j with tasks := setKey t.uid { t with status := .Releasing } j.tasks } s.ssn.jobs) = _
              exact alookup_setKey_self t.job _ j s.ssn.jobs hj)
            (by
              show (alookup t.uid (setKey t.uid { t with status := .Releasing } j.tasks)).isSome = true
              rw [alookup_setKey_self t.uid { t with status := .Releasing } t j.tasks ht]
              rfl)]
          show (⟨setKey t.job
              { j with tasks := setKey t.uid { t with status := .Releasing, nodeName := ({ node.removeTaskVect c with tasks := eraseKey (PodKey { t with status := .Releasing }) (node.removeTaskVect c).tasks } : NodeInfo).name } (setKey t.uid { t with status := .Releasing } j.tasks) }
              (setKey t.job { j with tasks := setKey t.uid { t with status := .Releasing } j.tasks } s.ssn.jobs),
            setKey t.nodeName q.1 s.ssn.nodes⟩ : Session) = _
          rw [setKey_setKey, setKey_setKey]

theorem string_length_pos (s : String) (h : s ≠ "") : s.length > 0 := by
  cases s with
  | mk d =>
    cases d with
    | nil => exact absurd rfl h
    | cons c cs => simp [String.length]

/-- Uniqueness of task UIDs across jobs, the remaining piece of session
well-formedness used by the round trip. -/
def UidUnique (ssn : Session) : Prop :=
  ∀ ju1 j1 u t1 ju2 j2 t2, alookup ju1 ssn.jobs = some j1 → alookup u j1.tasks = some t1 →
    alookup ju2 ssn.jobs = some j2 → alookup u j2.tasks = some t2 → ju1 = ju2

theorem statusAt_shape_frame (ssn : Session) (N : List (String × NodeInfo))
    (t v : TaskInfo) (j : JobInfo) (hj : alookup t.job ssn.jobs = some j) :
    ∀ ju u, ¬(ju = t.job ∧ u = t.uid) →
      statusAt ⟨setKey t.job { j with tasks := setKey t.uid v j.tasks } ssn.jobs, N⟩ ju u
        = statusAt ssn ju u := by
  intro ju u hne
  unfold statusAt
  dsimp only
  by_cases h1 : t.job = ju
  · subst h1
    rw [alookup_setKey_self t.job _ j ssn.jobs hj, hj]
    have h2 : ¬ u = t.uid := fun hu => hne ⟨rfl, hu⟩
    simp only [Option.some_bind]
    rw [show alookup u (setKey t.uid v j.tasks) = alookup u j.tasks from
      alookup_setKey_ne u t.uid v j.tasks (fun he => h2 he.symm)]
  · rw [alookup_setKey_ne ju t.job _ ssn.jobs h1]

theorem statusAt_shape_self (ssn : Session) (N : List (String × NodeInfo))
    (t v : TaskInfo) (j : JobInfo) (hj : alookup t.job ssn.jobs = some j)
    (ht : alookup t.uid j.tasks = some t) :
    statusAt ⟨setKey t.job { j with tasks := setKey t.uid v j.tasks } ssn.jobs, N⟩
        t.job t.uid = some v.status := by
  unfold statusAt
  dsimp only
  rw [alookup_setKey_self t.job _ j ssn.jobs hj]
  simp only [Option.some_bind]
  rw [alookup_setKey_self t.uid v t j.tasks ht]
  rfl

theorem statusAt_of_resolvesTo (ssn : Session) (t : TaskInfo) (h : resolvesTo ssn t) :
    statusAt ssn t.job t.uid = some t.status := by
  obtain ⟨j, hj, ht⟩ := h
  unfold statusAt
  rw [hj]
  simp only [Option.some_bind]
  rw [ht]
  rfl

/-- Common shape of a successful, precondition-respecting step: the job
map is the old one with the subject task's entry moved to a non-`Pending`,
non-`Running` status. -/
theorem step_shape {s : Statement} {c : Cmd} {s1 : Statement}
    (hpre : Pre s.ssn c) (hrun : runCmd s c = some s1) :
    ∃ j v N, alookup (c.task).job s.ssn.jobs = some j ∧
      alookup (c.task).uid j.tasks = some c.task ∧
      s1.ssn = ⟨setKey (c.task).job { j with tasks := setKey (c.task).uid v j.tasks } s.ssn.jobs, N⟩ ∧
      v.status ≠ .Pending ∧ v.status ≠ .Running := by
  cases c with
  | evictC t reason =>
    obtain ⟨⟨j, hj, ht⟩, hstat⟩ := hpre
    rcases Evict_elim s t reason s1 j hj ht hrun with
      ⟨hn, hops, hssn⟩ | ⟨node, hn, hc, hops, hssn⟩ | ⟨node, cc, nr, node1, hn, hc, hrm, ha, hops, hssn⟩
    · exact ⟨j, _, _, hj, ht, hssn, by simp, by simp⟩
    · exact ⟨j, _, _, hj, ht, hssn, by simp, by simp⟩
    · exact ⟨j, _, _, hj, ht, hssn, by simp, by simp⟩
  | pipelineC t hostname =>
    obtain ⟨⟨j, hj, ht⟩, hstat⟩ := hpre
    obtain ⟨node, node1, hn, ha, hops, hssn⟩ := Pipeline_elim s t hostname s1 j hj ht hrun
    exact ⟨j, _, _, hj, ht, hssn, by simp, by simp⟩
  | allocateC t hostname ab =>
    obtain ⟨⟨j, hj, ht⟩, hstat⟩ := hpre
    obtain ⟨node, node1, hn, ha, hops, hssn⟩ := Allocate_elim s t hostname ab s1 j hj ht hrun
    exact ⟨j, _, _, hj, ht, hssn, by simp, by simp⟩

theorem steps_statusAt_frame {s : Statement} {cs : List Cmd} {s2 : Statement}
    (hsteps : Steps s cs s2) :
    ∀ ju u, (∀ c ∈ cs, ¬((c.task).job = ju ∧ (c.task).uid = u)) →
      statusAt s2.ssn ju u = statusAt s.ssn ju u := by
  induction hsteps with
  | nil => intro ju u _; rfl
  | cons hpre hrun hrest ih =>
    rename_i s c s1 cs' s2'
    intro ju u hno
    obtain ⟨j, v, N, hj, ht, hssn, -, -⟩ := step_shape hpre hrun
    have h1 : statusAt s1.ssn ju u = statusAt s.ssn ju u := by
      rw [hssn]
      refine statusAt_shape_frame s.ssn N c.task v j hj ju u fun ⟨h2, h3⟩ => ?_
      exact hno c (by simp) ⟨h2.symm, h3.symm⟩
    rw [ih ju u fun c' hc' => hno c' (by simp [hc']), h1]

theorem steps_no_retouch {s : Statement} {cs : List Cmd} {s2 : Statement}
    (hsteps : Steps s cs s2) :
    ∀ ju u σ, statusAt s.ssn ju u = some σ → σ ≠ .Pending → σ ≠ .Running →
      ∀ c ∈ cs, ¬((c.task).job = ju ∧ (c.task).uid = u) := by
  induction hsteps with
  | nil => intro ju u σ _ _ _ c hc; simp at hc
  | cons hpre hrun hrest ih =>
    rename_i s c s1 cs' s2'
    intro ju u σ hstat hp hr c' hc' hmatch
    rcases List.mem_cons.mp hc' with hc1 | hc2
    · subst hc1
      have hres : resolvesTo s.ssn c'.task ∧
          (c'.task.status = .Running ∨ c'.task.status = .Pending) := by
        cases c' with
        | evictC t reason => exact ⟨hpre.1, Or.inl hpre.2⟩
        | pipelineC t h => exact ⟨hpre.1, Or.inr hpre.2⟩
        | allocateC t h ab => exact ⟨hpre.1, Or.inr hpre.2⟩
      have h1 := statusAt_of_resolvesTo s.ssn c'.task hres.1
      rw [hmatch.1, hmatch.2] at h1
      rw [h1] at hstat
      simp only [Option.some.injEq] at hstat
      rcases hres.2 with h2 | h2
      · exact hr (by rw [← hstat, h2])
      · exact hp (by rw [← hstat, h2])
    · obtain ⟨j, v, N, hj, ht, hssn, hvp, hvr⟩ := step_shape hpre hrun
      by_cases hsame : (c.task).job = ju ∧ (c.task).uid = u
      · have h1 : statusAt s1.ssn ju u = some v.status := by
          rw [hssn, ← hsame.1, ← hsame.2]
          exact statusAt_shape_self s.ssn N c.task v j hj ht
        exact ih ju u v.status h1 hvp hvr c' hc2 hmatch
      · have h1 : statusAt s1.ssn ju u = statusAt s.ssn ju u := by
          rw [hssn]
          exact statusAt_shape_frame s.ssn N c.task v j hj ju u
            fun h => hsame ⟨h.1.symm, h.2.symm⟩
        exact ih ju u σ (by rw [h1]; exact hstat) hp hr c' hc2 hmatch

/-- After a successful preconditioned step, no later step of a successful
sequence touches the same task path. -/
theorem steps_fresh {s : Statement} {c : Cmd} {s1 : Statement} {cs : List Cmd}
    {s2 : Statement} (hpre : Pre s.ssn c) (hrun : runCmd s c = some s1)
    (hrest : Steps s1 cs s2) :
    ∀ c' ∈ cs, ¬((c'.task).job = (c.task).job ∧ (c'.task).uid = (c.task).uid) := by
  obtain ⟨j, v, N, hj, ht, hssn, hvp, hvr⟩ := step_shape hpre hrun
  have h1 : statusAt s1.ssn (c.task).job (c.task).uid = some v.status := by
    rw [hssn]
    exact statusAt_shape_self s.ssn N c.task v j hj ht
  exact steps_no_retouch hrest (c.task).job (c.task).uid v.status h1 hvp hvr

theorem isSome_alookup_setKey {α : Type} (k u : String) (v : α) (l : List (String × α)) :
    (alookup u (setKey k v l)).isSome = (alookup u l).isSome := by
  rw [alookup_setKey]
  by_cases hc : k = u ∧ (alookup k l).isSome
  · rw [if_pos hc]
    obtain ⟨h1, h2⟩ := hc
    subst h1
    rw [h2]
    rfl
  · rw [if_neg hc]

theorem alookup_setKey_elim {α : Type} (k k' : String) (v : α) (l : List (String × α))
    (w : α) (h : alookup k (setKey k' v l) = some w) :
    (k' = k ∧ w = v ∧ (alookup k l).isSome = true) ∨ (¬ k' = k ∧ alookup k l = some w) := by
  rw [alookup_setKey] at h
  by_cases hc : k' = k ∧ (alookup k' l).isSome
  · rw [if_pos hc] at h
    refine Or.inl ⟨hc.1, (Option.some.inj h).symm, ?_⟩
    have := hc.2
    rw [← hc.1]
    exact this
  · rw [if_neg hc] at h
    refine Or.inr ⟨fun he => hc ⟨he, ?_⟩, h⟩
    rw [he, h]
    rfl

theorem jobs_side_preserved (ssn : Session) (N : List (String × NodeInfo))
    (t v : TaskInfo) (j : JobInfo)
    (hj : alookup t.job ssn.jobs = some j) (ht : alookup t.uid j.tasks = some t)
    (hvu : v.uid = t.uid) (hvj : v.job = t.job)
    (hND : (ssn.jobs.map Prod.fst).Nodup)
    (hJW : ∀ ju jx, alookup ju ssn.jobs = some jx → (jx.tasks.map Prod.fst).Nodup ∧
      ∀ k tx, alookup k jx.tasks = some tx → tx.uid = k ∧ tx.job = ju)
    (hU : UidUnique ssn) :
    ((setKey t.job { j with tasks := setKey t.uid v j.tasks } ssn.jobs).map Prod.fst).Nodup ∧
    (∀ ju jx,
      alookup ju (setKey t.job { j with tasks := setKey t.uid v j.tasks } ssn.jobs) = some jx →
      (jx.tasks.map Prod.fst).Nodup ∧
      ∀ k tx, alookup k jx.tasks = some tx → tx.uid = k ∧ tx.job = ju) ∧
    UidUnique ⟨setKey t.job { j with tasks := setKey t.uid v j.tasks } ssn.jobs, N⟩ := by
  refine ⟨by rw [keys_setKey]; exact hND, ?_, ?_⟩
  · intro ju jx hl
    rcases alookup_setKey_elim ju t.job _ ssn.jobs jx hl with ⟨he, hx, -⟩ | ⟨hne, hold⟩
    · subst he
      subst hx
      refine ⟨by rw [keys_setKey]; exact (hJW t.job j hj).1, ?_⟩
      intro k tx hk
      rcases alookup_setKey_elim k t.uid v j.tasks tx hk with ⟨he2, hx2, -⟩ | ⟨hne2, hold2⟩
      · subst he2
        subst hx2
        exact ⟨hvu, hvj⟩
      · exact (hJW t.job j hj).2 k tx hold2
    · exact hJW ju jx hold
  · intro ju1 j1 u t1 ju2 j2 t2 h1 h2 h3 h4
    have key : ∀ ju jx, alookup ju
        (setKey t.job { j with tasks := setKey t.uid v j.tasks } ssn.jobs) = some jx →
        ∀ ux tx, alookup ux jx.tasks = some tx →
        ∃ jo to2, alookup ju ssn.jobs = some jo ∧ alookup ux jo.tasks = some to2 := by
      intro ju jx hjx ux tx htx
      rcases alookup_setKey_elim ju t.job _ ssn.jobs jx hjx with ⟨he, hx, -⟩ | ⟨hne, hold⟩
      · subst he
        subst hx
        have hps : (alookup ux j.tasks).isSome = true := by
          rw [← isSome_alookup_setKey t.uid ux v j.tasks, htx]
          rfl
        obtain ⟨to2, hto2⟩ := Option.isSome_iff_exists.mp hps
        exact ⟨j, to2, hj, hto2⟩
      · exact ⟨jx, tx, hold, htx⟩
    obtain ⟨jo1, to1, ho1, ho2⟩ := key ju1 j1 h1 u t1 h2
    obtain ⟨jo2, to2b, ho3, ho4⟩ := key ju2 j2 h3 u t2 h4
    exact hU ju1 jo1 u to1 ju2 jo2 to2b ho1 ho2 ho3 ho4

/-- Re-resolution after the subject's job entry is rewritten: a clone
path other than the subject's still resolves to its old live task. -/
theorem cloneCoh_resolve_other (ssn : Session) (t v : TaskInfo) (j : JobInfo)
    (hj : alookup t.job ssn.jobs = some j)
    (h2 : String) (k : String) (cl : TaskInfo)
    (hold : ∃ j0 t0, alookup cl.job ssn.jobs = some j0 ∧ alookup k j0.tasks = some t0 ∧
      t0.status = cl.status ∧ t0.resreq = cl.resreq ∧ t0.nodeName = h2)
    (hne : ¬(cl.job = t.job ∧ k = t.uid)) :
    ∃ j1 t1, alookup cl.job
        (setKey t.job { j with tasks := setKey t.uid v j.tasks } ssn.jobs) = some j1 ∧
      alookup k j1.tasks = some t1 ∧ t1.status = cl.status ∧ t1.resreq = cl.resreq ∧
      t1.nodeName = h2 := by
  obtain ⟨j0, t0, hj0, ht0, hc1, hc2, hc3⟩ := hold
  by_cases hcj : cl.job = t.job
  · have hkne : ¬ k = t.uid := fun hk => hne ⟨hcj, hk⟩
    have hj0j : j0 = j := by
      rw [hcj, hj] at hj0
      exact (Option.some.inj hj0).symm
    refine ⟨{ j with tasks := setKey t.uid v j.tasks }, t0, ?_, ?_, hc1, hc2, hc3⟩
    · rw [hcj]
      exact alookup_setKey_self t.job _ j ssn.jobs hj
    · show alookup k (setKey t.uid v j.tasks) = some t0
      rw [alookup_setKey_ne k t.uid v j.tasks (fun he => hkne he.symm)]
      rw [← hj0j]
      exact ht0
  · refine ⟨j0, t0, ?_, ht0, hc1, hc2, hc3⟩
    rw [alookup_setKey_ne cl.job t.job _ ssn.jobs (fun he => hcj he.symm)]
    exact hj0

theorem inv_step_common (ssn : Session) (t v : TaskInfo) (j : JobInfo) (H : String)
    (node node1 : NodeInfo) (B : List (String × TaskInfo))
    (hj : alookup t.job ssn.jobs = some j) (ht : alookup t.uid j.tasks = some t)
    (hvu : v.uid = t.uid) (hvj : v.job = t.job) (hvnn : v.nodeName = H)
    (hn : alookup H ssn.nodes = some node)
    (hn1name : node1.name = H)
    (hn1tasks : node1.tasks = (t.uid, v) :: B)
    (hBnd : (B.map Prod.fst).Nodup)
    (hBfresh : alookup t.uid B = none)
    (hBsub : ∀ k cl, ¬ t.uid = k → alookup k B = some cl → alookup k node.tasks = some cl)
    (hnostale : ∀ h1 n1, alookup h1 ssn.nodes = some n1 → h1 ≠ H →
      ∀ cl, alookup t.uid n1.tasks = some cl → cl.job = t.job → False)
    (hI : SessInv ssn) (hU : UidUnique ssn) :
    SessInv ⟨setKey t.job { j with tasks := setKey t.uid v j.tasks } ssn.jobs,
      setKey H node1 ssn.nodes⟩ ∧
    UidUnique ⟨setKey t.job { j with tasks := setKey t.uid v j.tasks } ssn.jobs,
      setKey H node1 ssn.nodes⟩ := by
  obtain ⟨hNN, hJND, hNND, hJW, hCC⟩ := hI
  obtain ⟨hjs1, hjs2, hjs3⟩ := jobs_side_preserved ssn (setKey H node1 ssn.nodes) t v j
    hj ht hvu hvj hJND hJW hU
  refine ⟨⟨?_, hjs1, ?_, hjs2, ?_⟩, hjs3⟩
  · intro h1 n1 hl1
    rcases alookup_setKey_elim h1 H node1 ssn.nodes n1 hl1 with ⟨he, hx, -⟩ | ⟨hne, holdn⟩
    · subst he
      subst hx
      obtain ⟨ha1, ha2, ha3⟩ := hNN H node hn
      refine ⟨by rw [hn1name], ha2, ?_⟩
      rw [hn1tasks]
      simp only [List.map_cons, List.nodup_cons]
      refine ⟨fun hmem => ?_, hBnd⟩
      have hs : (alookup t.uid B).isSome = true := (alookup_isSome_iff t.uid B).mpr hmem
      rw [hBfresh] at hs
      simp at hs
    · exact hNN h1 n1 holdn
  · rw [keys_setKey]
    exact hNND
  · intro h1 n1 hl1 k cl hcl
    rcases alookup_setKey_elim h1 H node1 ssn.nodes n1 hl1 with ⟨he, hx, -⟩ | ⟨hne, holdn⟩
    · subst he
      subst hx
      rw [hn1tasks, alookup_cons] at hcl
      by_cases hk : t.uid = k
      · rw [if_pos hk] at hcl
        have hclv : v = cl := Option.some.inj hcl
        subst hclv
        refine ⟨{ j with tasks := setKey t.uid v j.tasks }, v, ?_, ?_, rfl, rfl, by rw [hvnn]⟩
        · rw [hvj]
          exact alookup_setKey_self t.job _ j ssn.jobs hj
        · show alookup k (setKey t.uid v j.tasks) = some v
          rw [← hk]
          exact alookup_setKey_self t.uid v t j.tasks ht
      · rw [if_neg hk] at hcl
        have hclB := hBsub k cl hk hcl
        obtain ⟨j0, t0, hj0, ht0, hc1, hc2, hc3⟩ := hCC H node hn k cl hclB
        exact cloneCoh_resolve_other ssn t v j hj H k cl ⟨j0, t0, hj0, ht0, hc1, hc2, hc3⟩
          (fun hboth => hk (by rw [hboth.2]))
    · obtain ⟨j0, t0, hj0, ht0, hc1, hc2, hc3⟩ := hCC h1 n1 holdn k cl hcl
      refine cloneCoh_resolve_other ssn t v j hj h1 k cl ⟨j0, t0, hj0, ht0, hc1, hc2, hc3⟩
        (fun hboth => ?_)
      exact hnostale h1 n1 holdn (fun he2 => hne he2.symm) cl
        (by rw [← hboth.2]; exact hcl) hboth.1

theorem inv_step_jobs_only (ssn : Session) (t v : TaskInfo) (j : JobInfo)
    (hj : alookup t.job ssn.jobs = some j) (ht : alookup t.uid j.tasks = some t)
    (hvu : v.uid = t.uid) (hvj : v.job = t.job)
    (hnosub : ∀ h1 n1, alookup h1 ssn.nodes = some n1 →
      ∀ cl, alookup t.uid n1.tasks = some cl → cl.job = t.job → False)
    (hI : SessInv ssn) (hU : UidUnique ssn) :
    SessInv ⟨setKey t.job { j with tasks := setKey t.uid v j.tasks } ssn.jobs, ssn.nodes⟩ ∧
    UidUnique ⟨setKey t.job { j with tasks := setKey t.uid v j.tasks } ssn.jobs,
      ssn.nodes⟩ := by
  obtain ⟨hNN, hJND, hNND, hJW, hCC⟩ := hI
  obtain ⟨hjs1, hjs2, hjs3⟩ := jobs_side_preserved ssn ssn.nodes t v j
    hj ht hvu hvj hJND hJW hU
  refine ⟨⟨hNN, hjs1, hNND, hjs2, ?_⟩, hjs3⟩
  intro h1 n1 hl1 k cl hcl
  obtain ⟨j0, t0, hj0, ht0, hc1, hc2, hc3⟩ := hCC h1 n1 hl1 k cl hcl
  refine cloneCoh_resolve_other ssn t v j hj h1 k cl ⟨j0, t0, hj0, ht0, hc1, hc2, hc3⟩
    (fun hboth => ?_)
  exact hnosub h1 n1 hl1 cl (by rw [← hboth.2]; exact hcl) hboth.1

theorem inv_step {s : Statement} {c : Cmd} {s1 : Statement}
    (hI : SessInv s.ssn) (hU : UidUnique s.ssn)
    (hpre : Pre s.ssn c) (hrun : runCmd s c = some s1) :
    SessInv s1.ssn ∧ UidUnique s1.ssn := by
  cases c with
  | pipelineC t hostname =>
    obtain ⟨⟨j, hj, ht⟩, hstat⟩ := hpre
    obtain ⟨node, node1, hn, ha, hops, hssn⟩ := Pipeline_elim s t hostname s1 j hj ht hrun
    obtain ⟨ni2, hvect, hq1, hq2, hfresh, hguard⟩ :=
      addTask_ok_elim node { t with status := .Pipelined } node1 _ ha
    have hname : node.name = hostname := (hI.1 hostname node hn).1
    have hn1name : node1.name = hostname := by
      rw [hq1]
      show ni2.name = hostname
      rw [(addTaskVect_ok_elim node _ ni2 hvect).1, hname]
    have hn1tasks : node1.tasks
        = (t.uid, { t with status := .Pipelined, nodeName := node.name }) :: node.tasks := by
      rw [hq1]
      show (t.uid, { t with status := .Pipelined, nodeName := node.name }) :: ni2.tasks = _
      rw [(addTaskVect_ok_elim node _ ni2 hvect).2.2.2.2.2.1]
    have hnostale : ∀ h1 n1, alookup h1 s.ssn.nodes = some n1 → h1 ≠ hostname →
        ∀ cl, alookup t.uid n1.tasks = some cl → cl.job = t.job → False := by
      intro h1 n1 hl1 hne cl hcl hclj
      obtain ⟨j0, t0, hj0, ht0, hc1, hc2, hc3⟩ := hI.2.2.2.2 h1 n1 hl1 t.uid cl hcl
      rw [hclj, hj] at hj0
      have hj0j : j = j0 := Option.some.inj hj0
      rw [← hj0j] at ht0
      rw [ht] at ht0
      have ht0t : t = t0 := Option.some.inj ht0
      rw [← ht0t] at hc3
      refine hguard ⟨?_, ?_, ?_⟩
      · show t.nodeName.length > 0
        rw [hc3]
        exact string_length_pos h1 (hI.1 h1 n1 hl1).2.1
      · rw [hname]
        exact string_length_pos hostname (hI.1 hostname node hn).2.1
      · show t.nodeName ≠ node.name
        rw [hc3, hname]
        exact hne
    rw [hssn]
    exact inv_step_common s.ssn t { t with status := .Pipelined, nodeName := node.name } j
      hostname node node1 node.tasks hj ht rfl rfl (by show node.name = hostname; exact hname)
      hn hn1name hn1tasks (hI.1 hostname node hn).2.2 hfresh
      (fun k cl _ hcl => hcl) hnostale hI hU
  | allocateC t hostname ab =>
    obtain ⟨⟨j, hj, ht⟩, hstat⟩ := hpre
    obtain ⟨node, node1, hn, ha, hops, hssn⟩ := Allocate_elim s t hostname ab s1 j hj ht hrun
    obtain ⟨ni2, hvect, hq1, hq2, hfresh, hguard⟩ :=
      addTask_ok_elim node { t with volumeReady := ab, status := .Allocated } node1 _ ha
    have hname : node.name = hostname := (hI.1 hostname node hn).1
    have hn1name : node1.name = hostname := by
      rw [hq1]
      show ni2.name = hostname
      rw [(addTaskVect_ok_elim node _ ni2 hvect).1, hname]
    have hn1tasks : node1.tasks
        = (t.uid, { t with volumeReady := ab, status := .Allocated, nodeName := node.name })
          :: node.tasks := by
      rw [hq1]
      show (t.uid, { t with volumeReady := ab, status := .Allocated, nodeName := node.name })
        :: ni2.tasks = _
      rw [(addTaskVect_ok_elim node _ ni2 hvect).2.2.2.2.2.1]
    have hnostale : ∀ h1 n1, alookup h1 s.ssn.nodes = some n1 → h1 ≠ hostname →
        ∀ cl, alookup t.uid n1.tasks = some cl → cl.job = t.job → False := by
      intro h1 n1 hl1 hne cl hcl hclj
      obtain ⟨j0, t0, hj0, ht0, hc1, hc2, hc3⟩ := hI.2.2.2.2 h1 n1 hl1 t.uid cl hcl
      rw [hclj, hj] at hj0
      have hj0j : j = j0 := Option.some.inj hj0
      rw [← hj0j] at ht0
      rw [ht] at ht0
      have ht0t : t = t0 := Option.some.inj ht0
      rw [← ht0t] at hc3
      refine hguard ⟨?_, ?_, ?_⟩
      · show t.nodeName.length > 0
        rw [hc3]
        exact string_length_pos h1 (hI.1 h1 n1 hl1).2.1
      · rw [hname]
        exact string_length_pos hostname (hI.1 hostname node hn).2.1
      · show t.nodeName ≠ node.name
        rw [hc3, hname]
        exact hne
    rw [hssn]
    exact inv_step_common s.ssn t
      { t with volumeReady := ab, status := .Allocated, nodeName := node.name } j
      hostname node node1 node.tasks hj ht rfl rfl (by show node.name = hostname; exact hname)
      hn hn1name hn1tasks (hI.1 hostname node hn).2.2 hfresh
      (fun k cl _ hcl => hcl) hnostale hI hU
  | evictC t reason =>
    obtain ⟨⟨j, hj, ht⟩, hstat⟩ := hpre
    rcases Evict_elim s t reason s1 j hj ht hrun with
      ⟨hn, hops, hssn⟩ | ⟨node, hn, hc, hops, hssn⟩ |
      ⟨node, cc, nr, node1, hn, hc, hrm, ha, hops, hssn⟩
    · have hnosub : ∀ h1 n1, alookup h1 s.ssn.nodes = some n1 →
          ∀ cl, alookup t.uid n1.tasks = some cl → cl.job = t.job → False := by
        intro h1 n1 hl1 cl hcl hclj
        obtain ⟨j0, t0, hj0, ht0, hc1, hc2, hc3⟩ := hI.2.2.2.2 h1 n1 hl1 t.uid cl hcl
        rw [hclj, hj] at hj0
        have hj0j : j = j0 := Option.some.inj hj0
        rw [← hj0j] at ht0
        rw [ht] at ht0
        have ht0t : t = t0 := Option.some.inj ht0
        rw [← ht0t] at hc3
        rw [hc3] at hn
        rw [hn] at hl1
        simp at hl1
      rw [hssn]
      exact inv_step_jobs_only s.ssn t { t with status := .Releasing } j hj ht rfl rfl
        hnosub hI hU
    · have hnosub : ∀ h1 n1, alookup h1 s.ssn.nodes = some n1 →
          ∀ cl, alookup t.uid n1.tasks = some cl → cl.job = t.job → False := by
        intro h1 n1 hl1 cl hcl hclj
        obtain ⟨j0, t0, hj0, ht0, hc1, hc2, hc3⟩ := hI.2.2.2.2 h1 n1 hl1 t.uid cl hcl
        rw [hclj, hj] at hj0
        have hj0j : j = j0 := Option.some.inj hj0
        rw [← hj0j] at ht0
        rw [ht] at ht0
        have ht0t : t = t0 := Option.some.inj ht0
        rw [← ht0t] at hc3
        rw [hc3] at hn
        rw [hn] at hl1
        have hn1 : n1 = node := (Option.some.inj hl1).symm
        rw [hn1] at hcl
        rw [hc] at hcl
        simp at hcl
      rw [hssn]
      exact inv_step_jobs_only s.ssn t { t with status := .Releasing } j hj ht rfl rfl
        hnosub hI hU
    · obtain ⟨cc2, hcc2, hrname, hrnode, hrstate, hrall, hrcap, hrtasks, -⟩ :=
        removeTask_ok_elim node { t with status := .Releasing } nr hrm
      obtain ⟨ni2, hvect, hq1, hq2, hfresh, hguard⟩ :=
        addTask_ok_elim nr { t with status := .Releasing } node1 _ ha
      have hname : node.name = t.nodeName := (hI.1 t.nodeName node hn).1
      have hnrname : nr.name = t.nodeName := by rw [hrname, hname]
      have hn1name : node1.name = t.nodeName := by
        rw [hq1]
        show ni2.name = t.nodeName
        rw [(addTaskVect_ok_elim nr _ ni2 hvect).1, hnrname]
      have hn1tasks : node1.tasks
          = (t.uid, { t with status := .Releasing, nodeName := nr.name })
            :: eraseKey t.uid node.tasks := by
        rw [hq1]
        show (t.uid, { t with status := .Releasing, nodeName := nr.name }) :: ni2.tasks = _
        rw [(addTaskVect_ok_elim nr _ ni2 hvect).2.2.2.2.2.1, hrtasks]
        rfl
      have hndnd : (node.tasks.map Prod.fst).Nodup := (hI.1 t.nodeName node hn).2.2
      have hnostale : ∀ h1 n1, alookup h1 s.ssn.nodes = some n1 → h1 ≠ t.nodeName →
          ∀ cl, alookup t.uid n1.tasks = some cl → cl.job = t.job → False := by
        intro h1 n1 hl1 hne cl hcl hclj
        obtain ⟨j0, t0, hj0, ht0, hc1, hc2, hc3⟩ := hI.2.2.2.2 h1 n1 hl1 t.uid cl hcl
        rw [hclj, hj] at hj0
        have hj0j : j = j0 := Option.some.inj hj0
        rw [← hj0j] at ht0
        rw [ht] at ht0
        have ht0t : t = t0 := Option.some.inj ht0
        rw [← ht0t] at hc3
        exact hne hc3.symm
      rw [hssn]
      exact inv_step_common s.ssn t { t with status := .Releasing, nodeName := nr.name } j
        t.nodeName node node1 (eraseKey t.uid node.tasks) hj ht rfl rfl
        (by show nr.name = t.nodeName; exact hnrname)
        hn hn1name hn1tasks (nodup_keys_eraseKey t.uid node.tasks hndnd)
        (alookup_eraseKey_self t.uid node.tasks hndnd)
        (fun k cl hk hcl => by
          rw [← alookup_eraseKey_ne k t.uid node.tasks hk]
          exact hcl)
        hnostale hI hU

theorem unpipeline_eq_ok (ssn : Session) (v rv : TaskInfo) (p : Session × TaskInfo)
    (node node1 : NodeInfo)
    (hread : ssn.readTask v = rv)
    (hs : sessionUpdateStatus ssn rv .Pending = p)
    (hn : alookup p.2.nodeName p.1.nodes = some node)
    (hrm : node.removeTask p.2 = .ok node1) :
    Statement.unpipeline ssn v = ⟨p.1.jobs, setKey p.2.nodeName node1 p.1.nodes⟩ := by
  unfold Statement.unpipeline
  simp only [hread, hs, hn, hrm]

/-- Backward simulation of `unpipeline`/`unallocate` against a forward
`Pipeline`/`Allocate`: run on any session related (outside the journaled
paths `D`) to the forward post-state, the inverse lands related to the
forward pre-state, the subject's path joining `D`. -/
theorem unplace_sim (ssn0 : Session) (t T2 : TaskInfo) (H : String) (j : JobInfo)
    (node node1 : NodeInfo) (a : Session) (D : List (String × String))
    (hj : alookup t.job ssn0.jobs = some j)
    (ht : alookup t.uid j.tasks = some t)
    (hstat : t.status = .Pending)
    (hI : SessInv ssn0)
    (hn : alookup H ssn0.nodes = some node)
    (hT2u : T2.uid = t.uid) (hT2j : T2.job = t.job)
    (hT2nn : T2.nodeName = H) (hT2rq : T2.resreq = t.resreq)
    (hT2n : T2.name = t.name) (hT2p : T2.priority = t.priority)
    (hn1name : node1.name = node.name) (hn1node : node1.node = node.node)
    (hn1state : node1.state = node.state) (hn1alloc : node1.allocatable = node.allocatable)
    (hn1cap : node1.capability = node.capability)
    (hn1tasks : node1.tasks = (t.uid, T2) :: node.tasks)
    (hfresh : alookup t.uid node.tasks = none)
    (hvects : (node.node = none ∧ node1.idle = node.idle ∧ node1.used = node.used ∧
        node1.releasing = node.releasing ∧ node1.pipelined = node.pipelined) ∨
      (node.node ≠ none ∧ ∀ d,
        node1.idle.get d = node.idle.get d - dReg T2.status t.resreq d ∧
        node1.used.get d = node.used.get d + dReg T2.status t.resreq d ∧
        node1.releasing.get d = node.releasing.get d + dRel T2.status t.resreq d ∧
        node1.pipelined.get d = node.pipelined.get d + dPip T2.status t.resreq d))
    (hrel : sessRel D a ⟨setKey t.job { j with tasks := setKey t.uid T2 j.tasks } ssn0.jobs,
        setKey H node1 ssn0.nodes⟩)
    (hD : ¬ (t.job, t.uid) ∈ D) :
    sessRel ((t.job, t.uid) :: D) (Statement.unpipeline a T2) ssn0 := by
  have h1 := alookup_forall₂ (fun k x y => jobRel D k x y) hrel.1 t.job
  rw [alookup_setKey_self t.job { j with tasks := setKey t.uid T2 j.tasks } j ssn0.jobs hj] at h1
  cases hja : alookup t.job a.jobs with
  | none => rw [hja] at h1; exact absurd h1 (by simp [optRel])
  | some ja =>
    rw [hja] at h1
    have h2 := alookup_forall₂ (fun k x y => taskRel ((t.job, k) ∈ D) x y)
      h1.2.2.2.2.2.2.2 t.uid
    rw [show alookup t.uid ({ j with tasks := setKey t.uid T2 j.tasks } : JobInfo).tasks
        = some T2 from alookup_setKey_self t.uid T2 t j.tasks ht] at h2
    cases hta : alookup t.uid ja.tasks with
    | none => rw [hta] at h2; exact absurd h2 (by simp [optRel])
    | some ta =>
      rw [hta] at h2
      have htaT2 : ta = T2 := taskRel_eq_of_not_dv h2 hD
      subst htaT2
      have hread : a.readTask ta = ta := by
        unfold Session.readTask
        rw [hT2j, hja]
        simp only [Option.map_some', Option.some_bind]
        rw [hT2u, hta]
        rfl
      have hupd := updateTaskStatus_eq ja ta .Pending ta (by rw [hT2u]; exact hta)
      have hs := sessionUpdateStatus_found a ta .Pending ja _ (by rw [hT2j]; exact hja) hupd
      have h3 := alookup_forall₂ (fun _ x y => nodeRel x y) hrel.2 H
      rw [alookup_setKey_self H node1 node ssn0.nodes hn] at h3
      cases hna : alookup H a.nodes with
      | none => rw [hna] at h3; exact absurd h3 (by simp [optRel])
      | some na =>
        rw [hna] at h3
        obtain ⟨hr1, hr2, hr3, hr4, hr5, hri, hru, hrr, hrp, hrt, hrnd, hrnd2⟩ := h3
        have hcb : alookup t.uid node1.tasks = some ta := by
          rw [hn1tasks, alookup_cons, if_pos rfl]
        have hcat := hrt t.uid
        rw [hcb] at hcat
        cases hca : alookup t.uid na.tasks with
        | none => rw [hca] at hcat; exact absurd hcat (by simp [optRel])
        | some ca =>
          rw [hca] at hcat
          have hrm := removeTask_eq_of_lookup na ({ ta with status := .Pending }) ca
            (by show alookup ta.uid na.tasks = some ca; rw [hT2u]; exact hca)
          have hun := unpipeline_eq_ok a ta ta
            ((⟨setKey ta.job { ja with tasks := setKey ta.uid { ta with status := .Pending } ja.tasks } a.jobs, a.nodes⟩ : Session),
              { ta with status := .Pending })
            na _ hread hs
            (by show alookup ta.nodeName a.nodes = some na; rw [hT2nn]; exact hna)
            hrm
          rw [hun]
          have hnanode : na.node = node.node := by rw [hr2, hn1node]
          obtain ⟨e1, e2, e3, e4, e5, e6, e7⟩ := removeTaskVect_elim na ca
          have hcas : ca.status = ta.status := hcat.1
          have hcar : ca.resreq = t.resreq := by rw [hcat.2, hT2rq]
          constructor
          · show List.Forall₂ _ (setKey ta.job
              { ja with tasks := setKey ta.uid { ta with status := .Pending } ja.tasks } a.jobs)
              ssn0.jobs
            nth_rewrite 1 [hT2j]
            refine forall₂_setKey_both (fun k x y => jobRel D k x y)
              (fun k x y => jobRel ((t.job, t.uid) :: D) k x y) t.job
              { ja with tasks := setKey ta.uid { ta with status := .Pending } ja.tasks }
              { j with tasks := setKey t.uid ta j.tasks } hI.2.1 hrel.1
              (fun k x y _ hr => jobRel_mono (fun p hp => List.mem_cons_of_mem _ hp) hr)
              (fun u hu => ?_)
            have huj : u = j := Option.some.inj (by rw [← hj, hu])
            subst huj
            obtain ⟨g1, g2, g3, g4, g5, g6, g7, g8⟩ := h1
            refine ⟨g1, g2, g3, g4, g5, g6, g7, ?_⟩
            show List.Forall₂ _ (setKey ta.uid { ta with status := .Pending } ja.tasks) u.tasks
            nth_rewrite 1 [hT2u]
            refine forall₂_setKey_both
              (fun k x y => taskRel ((t.job, k) ∈ D) x y)
              (fun k x y => taskRel ((t.job, k) ∈ (t.job, t.uid) :: D) x y) t.uid
              { ta with status := .Pending } ta (hI.2.2.2.1 t.job u hj).1 g8
              (fun k x y _ hr => taskRel_mono (fun hd => List.mem_cons_of_mem _ hd) hr)
              (fun w hw => ?_)
            have hwt : w = t := Option.some.inj (by rw [← ht, hw])
            subst hwt
            refine ⟨⟨?_, ?_, ?_, ?_, ?_, ?_⟩, fun hnd => absurd (List.mem_cons_self _ _) hnd⟩
            · show ta.uid = w.uid
              rw [hT2u]
            · show ta.job = w.job
              rw [hT2j]
            · show ta.name = w.name
              rw [hT2n]
            · show ta.resreq = w.resreq
              rw [hT2rq]
            · show ta.priority = w.priority
              rw [hT2p]
            · show TaskStatus.Pending = w.status
              rw [hstat]
          · show List.Forall₂ _ (setKey ta.nodeName _ a.nodes) ssn0.nodes
            nth_rewrite 1 [hT2nn]
            refine forall₂_setKey_both (fun _ x y => nodeRel x y) (fun _ x y => nodeRel x y) H
              _ node1 hI.2.2.1 hrel.2 (fun _ x y _ hr => hr) (fun u hu => ?_)
            have hun2 : u = node := Option.some.inj (by rw [← hn, hu])
            subst hun2
            refine ⟨?_, ?_, ?_, ?_, ?_, ?_, ?_, ?_, ?_, ?_, ?_, ?_⟩
            · show (na.removeTaskVect ca).name = u.name
              rw [e1, hr1, hn1name]
            · show (na.removeTaskVect ca).node = u.node
              rw [e2, hr2, hn1node]
            · show (na.removeTaskVect ca).state = u.state
              rw [e3, hr3, hn1state]
            · show (na.removeTaskVect ca).allocatable = u.allocatable
              rw [e4, hr4, hn1alloc]
            · show (na.removeTaskVect ca).capability = u.capability
              rw [e5, hr5, hn1cap]
            · intro d
              show (na.removeTaskVect ca).idle.get d = u.idle.get d
              rcases hvects with ⟨hnn, hv1, hv2, hv3, hv4⟩ | ⟨hnn, hv⟩
              · rcases e7 with ⟨-, hid⟩ | ⟨hna2, -⟩
                · rw [hid, hri d, hv1]
                · exact absurd (by rw [hnanode]; exact hnn) hna2
              · rcases e7 with ⟨hna2, -⟩ | ⟨-, hv2⟩
                · exact absurd (by rw [← hnanode]; exact hna2) hnn
                · rw [(hv2 d).1, hri d, (hv d).1, hcas, hcar]
                  omega
            · intro d
              show (na.removeTaskVect ca).used.get d = u.used.get d
              rcases hvects with ⟨hnn, hv1, hv2, hv3, hv4⟩ | ⟨hnn, hv⟩
              · rcases e7 with ⟨-, hid⟩ | ⟨hna2, -⟩
                · rw [hid, hru d, hv2]
                · exact absurd (by rw [hnanode]; exact hnn) hna2
              · rcases e7 with ⟨hna2, -⟩ | ⟨-, hv2⟩
                · exact absurd (by rw [← hnanode]; exact hna2) hnn
                · rw [(hv2 d).2.1, hru d, (hv d).2.1, hcas, hcar]
                  omega
            · intro d
              show (na.removeTaskVect ca).releasing.get d = u.releasing.get d
              rcases hvects with ⟨hnn, hv1, hv2, hv3, hv4⟩ | ⟨hnn, hv⟩
              · rcases e7 with ⟨-, hid⟩ | ⟨hna2, -⟩
                · rw [hid, hrr d, hv3]
                · exact absurd (by rw [hnanode]; exact hnn) hna2
              · rcases e7 with ⟨hna2, -⟩ | ⟨-, hv2⟩
                · exact absurd (by rw [← hnanode]; exact hna2) hnn
                · rw [(hv2 d).2.2.1, hrr d, (hv d).2.2.1, hcas, hcar]
                  omega
            · intro d
              show (na.removeTaskVect ca).pipelined.get d = u.pipelined.get d
              rcases hvects with ⟨hnn, hv1, hv2, hv3, hv4⟩ | ⟨hnn, hv⟩
              · rcases e7 with ⟨-, hid⟩ | ⟨hna2, -⟩
                · rw [hid, hrp d, hv4]
                · exact absurd (by rw [hnanode]; exact hnn) hna2
              · rcases e7 with ⟨hna2, -⟩ | ⟨-, hv2⟩
                · exact absurd (by rw [← hnanode]; exact hna2) hnn
                · rw [(hv2 d).2.2.2, hrp d, (hv d).2.2.2, hcas, hcar]
                  omega
            · intro k
              show optRel cloneRel
                (alookup k (eraseKey (PodKey { ta with status := TaskStatus.Pending })
                  (na.removeTaskVect ca).tasks)) (alookup k u.tasks)
              rw [e6]
              by_cases hk : k = t.uid
              · subst hk
                rw [show eraseKey (PodKey { ta with status := TaskStatus.Pending }) na.tasks
                    = eraseKey t.uid na.tasks from congrFun (congrArg eraseKey hT2u) na.tasks]
                rw [alookup_eraseKey_self t.uid na.tasks hrnd, hfresh]
                exact trivial
              · rw [show eraseKey (PodKey { ta with status := TaskStatus.Pending }) na.tasks
                    = eraseKey t.uid na.tasks from congrFun (congrArg eraseKey hT2u) na.tasks]
                rw [alookup_eraseKey_ne k t.uid na.tasks (fun he => hk he.symm)]
                have := hrt k
                rw [hn1tasks, alookup_cons, if_neg (fun he => hk he.symm)] at this
                exact this
            · show ((eraseKey (PodKey { ta with status := TaskStatus.Pending })
                (na.removeTaskVect ca).tasks).map Prod.fst).Nodup
              rw [e6]
              exact nodup_keys_eraseKey _ na.tasks hrnd
            · exact (hI.1 H u hn).2.2

theorem unevict_eq_nonode (ssn : Session) (v rv : TaskInfo) (p : Session × TaskInfo)
    (hread : ssn.readTask v = rv)
    (hs : sessionUpdateStatus ssn rv .Running = p)
    (hn : alookup p.2.nodeName p.1.nodes = none) :
    Statement.unevict ssn v = some p.1 := by
  unfold Statement.unevict
  simp only [hread, hs]
  rw [sessionUpdateTaskInNode_nonode p.1 p.2 hn]

theorem unevict_eq_rmErr (ssn : Session) (v rv : TaskInfo) (p : Session × TaskInfo)
    (node : NodeInfo) (e : String)
    (hread : ssn.readTask v = rv)
    (hs : sessionUpdateStatus ssn rv .Running = p)
    (hn : alookup p.2.nodeName p.1.nodes = some node)
    (hrm : node.removeTask p.2 = .error e) :
    Statement.unevict ssn v = some p.1 := by
  unfold Statement.unevict
  simp only [hread, hs]
  rw [sessionUpdateTaskInNode_err p.1 p.2 node e hn (updateTask_eq_rm_err node p.2 e hrm)]

theorem unevict_eq_ok (ssn : Session) (v rv : TaskInfo) (p : Session × TaskInfo)
    (node nr : NodeInfo) (q : NodeInfo × TaskInfo)
    (hread : ssn.readTask v = rv)
    (hs : sessionUpdateStatus ssn rv .Running = p)
    (hn : alookup p.2.nodeName p.1.nodes = some node)
    (hrm : node.removeTask p.2 = .ok nr)
    (ha : nr.addTask p.2 = .ok q) :
    Statement.unevict ssn v
      = some (Session.writeTask ⟨p.1.jobs, setKey p.2.nodeName q.1 p.1.nodes⟩ q.2) := by
  unfold Statement.unevict
  simp only [hread, hs]
  rw [sessionUpdateTaskInNode_ok p.1 p.2 node q hn (updateTask_eq_ok node p.2 nr q hrm ha)]

/-- Shared first half of the `unevict` simulations: transport of the
subject's live entry and the status update back to `Running`. -/
theorem unevict_jobs_half (ssn0 : Session) (t : TaskInfo) (j : JobInfo)
    (a : Session) (D : List (String × String)) (T2 : TaskInfo)
    (hj : alookup t.job ssn0.jobs = some j)
    (ht : alookup t.uid j.tasks = some t)
    (hstat : t.status = .Running)
    (hI : SessInv ssn0)
    (hT2u : T2.uid = t.uid) (hT2j : T2.job = t.job)
    (hT2rq : T2.resreq = t.resreq) (hT2n : T2.name = t.name) (hT2p : T2.priority = t.priority)
    (hrelj : List.Forall₂ (fun p q => p.1 = q.1 ∧ jobRel D p.1 p.2 q.2) a.jobs
      (setKey t.job { j with tasks := setKey t.uid T2 j.tasks } ssn0.jobs))
    (hD : ¬ (t.job, t.uid) ∈ D) :
    ∃ ja, alookup t.job a.jobs = some ja ∧ alookup t.uid ja.tasks = some T2 ∧
      jobRel D t.job ja { j with tasks := setKey t.uid T2 j.tasks } ∧
      List.Forall₂ (fun p q => p.1 = q.1 ∧ jobRel ((t.job, t.uid) :: D) p.1 p.2 q.2)
        (setKey t.job { ja with tasks := setKey t.uid { T2 with status := .Running } ja.tasks }
          a.jobs)
        ssn0.jobs := by
  have h1 := alookup_forall₂ (fun k x y => jobRel D k x y) hrelj t.job
  rw [alookup_setKey_self t.job { j with tasks := setKey t.uid T2 j.tasks } j ssn0.jobs hj] at h1
  cases hja : alookup t.job a.jobs with
  | none => rw [hja] at h1; exact absurd h1 (by simp [optRel])
  | some ja =>
    rw [hja] at h1
    have h2 := alookup_forall₂ (fun k x y => taskRel ((t.job, k) ∈ D) x y)
      h1.2.2.2.2.2.2.2 t.uid
    rw [show alookup t.uid ({ j with tasks := setKey t.uid T2 j.tasks } : JobInfo).tasks
        = some T2 from alookup_setKey_self t.uid T2 t j.tasks ht] at h2
    cases hta : alookup t.uid ja.tasks with
    | none => rw [hta] at h2; exact absurd h2 (by simp [optRel])
    | some ta =>
      rw [hta] at h2
      have htaT2 : ta = T2 := taskRel_eq_of_not_dv h2 hD
      subst htaT2
      refine ⟨ja, rfl, hta, h1, ?_⟩
      refine forall₂_setKey_both (fun k x y => jobRel D k x y)
        (fun k x y => jobRel ((t.job, t.uid) :: D) k x y) t.job
        { ja with tasks := setKey t.uid { ta with status := .Running } ja.tasks }
        { j with tasks := setKey t.uid ta j.tasks } hI.2.1 hrelj
        (fun k x y _ hr => jobRel_mono (fun p hp => List.mem_cons_of_mem _ hp) hr)
        (fun u hu => ?_)
      have huj : u = j := Option.some.inj (by rw [← hj, hu])
      subst huj
      obtain ⟨g1, g2, g3, g4, g5, g6, g7, g8⟩ := h1
      refine ⟨g1, g2, g3, g4, g5, g6, g7, ?_⟩
      show List.Forall₂ _ (setKey t.uid { ta with status := .Running } ja.tasks) u.tasks
      refine forall₂_setKey_both
        (fun k x y => taskRel ((t.job, k) ∈ D) x y)
        (fun k x y => taskRel ((t.job, k) ∈ (t.job, t.uid) :: D) x y) t.uid
        { ta with status := .Running } ta (hI.2.2.2.1 t.job u hj).1 g8
        (fun k x y _ hr => taskRel_mono (fun hd => List.mem_cons_of_mem _ hd) hr)
        (fun w hw => ?_)
      have hwt : w = t := Option.some.inj (by rw [← ht, hw])
      subst hwt
      refine ⟨⟨?_, ?_, ?_, ?_, ?_, ?_⟩, fun hnd => absurd (List.mem_cons_self _ _) hnd⟩
      · show ta.uid = w.uid
        rw [hT2u]
      · show ta.job = w.job
        rw [hT2j]
      · show ta.name = w.name
        rw [hT2n]
      · show ta.resreq = w.resreq
        rw [hT2rq]
      · show ta.priority = w.priority
        rw [hT2p]
      · show TaskStatus.Running = w.status
        rw [hstat]

theorem addTaskVect_running (ni : NodeInfo) (ti : TaskInfo) (k : KNode)
    (hn : ni.node = some k) (ts : ti.status = .Running)
    (hle : ti.resreq.lessEqual ni.idle = true) :
    ni.addTaskVect ti
      = .ok { ni with idle := ni.idle.sub ti.resreq, used := ni.used.add ti.resreq } := by
  unfold NodeInfo.addTaskVect NodeInfo.allocateIdleResource
  rw [hn, ts, if_pos hle]

theorem addTask_intro (ni : NodeInfo) (task : TaskInfo) (ni2 : NodeInfo)
    (hguard : ¬(task.nodeName.length > 0 ∧ ni.name.length > 0 ∧ task.nodeName ≠ ni.name))
    (hfresh : alookup (PodKey task) ni.tasks = none)
    (hvect : ni.addTaskVect task = .ok ni2) :
    ni.addTask task
      = .ok ({ ni2 with tasks := (PodKey task, { task with nodeName := ni.name }) :: ni2.tasks },
          { task with nodeName := ni.name }) := by
  unfold NodeInfo.addTask
  rw [if_neg hguard, if_neg (by rw [hfresh]; simp)]
  simp only [TaskInfo.clone]
  rw [hvect]

/-- Backward simulation for `unevict` when the forward `Evict` modified no
node: node absent under the task's `NodeName`, or the node holds no copy of
the task.  The inverse restores `Running` and leaves the nodes untouched. -/
theorem unevict_sim_frame (ssn0 : Session) (t : TaskInfo) (j : JobInfo)
    (a : Session) (D : List (String × String))
    (hj : alookup t.job ssn0.jobs = some j)
    (ht : alookup t.uid j.tasks = some t)
    (hstat : t.status = .Running)
    (hI : SessInv ssn0)
    (hnc : ∀ node, alookup t.nodeName ssn0.nodes = some node →
      alookup t.uid node.tasks = none)
    (hrel : sessRel D a
      ⟨setKey t.job { j with tasks := setKey t.uid { t with status := .Releasing } j.tasks }
          ssn0.jobs,
        ssn0.nodes⟩)
    (hD : ¬ (t.job, t.uid) ∈ D) :
    ∃ a1, Statement.unevict a { t with status := .Releasing } = some a1 ∧
      sessRel ((t.job, t.uid) :: D) a1 ssn0 := by
  obtain ⟨ja, hja, hta, hjr, hjobs⟩ := unevict_jobs_half ssn0 t j a D
    { t with status := .Releasing } hj ht hstat hI rfl rfl rfl rfl rfl hrel.1 hD
  have hread : Session.readTask a { t with status := .Releasing }
      = { t with status := .Releasing } := by
    show (((alookup t.job a.jobs).map JobInfo.tasks).bind (alookup t.uid)).getD
      { t with status := .Releasing } = _
    rw [hja]
    show (alookup t.uid ja.tasks).getD { t with status := .Releasing } = _
    rw [hta]
    rfl
  have hupd := updateTaskStatus_eq ja { t with status := .Releasing } .Running
    { t with status := .Releasing }
    (show alookup t.uid ja.tasks = _ from hta)
  have hs := sessionUpdateStatus_found a { t with status := .Releasing } .Running ja _
    (show alookup t.job a.jobs = some ja from hja) hupd
  have h3 := alookup_forall₂ (fun _ x y => nodeRel x y) hrel.2 t.nodeName
  refine ⟨⟨setKey t.job { ja with tasks := setKey t.uid { { t with status := TaskStatus.Releasing } with status := TaskStatus.Running } ja.tasks } a.jobs, a.nodes⟩, ?_, hjobs, hrel.2⟩
  cases hbn : alookup t.nodeName ssn0.nodes with
  | none =>
    rw [hbn] at h3
    cases han : alookup t.nodeName a.nodes with
    | some na => rw [han] at h3; exact absurd h3 (by simp [optRel])
    | none =>
      exact unevict_eq_nonode a { t with status := .Releasing }
        { t with status := .Releasing } _ hread hs
        (show alookup t.nodeName a.nodes = none from han)
  | some node =>
    rw [hbn] at h3
    cases han : alookup t.nodeName a.nodes with
    | none => rw [han] at h3; exact absurd h3 (by simp [optRel])
    | some na =>
      rw [han] at h3
      have hcl := h3.2.2.2.2.2.2.2.2.2.1 t.uid
      rw [hnc node hbn] at hcl
      cases hca : alookup t.uid na.tasks with
      | some ca => rw [hca] at hcl; exact absurd hcl (by simp [optRel])
      | none =>
        exact unevict_eq_rmErr a { t with status := .Releasing }
          { t with status := .Releasing } _ na _ hread hs
          (show alookup t.nodeName a.nodes = some na from han)
          (removeTask_eq_of_lookup_none na _
            (show alookup t.uid na.tasks = none from hca))

theorem alookup_isSome_of_mem_keys {α : Type} (k : String) (l : List (String × α))
    (h : k ∈ l.map Prod.fst) : (alookup k l).isSome := by
  induction l with
  | nil => simp at h
  | cons p rest ih =>
    obtain ⟨pk, pv⟩ := p
    by_cases h1 : pk = k
    · rw [alookup_cons, if_pos h1]
      rfl
    · rw [alookup_cons, if_neg h1]
      apply ih
      simp only [List.map_cons, List.mem_cons] at h
      rcases h with h | h
      · exact absurd h.symm h1
      · exact h

theorem dReg_running (r : Resource) (d : Dim) : dReg .Running r d = r.get d := rfl

theorem dReg_releasing (r : Resource) (d : Dim) : dReg .Releasing r d = r.get d := rfl

theorem dRel_running (r : Resource) (d : Dim) : dRel .Running r d = 0 := rfl

theorem dRel_releasing (r : Resource) (d : Dim) : dRel .Releasing r d = r.get d := rfl

theorem dPip_running (r : Resource) (d : Dim) : dPip .Running r d = 0 := rfl

theorem dPip_releasing (r : Resource) (d : Dim) : dPip .Releasing r d = 0 := rfl

theorem writeTask_collapse (jobs : List (String × JobInfo)) (N : List (String × NodeInfo))
    (t w v : TaskInfo) (ja : JobInfo)
    (hja : alookup t.job jobs = some ja)
    (hta : (alookup t.uid ja.tasks).isSome = true)
    (hvj : v.job = t.job) (hvu : v.uid = t.uid) :
    Session.writeTask ⟨setKey t.job { ja with tasks := setKey t.uid w ja.tasks } jobs, N⟩ v
      = ⟨setKey t.job { ja with tasks := setKey t.uid v ja.tasks } jobs, N⟩ := by
  have h1 : alookup v.job (setKey t.job { ja with tasks := setKey t.uid w ja.tasks } jobs)
      = some { ja with tasks := setKey t.uid w ja.tasks } := by
    rw [hvj]
    exact alookup_setKey_self t.job _ ja jobs hja
  have h2 : (alookup v.uid ({ ja with tasks := setKey t.uid w ja.tasks } : JobInfo).tasks).isSome
      = true := by
    rw [hvu]
    show (alookup t.uid (setKey t.uid w ja.tasks)).isSome = true
    rw [isSome_alookup_setKey]
    exact hta
  rw [writeTask_eq ⟨setKey t.job { ja with tasks := setKey t.uid w ja.tasks } jobs, N⟩ v
    { ja with tasks := setKey t.uid w ja.tasks } h1 h2]
  show (⟨setKey v.job { ja with tasks := setKey v.uid v (setKey t.uid w ja.tasks) }
      (setKey t.job { ja with tasks := setKey t.uid w ja.tasks } jobs), N⟩ : Session) = _
  rw [hvj, hvu, setKey_setKey, setKey_setKey]

set_option maxHeartbeats 1600000 in
/-- Backward simulation for `unevict` when the forward `Evict` moved the
node copy to `Releasing`: the inverse restores `Running`, and the re-add
succeeds because the idle vector seen by the guard equals the one the
forward `RemoveTask`/`AddTask` pair produced. -/
theorem unevict_sim_ok (ssn0 : Session) (t : TaskInfo) (j : JobInfo)
    (node : NodeInfo) (c : TaskInfo) (nr node1 : NodeInfo)
    (a : Session) (D : List (String × String))
    (hj : alookup t.job ssn0.jobs = some j)
    (ht : alookup t.uid j.tasks = some t)
    (hstat : t.status = .Running)
    (hI : SessInv ssn0) (hU : UidUnique ssn0)
    (hn : alookup t.nodeName ssn0.nodes = some node)
    (hc : alookup t.uid node.tasks = some c)
    (hrm : node.removeTask { t with status := .Releasing } = .ok nr)
    (ha : nr.addTask { t with status := .Releasing }
      = .ok (node1, { t with status := .Releasing, nodeName := nr.name }))
    (hrel : sessRel D a
      ⟨setKey t.job { j with tasks := setKey t.uid { t with status := .Releasing, nodeName := nr.name } j.tasks } ssn0.jobs,
        setKey t.nodeName node1 ssn0.nodes⟩)
    (hD : ¬ (t.job, t.uid) ∈ D) :
    ∃ a1, Statement.unevict a { t with status := .Releasing, nodeName := nr.name } = some a1 ∧
      sessRel ((t.job, t.uid) :: D) a1 ssn0 := by
  have hname : node.name = t.nodeName := (hI.1 t.nodeName node hn).1
  have hndN : (node.tasks.map Prod.fst).Nodup := (hI.1 t.nodeName node hn).2.2
  obtain ⟨j0, t0, hj0, ht0, hc1, hc2, hc3⟩ := hI.2.2.2.2 t.nodeName node hn t.uid c hc
  have hcjob : c.job = t.job := hU c.job j0 t.uid t0 t.job j t hj0 ht0 hj ht
  rw [hcjob] at hj0
  have hj0j : j = j0 := by rw [hj] at hj0; exact Option.some.inj hj0
  subst hj0j
  have ht0t : t = t0 := by rw [ht] at ht0; exact Option.some.inj ht0
  subst ht0t
  have hcstat : c.status = TaskStatus.Running := by rw [← hc1, hstat]
  have hcrq : c.resreq = t.resreq := hc2.symm
  have hrmE := removeTask_eq_of_lookup node { t with status := TaskStatus.Releasing } c hc
  rw [hrmE] at hrm
  have hnrE : ({ node.removeTaskVect c with
      tasks := eraseKey (PodKey { t with status := TaskStatus.Releasing }) (node.removeTaskVect c).tasks } : NodeInfo) = nr :=
    Except.ok.inj hrm
  have rve := removeTaskVect_elim node c
  have hnrname : nr.name = node.name := by rw [← hnrE]; exact rve.1
  have hnrnode : nr.node = node.node := by rw [← hnrE]; exact rve.2.1
  have hnrstate : nr.state = node.state := by rw [← hnrE]; exact rve.2.2.1
  have hnralloc : nr.allocatable = node.allocatable := by rw [← hnrE]; exact rve.2.2.2.1
  have hnrcap : nr.capability = node.capability := by rw [← hnrE]; exact rve.2.2.2.2.1
  have hnrtasks : nr.tasks = eraseKey t.uid node.tasks := by
    rw [← hnrE]
    show eraseKey t.uid (node.removeTaskVect c).tasks = _
    exact congrArg (eraseKey t.uid) rve.2.2.2.2.2.1
  have hNr : nr.name = t.nodeName := by rw [hnrname, hname]
  obtain ⟨ni2, hvect, hq1, -, -, -⟩ := addTask_ok_elim nr { t with status := TaskStatus.Releasing }
    node1 { t with status := TaskStatus.Releasing, nodeName := nr.name } ha
  have ave := addTaskVect_ok_elim nr { t with status := TaskStatus.Releasing } ni2 hvect
  have hnode1name : node1.name = nr.name := by rw [hq1]; exact ave.1
  have hnode1node : node1.node = nr.node := by rw [hq1]; exact ave.2.1
  have hnode1state : node1.state = nr.state := by rw [hq1]; exact ave.2.2.1
  have hnode1alloc : node1.allocatable = nr.allocatable := by rw [hq1]; exact ave.2.2.2.1
  have hnode1cap : node1.capability = nr.capability := by rw [hq1]; exact ave.2.2.2.2.1
  have hnode1idle : node1.idle = ni2.idle := by rw [hq1]
  have hnode1used : node1.used = ni2.used := by rw [hq1]
  have hnode1rel : node1.releasing = ni2.releasing := by rw [hq1]
  have hnode1pip : node1.pipelined = ni2.pipelined := by rw [hq1]
  have hnode1tasks : node1.tasks
      = (t.uid, { t with status := TaskStatus.Releasing, nodeName := nr.name }) :: eraseKey t.uid node.tasks := by
    rw [hq1]
    show (t.uid, { t with status := TaskStatus.Releasing, nodeName := nr.name }) :: ni2.tasks = _
    rw [ave.2.2.2.2.2.1, hnrtasks]
  obtain ⟨ja, hja, hta, -, hjobs⟩ := unevict_jobs_half ssn0 t j a D
    { t with status := TaskStatus.Releasing, nodeName := nr.name } hj ht hstat hI
    rfl rfl rfl rfl rfl hrel.1 hD
  have hread : Session.readTask a { t with status := TaskStatus.Releasing, nodeName := nr.name }
      = { t with status := TaskStatus.Releasing, nodeName := nr.name } := by
    show (((alookup t.job a.jobs).map JobInfo.tasks).bind (alookup t.uid)).getD
      { t with status := TaskStatus.Releasing, nodeName := nr.name } = _
    rw [hja]
    show (alookup t.uid ja.tasks).getD { t with status := TaskStatus.Releasing, nodeName := nr.name } = _
    rw [hta]
    rfl
  have hupd := updateTaskStatus_eq ja { t with status := TaskStatus.Releasing, nodeName := nr.name }
    .Running { t with status := TaskStatus.Releasing, nodeName := nr.name } hta
  have hs := sessionUpdateStatus_found a { t with status := TaskStatus.Releasing, nodeName := nr.name }
    .Running ja _ hja hupd
  have h3 := alookup_forall₂ (fun _ x y => nodeRel x y) hrel.2 t.nodeName
  rw [alookup_setKey_self t.nodeName node1 node ssn0.nodes hn] at h3
  cases han : alookup t.nodeName a.nodes with
  | none => rw [han] at h3; exact absurd h3 (by simp [optRel])
  | some na =>
    rw [han] at h3
    obtain ⟨hnaname, hnanode, hnastate, hnaalloc, hnacap, hnaidle, hnaused, hnarel,
      hnapip, hnamap, hndA, hndB⟩ := h3
    have hclB := hnamap t.uid
    rw [hnode1tasks, alookup_cons, if_pos rfl] at hclB
    cases hca : alookup t.uid na.tasks with
    | none => rw [hca] at hclB; exact absurd hclB (by simp [optRel])
    | some ca =>
      rw [hca] at hclB
      have hcas : ca.status = TaskStatus.Releasing := hclB.1
      have hcar : ca.resreq = t.resreq := hclB.2
      have hrmA := removeTask_eq_of_lookup na
        { t with nodeName := nr.name, status := TaskStatus.Running } ca
        (show alookup (PodKey { t with nodeName := nr.name, status := TaskStatus.Running }) na.tasks
          = some ca from hca)
      have rveA := removeTaskVect_elim na ca
      have hRAname : (na.removeTaskVect ca).name = nr.name := by
        rw [rveA.1, hnaname]
        exact hnode1name
      have hfreshA : alookup t.uid (eraseKey t.uid (na.removeTaskVect ca).tasks) = none := by
        rw [rveA.2.2.2.2.2.1]
        exact alookup_eraseKey_self t.uid na.tasks hndA
      have hkey : ∃ ni2A, NodeInfo.addTaskVect
          { na.removeTaskVect ca with tasks := eraseKey t.uid (na.removeTaskVect ca).tasks }
          { t with nodeName := nr.name, status := TaskStatus.Running }
          = .ok ni2A ∧ req ni2A.idle node.idle ∧ req ni2A.used node.used ∧
          req ni2A.releasing node.releasing ∧ req ni2A.pipelined node.pipelined := by
        cases hnn : node.node with
        | none =>
          have hv0 : node.removeTaskVect c = node := by
            rcases rve.2.2.2.2.2.2 with ⟨-, he⟩ | ⟨hne, -⟩
            · exact he
            · exact absurd hnn hne
          have hnrnode0 : nr.node = none := by rw [hnrnode, hnn]
          have hni2E : ni2 = nr := by
            rcases ave.2.2.2.2.2.2 with ⟨-, he⟩ | ⟨hne, -⟩
            · exact he
            · exact absurd hnrnode0 hne
          have hnanode0 : na.node = none := by rw [hnanode, hnode1node, hnrnode0]
          have hrvAE : na.removeTaskVect ca = na := by
            rcases rveA.2.2.2.2.2.2 with ⟨-, he⟩ | ⟨hne, -⟩
            · exact he
            · exact absurd hnanode0 hne
          have hRAnode : ({ na.removeTaskVect ca with
              tasks := eraseKey t.uid (na.removeTaskVect ca).tasks } : NodeInfo).node = none := by
            show (na.removeTaskVect ca).node = none
            rw [rveA.2.1, hnanode0]
          refine ⟨_, addTaskVect_none _ _ hRAnode, ?_, ?_, ?_, ?_⟩
          · intro d
            show (na.removeTaskVect ca).idle.get d = node.idle.get d
            rw [hrvAE, hnaidle d, hnode1idle, hni2E, ← hnrE]
            dsimp only
            rw [hv0]
          · intro d
            show (na.removeTaskVect ca).used.get d = node.used.get d
            rw [hrvAE, hnaused d, hnode1used, hni2E, ← hnrE]
            dsimp only
            rw [hv0]
          · intro d
            show (na.removeTaskVect ca).releasing.get d = node.releasing.get d
            rw [hrvAE, hnarel d, hnode1rel, hni2E, ← hnrE]
            dsimp only
            rw [hv0]
          · intro d
            show (na.removeTaskVect ca).pipelined.get d = node.pipelined.get d
            rw [hrvAE, hnapip d, hnode1pip, hni2E, ← hnrE]
            dsimp only
            rw [hv0]
        | some k =>
          have hnrnodeS : nr.node = some k := by rw [hnrnode, hnn]
          have hnanodeS : na.node = some k := by rw [hnanode, hnode1node, hnrnodeS]
          have hfv : ∀ d, (node.removeTaskVect c).idle.get d = node.idle.get d + t.resreq.get d ∧
              (node.removeTaskVect c).used.get d = node.used.get d - t.resreq.get d ∧
              (node.removeTaskVect c).releasing.get d = node.releasing.get d ∧
              (node.removeTaskVect c).pipelined.get d = node.pipelined.get d := by
            rcases rve.2.2.2.2.2.2 with ⟨hne0, -⟩ | ⟨-, hv⟩
            · rw [hnn] at hne0; exact absurd hne0 (by simp)
            · intro d
              obtain ⟨x1, x2, x3, x4⟩ := hv d
              rw [hcstat, hcrq] at x1 x2 x3 x4
              rw [dReg_running] at x1 x2
              rw [dRel_running] at x3
              rw [dPip_running] at x4
              exact ⟨x1, x2, by omega, by omega⟩
          rcases ave.2.2.2.2.2.2 with ⟨hne0, -⟩ | ⟨-, hgF, hav⟩
          · rw [hnrnodeS] at hne0; exact absurd hne0 (by simp)
          have hgF2 : Resource.lessEqual t.resreq nr.idle = true :=
            hgF (fun hx => TaskStatus.noConfusion hx)
          have hav2 : ∀ d, ni2.idle.get d = nr.idle.get d - t.resreq.get d ∧
              ni2.used.get d = nr.used.get d + t.resreq.get d ∧
              ni2.releasing.get d = nr.releasing.get d + t.resreq.get d ∧
              ni2.pipelined.get d = nr.pipelined.get d := by
            intro d
            obtain ⟨x1, x2, x3, x4⟩ := hav d
            dsimp only at x1 x2 x3 x4
            rw [dReg_releasing] at x1 x2
            rw [dRel_releasing] at x3
            rw [dPip_releasing] at x4
            exact ⟨x1, x2, x3, by omega⟩
          have hbv : ∀ d, (na.removeTaskVect ca).idle.get d = na.idle.get d + t.resreq.get d ∧
              (na.removeTaskVect ca).used.get d = na.used.get d - t.resreq.get d ∧
              (na.removeTaskVect ca).releasing.get d = na.releasing.get d - t.resreq.get d ∧
              (na.removeTaskVect ca).pipelined.get d = na.pipelined.get d := by
            rcases rveA.2.2.2.2.2.2 with ⟨hne0, -⟩ | ⟨-, hv⟩
            · rw [hnanodeS] at hne0; exact absurd hne0 (by simp)
            · intro d
              obtain ⟨x1, x2, x3, x4⟩ := hv d
              rw [hcas, hcar] at x1 x2 x3 x4
              rw [dReg_releasing] at x1 x2
              rw [dRel_releasing] at x3
              rw [dPip_releasing] at x4
              exact ⟨x1, x2, x3, by omega⟩
          have hreqI : req (na.removeTaskVect ca).idle nr.idle := by
            intro d
            rw [(hbv d).1, hnaidle d, hnode1idle, (hav2 d).1]
            omega
          have hRAnodeS : ({ na.removeTaskVect ca with
              tasks := eraseKey t.uid (na.removeTaskVect ca).tasks } : NodeInfo).node = some k := by
            show (na.removeTaskVect ca).node = some k
            rw [rveA.2.1, hnanodeS]
          have hle : Resource.lessEqual
              ({ t with nodeName := nr.name, status := TaskStatus.Running } : TaskInfo).resreq
              ({ na.removeTaskVect ca with tasks := eraseKey t.uid (na.removeTaskVect ca).tasks } : NodeInfo).idle = true := by
            show Resource.lessEqual t.resreq (na.removeTaskVect ca).idle = true
            rw [lessEqual_congr t.resreq (na.removeTaskVect ca).idle nr.idle hreqI]
            exact hgF2
          have hvectA := addTaskVect_running
            { na.removeTaskVect ca with tasks := eraseKey t.uid (na.removeTaskVect ca).tasks }
            { t with nodeName := nr.name, status := TaskStatus.Running }
            k hRAnodeS rfl hle
          have aveK := addTaskVect_ok_elim _ _ _ hvectA
          rcases aveK.2.2.2.2.2.2 with ⟨hne0, -⟩ | ⟨-, -, havA⟩
          · exact absurd (show (na.removeTaskVect ca).node = none from hne0)
              (by rw [rveA.2.1, hnanodeS]; simp)
          refine ⟨_, hvectA, ?_, ?_, ?_, ?_⟩
          · intro d
            rw [(havA d).1]
            dsimp only
            rw [dReg_running, (hbv d).1, hnaidle d, hnode1idle, (hav2 d).1, ← hnrE]
            dsimp only
            rw [(hfv d).1]
            omega
          · intro d
            rw [(havA d).2.1]
            dsimp only
            rw [dReg_running, (hbv d).2.1, hnaused d, hnode1used, (hav2 d).2.1, ← hnrE]
            dsimp only
            rw [(hfv d).2.1]
            omega
          · intro d
            rw [(havA d).2.2.1]
            dsimp only
            rw [dRel_running, (hbv d).2.2.1, hnarel d, hnode1rel, (hav2 d).2.2.1, ← hnrE]
            dsimp only
            rw [(hfv d).2.2.1]
            omega
          · intro d
            rw [(havA d).2.2.2]
            dsimp only
            rw [dPip_running, (hbv d).2.2.2, hnapip d, hnode1pip, (hav2 d).2.2.2, ← hnrE]
            dsimp only
            rw [(hfv d).2.2.2]
            omega
      obtain ⟨ni2A, hvectA, hriF, hruF, hrrF, hrpF⟩ := hkey
      have aveA := addTaskVect_ok_elim _ _ _ hvectA
      have hni2Aname : ni2A.name = nr.name := by
        rw [aveA.1]
        exact hRAname
      have hni2Atasks : ni2A.tasks = eraseKey t.uid na.tasks := by
        rw [aveA.2.2.2.2.2.1]
        show eraseKey t.uid (na.removeTaskVect ca).tasks = _
        exact congrArg (eraseKey t.uid) rveA.2.2.2.2.2.1
      have hguardB : ¬(({ t with nodeName := nr.name, status := TaskStatus.Running } : TaskInfo).nodeName.length > 0 ∧
          ({ na.removeTaskVect ca with tasks := eraseKey t.uid (na.removeTaskVect ca).tasks } : NodeInfo).name.length > 0 ∧
          ({ t with nodeName := nr.name, status := TaskStatus.Running } : TaskInfo).nodeName
            ≠ ({ na.removeTaskVect ca with tasks := eraseKey t.uid (na.removeTaskVect ca).tasks } : NodeInfo).name) := by
        intro hcontra
        exact hcontra.2.2 hRAname.symm
      have haA := addTask_intro
        { na.removeTaskVect ca with tasks := eraseKey t.uid (na.removeTaskVect ca).tasks }
        { t with nodeName := nr.name, status := TaskStatus.Running }
        ni2A hguardB hfreshA hvectA
      have hn_a : alookup nr.name a.nodes = some na := by rw [hNr]; exact han
      refine ⟨⟨setKey t.job { ja with tasks := setKey t.uid { t with nodeName := nr.name, status := TaskStatus.Running } ja.tasks } a.jobs, setKey nr.name { ni2A with tasks := (t.uid, { t with nodeName := nr.name, status := TaskStatus.Running }) :: ni2A.tasks } a.nodes⟩, ?_, hjobs, ?_⟩
      · rw [unevict_eq_ok a _ _ _ na _ _ hread hs hn_a hrmA haA]
        rw [show ({ na.removeTaskVect ca with tasks := eraseKey t.uid (na.removeTaskVect ca).tasks } : NodeInfo).name = nr.name from hRAname]
        exact congrArg some (writeTask_collapse a.jobs _ t
          { t with nodeName := nr.name, status := TaskStatus.Running }
          { t with nodeName := nr.name, status := TaskStatus.Running }
          ja hja (by rw [hta]; rfl) rfl rfl)
      · show List.Forall₂ (fun p q => p.1 = q.1 ∧ nodeRel p.2 q.2)
          (setKey nr.name { ni2A with tasks := (t.uid, { t with nodeName := nr.name, status := TaskStatus.Running }) :: ni2A.tasks } a.nodes)
          ssn0.nodes
        rw [hNr]
        refine forall₂_setKey_both (fun _ x y => nodeRel x y) (fun _ x y => nodeRel x y)
          t.nodeName _ node1 hI.2.2.1 hrel.2 (fun _ _ _ _ hr => hr) (fun u hu => ?_)
        have hun : u = node := Option.some.inj (by rw [← hn, hu])
        subst hun
        refine ⟨?_, ?_, ?_, ?_, ?_, ?_, ?_, ?_, ?_, ?_, ?_, ?_⟩
        · show ni2A.name = u.name
          rw [hni2Aname, hnrname]
        · show ni2A.node = u.node
          rw [aveA.2.1]
          show (na.removeTaskVect ca).node = u.node
          rw [rveA.2.1, hnanode, hnode1node, hnrnode]
        · show ni2A.state = u.state
          rw [aveA.2.2.1]
          show (na.removeTaskVect ca).state = u.state
          rw [rveA.2.2.1, hnastate, hnode1state, hnrstate]
        · show ni2A.allocatable = u.allocatable
          rw [aveA.2.2.2.1]
          show (na.removeTaskVect ca).allocatable = u.allocatable
          rw [rveA.2.2.2.1, hnaalloc, hnode1alloc, hnralloc]
        · show ni2A.capability = u.capability
          rw [aveA.2.2.2.2.1]
          show (na.removeTaskVect ca).capability = u.capability
          rw [rveA.2.2.2.2.1, hnacap, hnode1cap, hnrcap]
        · exact hriF
        · exact hruF
        · exact hrrF
        · exact hrpF
        · intro k
          show optRel cloneRel
            (alookup k ((t.uid, { t with nodeName := t.nodeName, status := TaskStatus.Running }) :: ni2A.tasks))
            (alookup k u.tasks)
          by_cases hk : k = t.uid
          · subst hk
            rw [alookup_cons, if_pos rfl, hc]
            exact ⟨hcstat.symm, hcrq.symm⟩
          · rw [alookup_cons, if_neg (fun he => hk he.symm)]
            rw [hni2Atasks, alookup_eraseKey_ne k t.uid na.tasks (fun he => hk he.symm)]
            have hm := hnamap k
            rw [hnode1tasks, alookup_cons, if_neg (fun he => hk he.symm),
              alookup_eraseKey_ne k t.uid u.tasks (fun he => hk he.symm)] at hm
            exact hm
        · show (((t.uid, { t with nodeName := t.nodeName, status := TaskStatus.Running }) :: ni2A.tasks).map Prod.fst).Nodup
          rw [List.map_cons]
          refine List.nodup_cons.mpr ⟨?_, ?_⟩
          · intro hmem
            rw [hni2Atasks] at hmem
            have hsome := alookup_isSome_of_mem_keys t.uid _ hmem
            rw [alookup_eraseKey_self t.uid na.tasks hndA] at hsome
            simp at hsome
          · rw [hni2Atasks]
            exact nodup_keys_eraseKey t.uid na.tasks hndA
        · exact (hI.1 t.nodeName u hn).2.2

theorem discardOps_cons (ssn : Session) (op : Operation) (rest : List Operation) :
    discardOps ssn (op :: rest)
      = match discardStep ssn op with
        | none => none
        | some ssn1 => discardOps ssn1 rest := rfl

theorem discardOps_append (l1 l2 : List Operation) (ssn : Session) :
    discardOps ssn (l1 ++ l2)
      = match discardOps ssn l1 with
        | none => none
        | some s1 => discardOps s1 l2 := by
  induction l1 generalizing ssn with
  | nil => rfl
  | cons op rest ih =>
    show discardOps ssn (op :: (rest ++ l2)) = _
    rw [discardOps_cons, discardOps_cons]
    cases hstep : discardStep ssn op with
    | none => rfl
    | some ssn1 => exact ih ssn1

theorem steps_inv {s : Statement} {cs : List Cmd} {s2 : Statement}
    (hsteps : Steps s cs s2) (hI : SessInv s.ssn) (hU : UidUnique s.ssn) :
    SessInv s2.ssn ∧ UidUnique s2.ssn := by
  induction hsteps with
  | nil => exact ⟨hI, hU⟩
  | cons hpre hrun hrest ih =>
    rename_i s c s1 cs' s2'
    obtain ⟨hI1, hU1⟩ := inv_step hI hU hpre hrun
    exact ih hI1 hU1

theorem alookup_of_mem_of_nodup {α : Type} (l : List (String × α)) (p : String × α)
    (hnd : (l.map Prod.fst).Nodup) (hmem : p ∈ l) : alookup p.1 l = some p.2 := by
  induction l with
  | nil => simp at hmem
  | cons q rest ih =>
    obtain ⟨qk, qv⟩ := q
    simp only [List.map_cons, List.nodup_cons] at hnd
    rcases List.mem_cons.mp hmem with hp | hp
    · subst hp
      rw [alookup_cons, if_pos rfl]
    · have hne : ¬ qk = p.1 := by
        intro he
        exact hnd.1 (he ▸ (List.mem_map.mpr ⟨p, hp, rfl⟩))
      rw [alookup_cons, if_neg hne]
      exact ih hnd.2 hp

theorem sessRel_refl_of_inv (ssn : Session) (hI : SessInv ssn) : sessRel [] ssn ssn := by
  refine ⟨forall₂_refl_of_pointwise (fun k x y => jobRel [] k x y) ssn.jobs
    (fun p _ => jobRel_refl [] p.1 p.2), ?_⟩
  refine forall₂_refl_of_pointwise (fun _ x y => nodeRel x y) ssn.nodes (fun p hp => ?_)
  refine nodeRel_refl p.2 ?_
  exact (hI.1 p.1 p.2 (alookup_of_mem_of_nodup ssn.nodes p hI.2.2.1 hp)).2.2
